import Mathlib

/-!
# Chrome shortcut overlay: element discovery, label allocation, keystroke matcher

A shallow embedding of `src/content/dom-scanner.js`, `src/content/element-resolver.js`,
`src/content/overlay.js`, `src/content/input-manager.js` and `src/content/content.js`.

Modelling conventions:

* A finite JavaScript number (a binary64 value) is the rational it denotes (`ℚ`);
  pixel coordinates and sizes are such values.  Arithmetic on them is IEEE 754
  arithmetic: the exact result rounded to the nearest binary64 value, ties to even
  (`JS.toDouble`), with overflow to an infinity (`JS.Number`).  Comparisons of finite
  numbers, halving and `Math.round` are exact.  `Date.now()` is an integer number of
  milliseconds.
* JavaScript strings are `String`; the built-in string methods used by the sources
  are the definitions of the `JS` namespace below.  `toUpperCase` / `toLowerCase`
  act on the ASCII letters, which is exact for every string of ASCII characters;
  cased letters outside ASCII are not modelled.
* DOM element handles are natural numbers; the DOM ancestor relation
  (`Node.contains`) is a parameter.
* Calls into collaborators (overlay renderer, click simulator, event methods) are
  recorded in an effect trace carried by the state.
-/

namespace ShortcutOverlay

/-! ## JavaScript built-ins -/

namespace JS

/-- `String.prototype.startsWith`: `p` is an initial segment of `s`. -/
def startsWith (s p : String) : Bool := p.data.isPrefixOf s.data

/-- `String.prototype.toUpperCase` on the ASCII letters: exact for every string of ASCII
characters.  It is applied to typed letters and to the two-letter codes. -/
def toUpperCase (s : String) : String := ⟨s.data.map Char.toUpper⟩

/-- `String.prototype.toLowerCase` on the ASCII letters: exact for every string of ASCII
characters; cased letters outside ASCII, which JavaScript also maps, are left as they
are. -/
def toLowerCase (s : String) : String := ⟨s.data.map Char.toLower⟩

/-- `String.prototype.length`: the number of UTF-16 code units. -/
def length (s : String) : Nat := (s.data.map (fun c => if c.val < 0x10000 then 1 else 2)).sum

/-- `key.match(/[a-zA-Z]/)` as a truth value: some character is an ASCII letter. -/
def matchesLetter (s : String) : Bool := s.data.any Char.isAlpha

/-- `Math.round`: the nearest integer, halves rounded towards positive infinity. -/
def round (q : ℚ) : Int := ⌊q + 1 / 2⌋

/-- Truthiness of a value that is either `null` (`none`) or a string. -/
def truthy : Option String → Bool
  | none => false
  | some s => s ≠ ""

/-- The exponent of the binary64 unit in the last place at the magnitude `a > 0`:
`⌊log2 a⌋ - 52` for normal numbers and `-1074` for subnormal ones. -/
def ulpExponent (a : ℚ) : Int := max (Int.log 2 a - 52) (-1074)

/-- The integer nearest to `s`, ties to the even one. -/
def roundTiesToEven (s : ℚ) : Int :=
  if s - ⌊s⌋ < 1 / 2 then ⌊s⌋
  else if 1 / 2 < s - ⌊s⌋ then ⌊s⌋ + 1
  else if ⌊s⌋ % 2 = 0 then ⌊s⌋ else ⌊s⌋ + 1

/-- The binary64 value nearest to `q` (IEEE 754 `roundTiesToEven`, 53-bit significand,
gradual underflow), with the exponent range unbounded above; overflow is handled by
`Number.ofExact`. -/
def toDouble (q : ℚ) : ℚ :=
  if q = 0 then 0
  else roundTiesToEven (q / 2 ^ ulpExponent |q|) * 2 ^ ulpExponent |q|

/-- A JavaScript number: a finite binary64 value, given by the rational it denotes (the
two zeros are not told apart; no operation used by the sources separates them), an
infinity, or `NaN`. -/
inductive Number where
  /-- A finite value. -/
  | finite (value : ℚ)
  /-- `Infinity` (`negative = false`) or `-Infinity`. -/
  | infinite (negative : Bool)
  /-- The value `NaN`. -/
  | nan
  deriving DecidableEq, Repr

/-- The number returned by an arithmetic operation whose exact result is `q`: `q` rounded
to binary64, or an infinity when the rounded magnitude reaches `2 ^ 1024`.  A decimal
literal of the source denotes `Number.ofExact` of its value. -/
def Number.ofExact (q : ℚ) : Number :=
  if 2 ^ 1024 ≤ |toDouble q| then Number.infinite (decide (q < 0))
  else Number.finite (toDouble q)

/-- The number is a zero. -/
def Number.isZero : Number → Bool
  | Number.finite value => decide (value = 0)
  | _ => false

/-- The number is below zero. -/
def Number.isNegative : Number → Bool
  | Number.finite value => decide (value < 0)
  | Number.infinite negative => negative
  | Number.nan => false

/-- The operator `*`. -/
def Number.mul : Number → Number → Number
  | Number.nan, _ => Number.nan
  | _, Number.nan => Number.nan
  | Number.finite a, Number.finite b => Number.ofExact (a * b)
  | a, b =>
    if a.isZero || b.isZero then Number.nan
    else Number.infinite (a.isNegative != b.isNegative)

/-- The operator `-`. -/
def Number.sub : Number → Number → Number
  | Number.nan, _ => Number.nan
  | _, Number.nan => Number.nan
  | Number.finite a, Number.finite b => Number.ofExact (a - b)
  | Number.finite _, Number.infinite negative => Number.infinite (!negative)
  | Number.infinite negative, Number.finite _ => Number.infinite negative
  | Number.infinite n, Number.infinite m => if n = m then Number.nan else Number.infinite n

/-- The function `Math.abs`. -/
def Number.abs : Number → Number
  | Number.finite value => Number.finite |value|
  | Number.infinite _ => Number.infinite false
  | Number.nan => Number.nan

/-- The operator `<`; `a > b` is `b < a`. -/
def Number.lt : Number → Number → Bool
  | Number.finite a, Number.finite b => decide (a < b)
  | Number.finite _, Number.infinite negative => !negative
  | Number.infinite negative, Number.finite _ => negative
  | Number.infinite n, Number.infinite m => n && !m
  | _, _ => false

end JS

/-! ## Data model (`dom-scanner.js`) -/

/-- An item pushed by `scanClickableElements`: `{x, y, width, height, element}`. -/
structure Candidate where
  x : ℚ
  y : ℚ
  width : ℚ
  height : ℚ
  element : Nat
  deriving DecidableEq, Repr

/-- The `position` object of a result entry. -/
structure Position where
  x : ℚ
  y : ℚ
  deriving DecidableEq, Repr

/-- A result entry of `scanCurrentViewport`: `{label, position, element}`. -/
structure LabeledTarget where
  label : String
  position : Position
  element : Nat
  deriving DecidableEq, Repr

/-! ## Code tables and label generation (`dom-scanner.js`, lines 512-553) -/

/-- The array `leftSequences` of `generateLeftLabel`. -/
def leftSequences : List String := [
  -- ASDF main sequences
  "AA", "AS", "AD", "AF", "AQ", "AW", "AE", "AG", "AJ", "AK", "AL",
  "SS", "SA", "SD", "SF", "SQ", "SW", "SE", "SG", "SJ", "SK", "SL",
  "DD", "DA", "DS", "DF", "DW", "DE", "DR", "DG", "DJ", "DK", "DL",
  "FF", "FA", "FS", "FD", "FE", "FR", "FT", "FG", "FJ", "FK", "FL",
  -- ASDF fallbacks
  "AZ", "AX", "AC", "SZ", "SX", "SC", "DX", "DC", "DV", "FX", "FC", "FV",
  "AT", "AV", "AY", "AB", "AU", "AN", "AI", "AM", "AO", "AP",
  "ST", "SV", "SY", "SB", "SU", "SN", "SI", "SM", "SO", "SP",
  "DQ", "DZ", "DT", "DB", "DY", "DN", "DI", "DM", "DO", "DP",
  "FM", "FP", "FZ", "FH", "FU", "FI", "FO", "FB", "FN", "FQ"]

/-- The array `rightSequences` of `generateRightLabel`. -/
def rightSequences : List String := [
  -- JKL main + extended
  "JJ", "JK", "JL", "JY", "JU", "JI", "JA", "JS", "JD", "JF",
  "KK", "KJ", "KL", "KU", "KI", "KO", "KA", "KS", "KD", "KF",
  "LL", "LJ", "LK", "LI", "LO", "LP", "LA", "LS", "LD", "LF",
  "JV", "JW", "JX", "JC", "JR", "KP", "KB", "KQ", "KZ", "KT", "KV", "KW", "KX", "KC",
  -- remaining JKL fallbacks
  "JM", "JN", "JH", "KM", "KN", "KH", "LM", "LN", "LH", "JT", "JZ", "JQ", "JB", "JP", "LU", "LB"]

/-- The common body of `generateLeftLabel` / `generateRightLabel` over a table:
`if (index >= 0 && index < table.length) return table[index]; return null;`. -/
def generateLabel (table : List String) (index : Int) : Option String :=
  if 0 ≤ index ∧ index < (table.length : Int) then table[index.toNat]? else none

/-- The method `generateLeftLabel(index)`. -/
def generateLeftLabel (index : Int) : Option String := generateLabel leftSequences index

/-- The method `generateRightLabel(index)`. -/
def generateRightLabel (index : Int) : Option String := generateLabel rightSequences index

/-! ## Sorting and structural deduplication (`dom-scanner.js`) -/

/-- The comparator `(a, b) => a.y - b.y || a.x - b.x`.  Only its sign is used, and the
binary64 difference of two finite values has the sign of the exact difference (it is
zero only for equal values), so the exact difference stands for it. -/
def compareByPosition (a b : Candidate) : ℚ :=
  if a.y - b.y ≠ 0 then a.y - b.y else a.x - b.x

/-- The call `elements.sort((a, b) => a.y - b.y || a.x - b.x)`: a stable sort in which
`a` stays before `b` when the comparator is not positive. -/
def sortByPosition (elements : List Candidate) : List Candidate :=
  elements.mergeSort (fun a b => decide (compareByPosition a b ≤ 0))

/-- The constant `proximityThreshold` of `deduplicateElements`. -/
def proximityThreshold : ℚ := 30

/-- The product `width * height` of an item, as `deduplicateElements` computes it. -/
def area (c : Candidate) : JS.Number :=
  (JS.Number.finite c.width).mul (JS.Number.finite c.height)

/-- The value `Math.abs(p - q)` for two coordinates, as `deduplicateElements` computes
`deltaX` and `deltaY`. -/
def distance (p q : ℚ) : JS.Number :=
  ((JS.Number.finite p).sub (JS.Number.finite q)).abs

/-- The inner loop `for (const existing of dedupedElements)` of `deduplicateElements`,
run over the kept list for the new candidate `element`.  The result is `none` when the
loop ends with `isDuplicate` still false, and otherwise the kept list as it stands at
the `break` (with `element` written over `existing` when the loop replaced it). -/
def dedupAgainst (contains : Nat → Nat → Bool) (element : Candidate) :
    List Candidate → Option (List Candidate)
  | [] => none
  | existing :: rest =>
    let isChildOfExisting := contains existing.element element.element
    let isParentOfExisting := contains element.element existing.element
    if isChildOfExisting then
      let existingArea := area existing
      let currentArea := area element
      if currentArea.lt (existingArea.mul (JS.Number.ofExact (8 / 10))) then
        some (element :: rest)
      else some (existing :: rest)
    else if isParentOfExisting then some (existing :: rest)
    else
      let deltaX := distance element.x existing.x
      let deltaY := distance element.y existing.y
      if deltaX.lt (JS.Number.finite proximityThreshold)
          && deltaY.lt (JS.Number.finite proximityThreshold) then
        if (area existing).lt (area element) then some (element :: rest)
        else some (existing :: rest)
      else (dedupAgainst contains element rest).map (fun kept => existing :: kept)

/-- One iteration of the outer loop `for (const element of elements)`: the kept list
after `element` has been compared with the kept candidates and, when it is not a
duplicate, pushed. -/
def dedupStep (contains : Nat → Nat → Bool) (dedupedElements : List Candidate)
    (element : Candidate) : List Candidate :=
  match dedupAgainst contains element dedupedElements with
  | some replaced => replaced
  | none => dedupedElements ++ [element]

/-- The method `deduplicateElements(elements)`; `contains a b` is
`a.contains(b)` on the DOM elements behind the handles. -/
def deduplicateElements (contains : Nat → Nat → Bool) (elements : List Candidate) :
    List Candidate :=
  elements.foldl (dedupStep contains) []

/-! ## The allocation step of `scanCurrentViewport` (lines 40-111) -/

/-- The body of the callback of `dedupedElements.forEach(...)` (lines 48-57): `el` is
pushed to `leftElements` when `el.x < viewportCenter` and to `rightElements`
otherwise. -/
def classifyStep (viewportCenter : ℚ) (sides : List Candidate × List Candidate)
    (el : Candidate) : List Candidate × List Candidate :=
  if el.x < viewportCenter then (sides.1 ++ [el], sides.2) else (sides.1, sides.2 ++ [el])

/-- The loop `dedupedElements.forEach(...)` of lines 48-57: the pair
`(leftElements, rightElements)` after every element has been pushed to one side. -/
def classifyElements (viewportCenter : ℚ) (dedupedElements : List Candidate) :
    List Candidate × List Candidate :=
  dedupedElements.foldl (classifyStep viewportCenter) ([], [])

/-- The array `leftElements` for the viewport width `window.innerWidth`. -/
def leftElements (innerWidth : ℚ) (dedupedElements : List Candidate) : List Candidate :=
  (classifyElements (innerWidth / 2) dedupedElements).1

/-- The array `rightElements` for the viewport width `window.innerWidth`. -/
def rightElements (innerWidth : ℚ) (dedupedElements : List Candidate) : List Candidate :=
  (classifyElements (innerWidth / 2) dedupedElements).2

/-- The result entry pushed for a candidate that received `label`; `posX = el.x + 5`
and `posY = el.y + 5` are binary64 sums (the sum of a finite binary64 value and 5 is
finite, so no infinity arises). -/
def labeledEntry (label : String) (el : Candidate) : LabeledTarget :=
  { label := label,
    position := { x := JS.toDouble (el.x + 5), y := JS.toDouble (el.y + 5) },
    element := el.element }

/-- The body of the callbacks of `leftElements.forEach((el, index) => ...)` and
`rightElements.forEach(...)` (lines 66-101): an element whose generated label is
truthy pushes an entry onto `results`. -/
def pushLabeled (generate : Int → Option String) (results : List LabeledTarget)
    (indexed : Nat × Candidate) : List LabeledTarget :=
  match generate (indexed.1 : Int) with
  | some label =>
    if JS.truthy (some label) then results ++ [labeledEntry label indexed.2] else results
  | none => results

/-- One of the loops `leftElements.forEach(...)` / `rightElements.forEach(...)`, run
with the array `results` as it stands when the loop starts. -/
def assignLabels (generate : Int → Option String) (sideElements : List Candidate)
    (results : List LabeledTarget) : List LabeledTarget :=
  sideElements.enum.foldl (pushLabeled generate) results

/-- Lines 40-101 of `scanCurrentViewport`: the array `results` built from the
deduplicated list for the viewport width `window.innerWidth`. -/
def allocateLabels (innerWidth : ℚ) (dedupedElements : List Candidate) :
    List LabeledTarget :=
  let results := assignLabels generateLeftLabel (leftElements innerWidth dedupedElements) []
  assignLabels generateRightLabel (rightElements innerWidth dedupedElements) results

/-- Lines 103-108: the number logged as overflow, when the message is logged. -/
def overflowReport (dedupedElements : List Candidate) (results : List LabeledTarget) :
    Option Nat :=
  let totalAssigned := results.length
  let totalElements := dedupedElements.length
  if totalAssigned < totalElements then some (totalElements - totalAssigned) else none

/-- The `try` block of `scanCurrentViewport` from the list returned by
`scanClickableElements`: sort, deduplicate, allocate.  The value is the array handed
to `ElementResolver.setElements`. -/
def scanResults (contains : Nat → Nat → Bool) (innerWidth : ℚ) (elements : List Candidate) :
    List LabeledTarget :=
  let sortedElements := sortByPosition elements
  let dedupedElements := deduplicateElements contains sortedElements
  allocateLabels innerWidth dedupedElements

/-! ## Collaborator state and the effect trace -/

/-- A call into a collaborator, recorded in the order in which the code makes it. -/
inductive Effect where
  /-- `event.preventDefault()` on the key event being handled. -/
  | preventDefault
  /-- `event.stopPropagation()` on the key event being handled. -/
  | stopPropagation
  /-- The callback `this.onToggle()` invoked by `InputManager`. -/
  | onToggle
  /-- The callback `this.onCancel()` invoked by `InputManager`. -/
  | onCancel
  /-- The callback `this.onSequence(sequence)` invoked by `InputManager`. -/
  | onSequence (sequence : String)
  /-- The call `overlayRenderer.renderLabels(elements)`. -/
  | renderLabels (elements : List LabeledTarget)
  /-- The call `overlayRenderer.filterLabels(typed)`. -/
  | filterLabels (typed : String)
  /-- The call `overlayRenderer.hideAll()`. -/
  | hideAll
  /-- The call `ClickSimulator.clickAt(x, y)`. -/
  | clickAt (x y : Int)
  deriving DecidableEq, Repr

/-- A label element created by `OverlayRenderer.createLabel`; `shown` is false when
`filterLabels` has set `display: none` on it. -/
structure OverlayLabel where
  text : String
  position : Position
  shown : Bool
  deriving DecidableEq, Repr

/-- The fields of `OverlayRenderer` (`overlay.js`). -/
structure OverlayRenderer where
  labels : List OverlayLabel
  isVisible : Bool
  deriving DecidableEq, Repr

/-- The field of `ElementResolver` (`element-resolver.js`). -/
structure ElementResolver where
  elements : List LabeledTarget
  deriving DecidableEq, Repr

/-- The mutable fields of `InputManager` (`input-manager.js`). -/
structure InputManager where
  currentSequence : String
  keyPressed : List String
  sequenceListeningActive : Bool
  lastToggleTime : Int
  shortcutKeys : List String
  deriving DecidableEq, Repr

/-- The fields of `ChromeShortcutExtension` (`content.js`). -/
structure ChromeShortcutExtension where
  elements : List LabeledTarget
  isOverlayVisible : Bool
  preloadComplete : Bool
  currentInput : String
  deriving DecidableEq, Repr

/-- The singletons of one page together with the trace of collaborator calls. -/
structure World where
  inputManager : InputManager
  extension : ChromeShortcutExtension
  overlayRenderer : OverlayRenderer
  elementResolver : ElementResolver
  trace : List Effect
  deriving DecidableEq, Repr

/-- The fields of a `KeyboardEvent` read by `InputManager`; `key` is `none` when
`event.key` is `undefined` or `null`. -/
structure KeyEvent where
  key : Option String
  altKey : Bool
  ctrlKey : Bool
  shiftKey : Bool
  metaKey : Bool
  deriving DecidableEq, Repr

/-- What the live document contributes to one scan: the viewport width, the DOM
ancestor relation, and the list returned by `scanClickableElements` (`none` when the
discovery throws). -/
structure Page where
  innerWidth : ℚ
  contains : Nat → Nat → Bool
  clickable : Option (List Candidate)

/-- What the document does with one `ClickSimulator.clickAt` call: the boolean it
returns, and whether a click or mouse event was dispatched, in which case the
capturing `click` / `mousedown` listeners of `content.js` run `handleClick`. -/
structure ClickOutcome where
  success : Bool
  dispatched : Bool
  deriving DecidableEq, Repr

/-- Appends a collaborator call to the trace. -/
def emit (e : Effect) (w : World) : World := { w with trace := w.trace ++ [e] }

/-! ## `ElementResolver` and `OverlayRenderer` -/

/-- The method `ElementResolver.setElements(elements)`. -/
def setElements (elements : List LabeledTarget) (w : World) : World :=
  { w with elementResolver := { elements := elements } }

/-- The method `ElementResolver.resolveElements()`. -/
def resolveElements (r : ElementResolver) : List LabeledTarget :=
  if r.elements.length = 0 then [] else r.elements

/-- The method `OverlayRenderer.hideAll()`. -/
def hideAll (w : World) : World :=
  emit Effect.hideAll { w with overlayRenderer := { labels := [], isVisible := false } }

/-- The method `OverlayRenderer.renderLabels(elements)`. -/
def renderLabels (elements : List LabeledTarget) (w : World) : World :=
  emit (Effect.renderLabels elements)
    { w with overlayRenderer :=
        { labels := elements.map (fun element =>
            { text := element.label, position := element.position, shown := true }),
          isVisible := true } }

/-- The method `OverlayRenderer.filterLabels(typed)`. -/
def filterLabels (typed : String) (w : World) : World :=
  emit (Effect.filterLabels typed)
    { w with overlayRenderer :=
        { w.overlayRenderer with
          labels := w.overlayRenderer.labels.map (fun label =>
            { label with
              shown := JS.startsWith (JS.toUpperCase label.text) (JS.toUpperCase typed) }) } }

/-! ## `InputManager`: state setters and shortcut detection -/

/-- The field `toggleDebounceMs`, set to 300 by the constructor and never reassigned. -/
def toggleDebounceMs : Int := 300

/-- The method `InputManager.clearSequence()`. -/
def clearSequence (w : World) : World :=
  { w with inputManager := { w.inputManager with currentSequence := "", keyPressed := [] } }

/-- The method `InputManager.setSequenceListening(active)`. -/
def setSequenceListening (active : Bool) (w : World) : World :=
  { w with inputManager :=
      { w.inputManager with
        sequenceListeningActive := active, currentSequence := "", keyPressed := [] } }

/-- The method `InputManager.updateShortcutKeys(keys)`; `none` is a falsy argument. -/
def updateShortcutKeys (keys : Option (List String)) (w : World) : World :=
  { w with inputManager :=
      { w.inputManager with shortcutKeys := keys.getD ["Control", "Alt"] } }

/-- The array `modifierKeys` of `isToggleShortcutPressed`. -/
def modifierKeys : List String := ["Control", "Alt", "Shift", "Meta"]

/-- The object `requiredKeys` of `isToggleShortcutPressed`, as its entries in
insertion order. -/
def requiredKeys (event : KeyEvent) : List (String × Bool) :=
  [("Alt", event.altKey), ("Control", event.ctrlKey), ("Shift", event.shiftKey),
   ("Meta", event.metaKey)]

/-- The callback of `requiredModifiers.every(...)`. -/
def modifierPressed (event : KeyEvent) (key : String) : Bool :=
  if key = "Control" then event.ctrlKey
  else if key = "Alt" then event.altKey
  else if key = "Shift" then event.shiftKey
  else if key = "Meta" then event.metaKey
  else false

/-- The method `InputManager.isToggleShortcutPressed(event)` for the current
`shortcutKeys`. -/
def isToggleShortcutPressed (shortcutKeys : List String) (event : KeyEvent) : Bool :=
  let requiredModifiers := shortcutKeys.filter (fun key => modifierKeys.contains key)
  let requiredRegularKeys := shortcutKeys.filter (fun key => !modifierKeys.contains key)
  let allModifiersPressed := requiredModifiers.all (modifierPressed event)
  let regularKeyMatches :=
    requiredRegularKeys.length == 0 ||
      requiredRegularKeys.any (fun key =>
        event.key == some key || event.key == some (JS.toLowerCase key))
  let noExtraModifiers := (requiredKeys event).all (fun entry =>
    if requiredModifiers.contains entry.1 then true else !entry.2)
  allModifiersPressed && regularKeyMatches && noExtraModifiers

/-- The method `InputManager.isToggleShortcutPressed(event)` with the built-in
`String.prototype.toLowerCase` taken as the parameter `toLowerCase`;
`isToggleShortcutPressed` is the instance for `JS.toLowerCase`. -/
def isToggleShortcutPressedWith (toLowerCase : String → String) (shortcutKeys : List String)
    (event : KeyEvent) : Bool :=
  let requiredModifiers := shortcutKeys.filter (fun key => modifierKeys.contains key)
  let requiredRegularKeys := shortcutKeys.filter (fun key => !modifierKeys.contains key)
  let allModifiersPressed := requiredModifiers.all (modifierPressed event)
  let regularKeyMatches :=
    requiredRegularKeys.length == 0 ||
      requiredRegularKeys.any (fun key =>
        event.key == some key || event.key == some (toLowerCase key))
  let noExtraModifiers := (requiredKeys event).all (fun entry =>
    if requiredModifiers.contains entry.1 then true else !entry.2)
  allModifiersPressed && regularKeyMatches && noExtraModifiers

/-! ## `ChromeShortcutExtension` (`content.js`) -/

/-- The method `clearOverlay()`. -/
def clearOverlay (w : World) : World :=
  let w := hideAll w
  let w := { w with extension := { w.extension with isOverlayVisible := false } }
  let w := setSequenceListening false w
  { w with extension := { w.extension with currentInput := "" } }

/-- The method `handleScroll()`. -/
def handleScroll (w : World) : World :=
  if w.extension.isOverlayVisible then clearOverlay w else w

/-- The method `handleClick(event)`. -/
def handleClick (w : World) : World :=
  if w.extension.isOverlayVisible then clearOverlay w else w

/-- The call `window.ClickSimulator.clickAt(x, y)` as seen from `content.js`: the call
is recorded, a dispatched click reaches `handleClick`, and the boolean is returned. -/
def clickAt (click : ClickOutcome) (x y : Int) (w : World) : World × Bool :=
  let w := emit (Effect.clickAt x y) w
  let w := if click.dispatched then handleClick w else w
  (w, click.success)

/-- The expression `this.elements.filter(element =>
element.label.startsWith(this.currentInput))` of `handleKeySequence`. -/
def matchingElements (elements : List LabeledTarget) (currentInput : String) :
    List LabeledTarget :=
  elements.filter (fun element => JS.startsWith element.label currentInput)

/-- The method `handleKeySequence(sequence)`; `matched` is the array the source calls
`matches`. -/
def handleKeySequence (click : ClickOutcome) (sequence : String) (w : World) : World :=
  if !w.extension.isOverlayVisible then w
  else if sequence = "ESCAPE" then clearOverlay w
  else
    let currentInput := JS.toUpperCase sequence
    let w := { w with extension := { w.extension with currentInput := currentInput } }
    let matched := matchingElements w.extension.elements currentInput
    if matched.length = 1 ∧ matched.head?.map (fun m => m.label) = some currentInput then
      let target := matched.head?.map (fun m => m.position)
      let x := JS.round ((target.map (fun q => q.x)).getD 0)
      let y := JS.round ((target.map (fun q => q.y)).getD 0)
      let w := (clickAt click x y w).1
      let w := { w with extension := { w.extension with currentInput := "" } }
      clearOverlay w
    else if matched.length = 0 then
      let w := { w with extension := { w.extension with currentInput := "" } }
      clearOverlay w
    else filterLabels currentInput w

/-- The method `DomScanner.scanCurrentViewport()` as far as other components see it:
the `try` block hands `results` to `ElementResolver.setElements`, the `catch` block
hands it the empty array. -/
def scanCurrentViewport (page : Page) (w : World) : World :=
  match page.clickable with
  | some elements => setElements (scanResults page.contains page.innerWidth elements) w
  | none => setElements [] w

/-- The method `toggleOverlay()`, run to completion (no other handler runs between the
`await` and the rest of the method). -/
def toggleOverlay (page : Page) (w : World) : World :=
  if w.extension.isOverlayVisible then
    let w := hideAll w
    let w := { w with extension := { w.extension with isOverlayVisible := false } }
    let w := setSequenceListening false w
    clearSequence w
  else if !w.extension.preloadComplete then w
  else
    let w := scanCurrentViewport page w
    let w := { w with extension :=
                { w.extension with elements := resolveElements w.elementResolver } }
    let w := renderLabels w.extension.elements w
    let w := { w with extension := { w.extension with isOverlayVisible := true } }
    setSequenceListening true w

/-! ## `InputManager`: key handlers -/

/-- The test `key.length === 1 && key.match(/[a-zA-Z]/)`. -/
def isLetterKey (key : String) : Bool := JS.length key == 1 && JS.matchesLetter key

/-- The array `preventedShortcuts` of `handleKeyDown`, as truth values. -/
def preventedShortcuts (event : KeyEvent) (key : String) : List Bool :=
  [event.altKey && JS.matchesLetter key,
   event.ctrlKey && JS.matchesLetter key,
   JS.startsWith key "F" && decide (JS.length key ≤ 3),
   key == "Tab",
   key == " " || key == "Space",
   ["ArrowUp", "ArrowDown", "ArrowLeft", "ArrowRight"].contains key]

/-- The method `InputManager.handleKeyDown(event)`, with the callbacks bound by
`content.js` (`onSequence = handleKeySequence`, `onCancel = clearOverlay`,
`onToggle = toggleOverlay`); `now` is the value of `Date.now()`. -/
def handleKeyDown (page : Page) (click : ClickOutcome) (now : Int) (event : KeyEvent)
    (w : World) : World :=
  match event.key with
  | none => w
  | some key =>
    if key = "" then w
    else if isToggleShortcutPressed w.inputManager.shortcutKeys event then
      let w := emit Effect.stopPropagation (emit Effect.preventDefault w)
      if now - w.inputManager.lastToggleTime > toggleDebounceMs then
        let w := { w with inputManager := { w.inputManager with lastToggleTime := now } }
        toggleOverlay page (emit Effect.onToggle w)
      else w
    else if w.inputManager.sequenceListeningActive then
      if key = "Escape" then
        let w := clearSequence w
        let w := clearOverlay (emit Effect.onCancel w)
        emit Effect.stopPropagation (emit Effect.preventDefault w)
      else if isLetterKey key then
        let upperKey := JS.toUpperCase key
        let w :=
          if !w.inputManager.keyPressed.contains upperKey then
            let w := { w with inputManager :=
                        { w.inputManager with
                          keyPressed := w.inputManager.keyPressed ++ [upperKey],
                          currentSequence := w.inputManager.currentSequence ++ upperKey } }
            handleKeySequence click w.inputManager.currentSequence
              (emit (Effect.onSequence w.inputManager.currentSequence) w)
          else w
        emit Effect.stopPropagation (emit Effect.preventDefault w)
      else if (preventedShortcuts event key).any (fun condition => condition) then
        emit Effect.stopPropagation (emit Effect.preventDefault w)
      else w
    else if key = "Escape" then
      let w := clearSequence w
      let w := clearOverlay (emit Effect.onCancel w)
      emit Effect.stopPropagation (emit Effect.preventDefault w)
    else w

/-- The method `InputManager.handleKeyUp(event)`. -/
def handleKeyUp (event : KeyEvent) (w : World) : World :=
  match event.key with
  | none => w
  | some key =>
    if key = "" then w
    else if isLetterKey key then
      let upperKey := JS.toUpperCase key
      { w with inputManager :=
          { w.inputManager with
            keyPressed := w.inputManager.keyPressed.filter (fun held => held != upperKey) } }
    else w

/-- The matcher is Armed: the overlay is shown and letters are captured. -/
def Armed (w : World) : Prop :=
  w.extension.isOverlayVisible = true ∧ w.inputManager.sequenceListeningActive = true

/-- The matcher is Idle: the overlay is hidden and letters are not captured. -/
def Idle (w : World) : Prop :=
  w.extension.isOverlayVisible = false ∧ w.inputManager.sequenceListeningActive = false

/-- The `ClickSimulator.clickAt` calls recorded in a trace, in order. -/
def activations (trace : List Effect) : List (Int × Int) :=
  trace.filterMap (fun e => match e with
    | Effect.clickAt x y => some (x, y)
    | _ => none)

/-- The state in which `handleKeyDown` calls `this.onSequence(this.currentSequence)` for
an accepted letter: `upperKey` has been added to `keyPressed` and appended to
`currentSequence` (lines 113-119 of `input-manager.js`). -/
def acceptLetter (upperKey : String) (w : World) : World :=
  emit (Effect.onSequence (w.inputManager.currentSequence ++ upperKey))
    { w with inputManager :=
        { w.inputManager with
          keyPressed := w.inputManager.keyPressed ++ [upperKey],
          currentSequence := w.inputManager.currentSequence ++ upperKey } }

/-! ## Concrete states and events used in the examples -/

/-- The Armed state with an empty prefix that `toggleOverlay` leaves behind when the
scan delivers `targets` (default shortcut, empty trace). -/
def armedState (targets : List LabeledTarget) : World :=
  { inputManager :=
      { currentSequence := "", keyPressed := [], sequenceListeningActive := true,
        lastToggleTime := 0, shortcutKeys := ["Control", "Alt"] },
    extension :=
      { elements := targets, isOverlayVisible := true, preloadComplete := true,
        currentInput := "" },
    overlayRenderer :=
      { labels := targets.map (fun element =>
          { text := element.label, position := element.position, shown := true }),
        isVisible := true },
    elementResolver := { elements := targets },
    trace := [] }

/-- A key event for `key` with no modifier held. -/
def plainKey (key : String) : KeyEvent :=
  { key := some key, altKey := false, ctrlKey := false, shiftKey := false, metaKey := false }

/-- A page with an empty document and viewport width 1000. -/
def emptyPage : Page := { innerWidth := 1000, contains := fun _ _ => false, clickable := some [] }

/-- A click that finds an element and dispatches the click event. -/
def clickLands : ClickOutcome := { success := true, dispatched := true }

/-- Pressing and releasing the unmodified key `key`. -/
def pressRelease (key : String) (w : World) : World :=
  handleKeyUp (plainKey key) (handleKeyDown emptyPage clickLands 0 (plainKey key) w)

/-- A target with the given label and anchor position. -/
def targetAt (label : String) (x y : ℚ) (element : Nat) : LabeledTarget :=
  { label := label, position := { x := x, y := y }, element := element }

/-- The state reached from Armed with an empty prefix and the two targets `ESCAPEA`,
`ESCAPEB` after typing the letters E, S, C, A, P. -/
def escapeWordState : World :=
  ["e", "s", "c", "a", "p"].foldl (fun w key => pressRelease key w)
    (armedState [targetAt "ESCAPEA" 10 10 1, targetAt "ESCAPEB" 50 50 2])

/-! ## Vocabulary for the deduplication and debounce properties -/

/-- The number of `this.onToggle()` calls recorded in a trace. -/
def toggleCount (trace : List Effect) : Nat := trace.count Effect.onToggle

/-- The test `deltaX < proximityThreshold && deltaY < proximityThreshold` of
`deduplicateElements` for the new candidate `element` and the kept one `existing`. -/
def withinProximity (element existing : Candidate) : Prop :=
  (distance element.x existing.x).lt (JS.Number.finite proximityThreshold) = true
  ∧ (distance element.y existing.y).lt (JS.Number.finite proximityThreshold) = true

/-- The two conditions under which the loop body of `deduplicateElements` executes
`dedupedElements[index] = element`: `element` is a descendant of `existing` and
`currentArea < existingArea * 0.8`, or it is unrelated to `existing`, within the
proximity threshold, and its area is strictly larger; each test as the code computes
it. -/
def overwrites (contains : Nat → Nat → Bool) (existing element : Candidate) : Prop :=
  (contains existing.element element.element = true
    ∧ (area element).lt ((area existing).mul (JS.Number.ofExact (8 / 10))) = true)
  ∨ (contains existing.element element.element = false
    ∧ contains element.element existing.element = false
    ∧ withinProximity element existing
    ∧ (area existing).lt (area element) = true)

/-- Sorted ascending by (top, left): the comparator of `sortByPosition` is not positive
on any two candidates taken in list order. -/
def SortedByPosition (l : List Candidate) : Prop :=
  l.Pairwise (fun a b => compareByPosition a b ≤ 0)

/-- A 20 x 20 candidate at the origin, element 1. -/
def cornerCandidate : Candidate := { x := 0, y := 0, width := 20, height := 20, element := 1 }

/-- A 20 x 20 candidate on the same row, 40 px to the right, element 2. -/
def rowCandidate : Candidate := { x := 40, y := 0, width := 20, height := 20, element := 2 }

/-- A 100 x 100 candidate at (10, 5), element 3: later in the (top, left) order than
the other two and within 30 px of `cornerCandidate` on both axes. -/
def largeCandidate : Candidate := { x := 10, y := 5, width := 100, height := 100, element := 3 }

/-- A DOM in which element 3 is an ancestor of element 2 and no other two distinct
elements are related. -/
def nestedDom (a b : Nat) : Bool := a == b || (a == 3 && b == 2)

/-- A DOM in which no two distinct elements are related. -/
def flatDom (a b : Nat) : Bool := a == b

/-- The Idle state of an initialised coordinator: the fields as set by the constructors
of `InputManager` and `ChromeShortcutExtension`, with `preloadComplete` set by
`initialize`. -/
def idleState : World :=
  { inputManager :=
      { currentSequence := "", keyPressed := [], sequenceListeningActive := false,
        lastToggleTime := 0, shortcutKeys := ["Control", "Alt"] },
    extension :=
      { elements := [], isOverlayVisible := false, preloadComplete := true,
        currentInput := "" },
    overlayRenderer := { labels := [], isVisible := false },
    elementResolver := { elements := [] },
    trace := [] }

/-- The keydown of Alt while Control is held: a detection of the default shortcut. -/
def controlAltEvent : KeyEvent :=
  { key := some "Alt", altKey := true, ctrlKey := true, shiftKey := false, metaKey := false }

/-! ## Failing scan steps and sequences of operations -/

/-- The `try` / `catch` of `scanCurrentViewport` with every step of the `try` block
fallible: a step that throws is a step that returns `Except.error`.  The `try` block
hands `results` to `ElementResolver.setElements`; the `catch` block hands it `[]`. -/
def scanCurrentViewportTry {ε : Type} (discover : Except ε (List Candidate))
    (sort : List Candidate → Except ε (List Candidate))
    (deduplicate : List Candidate → Except ε (List Candidate))
    (allocate : List Candidate → Except ε (List LabeledTarget)) (w : World) : World :=
  match discover >>= sort >>= deduplicate >>= allocate with
  | Except.ok results => setElements results w
  | Except.error _ => setElements [] w

/-- A completed operation on the page: one of the coordinator methods of `content.js`
or one of the two key handlers of `InputManager`, with what the environment contributes
to it. -/
inductive Operation where
  /-- A call of `toggleOverlay()`. -/
  | toggleOverlay (page : Page)
  /-- A call of `clearOverlay()`. -/
  | clearOverlay
  /-- A call of `handleKeySequence(sequence)`. -/
  | handleKeySequence (click : ClickOutcome) (sequence : String)
  /-- A call of `handleScroll()`. -/
  | handleScroll
  /-- A call of `handleClick(event)`. -/
  | handleClick
  /-- A `keydown` event delivered to `handleKeyDown` at time `now`. -/
  | keyDown (page : Page) (click : ClickOutcome) (now : Int) (event : KeyEvent)
  /-- A `keyup` event delivered to `handleKeyUp`. -/
  | keyUp (event : KeyEvent)

/-- The state after one operation. -/
def applyOperation (op : Operation) (w : World) : World :=
  match op with
  | Operation.toggleOverlay page => toggleOverlay page w
  | Operation.clearOverlay => clearOverlay w
  | Operation.handleKeySequence click sequence => handleKeySequence click sequence w
  | Operation.handleScroll => handleScroll w
  | Operation.handleClick => handleClick w
  | Operation.keyDown page click now event => handleKeyDown page click now event w
  | Operation.keyUp event => handleKeyUp event w

/-- The state after a sequence of operations, each run to completion. -/
def runOperations (ops : List Operation) (w : World) : World :=
  ops.foldl (fun state op => applyOperation op state) w

/-- The operation is a key event. -/
def Operation.isKeyEvent : Operation → Bool
  | Operation.keyDown _ _ _ _ => true
  | Operation.keyUp _ => true
  | _ => false

/-- The state after the default-shortcut detections at the given times, starting from
`w`. -/
def runDetections (times : List Int) (w : World) : World :=
  times.foldl (fun state now => handleKeyDown emptyPage clickLands now controlAltEvent state) w

/-! ## Element discovery (`dom-scanner.js`, lines 222-451) -/

/-- `String.prototype.includes`: `sub` occurs in `s`. -/
def JS.includes (s sub : String) : Bool := s.data.tails.any (fun t => sub.data.isPrefixOf t)

/-- A value returned by `isElementClickable`: a boolean or a string (the `role`). -/
inductive JSValue where
  | boolean (b : Bool)
  | string (s : String)
  deriving DecidableEq, Repr

/-- Truthiness of a returned value. -/
def JSValue.truthy : JSValue → Bool
  | JSValue.boolean b => b
  | JSValue.string s => s ≠ ""

/-- The value of `element.className`: a string for an HTML element, an
`SVGAnimatedString` object, which has no `includes` method, for an SVG element. -/
inductive ClassName where
  | text (value : String)
  | animated
  deriving DecidableEq, Repr

/-- The result of `getBoundingClientRect()`. -/
structure Rect where
  left : ℚ
  top : ℚ
  width : ℚ
  height : ℚ
  deriving DecidableEq, Repr

/-- The properties of `getComputedStyle(el)` that the scanner reads. -/
structure ComputedStyle where
  cursor : String
  visibility : String
  display : String
  opacity : String
  pointerEvents : String
  deriving DecidableEq, Repr

/-- What the scanner reads of a DOM element.  `disabled` and `hidden` are the truth
values of the properties, `type` is `none` when `element.type` is `undefined`, and
`attributes` lists the attributes with their values. -/
structure DomElement where
  handle : Nat
  tagName : String
  className : ClassName
  attributes : List (String × String)
  disabled : Bool
  hidden : Bool
  type : Option String
  style : ComputedStyle
  rect : Rect
  deriving DecidableEq, Repr

/-- The method `element.hasAttribute(name)`. -/
def DomElement.hasAttribute (element : DomElement) (name : String) : Bool :=
  element.attributes.any (fun entry => entry.1 == name)

/-- The method `element.getAttribute(name)`; `none` is `null`. -/
def DomElement.getAttribute (element : DomElement) (name : String) : Option String :=
  (element.attributes.find? (fun entry => entry.1 == name)).map (fun entry => entry.2)

/-- The error thrown by `className.includes(...)` for an `SVGAnimatedString`. -/
def includesTypeError : String := "TypeError: className.includes is not a function"

/-- The method `isElementClickable(element)`; `none` is a `null` element.  The value is
`Except.error` when the call throws. -/
def isElementClickable (element : Option DomElement) : Except String JSValue :=
  match element with
  | none => Except.ok (JSValue.boolean false)
  | some element =>
    let tagName := JS.toLowerCase element.tagName
    let role := (element.getAttribute "role").getD ""
    if element.disabled || element.hasAttribute "disabled" || element.hidden then
      Except.ok (JSValue.boolean false)
    else if ["button", "a", "input", "textarea", "select"].contains tagName then
      Except.ok (JSValue.boolean (element.type != some "hidden"))
    else if ["video", "audio", "img"].contains tagName then
      Except.ok
        (if element.hasAttribute "onclick" then JSValue.boolean true
         else if element.hasAttribute "tabindex" then JSValue.boolean true
         else JSValue.string role)
    else if element.hasAttribute "onclick" || element.hasAttribute "tabindex"
        || JS.truthy (some role)
        || element.hasAttribute "data-action" || element.hasAttribute "data-click"
        || element.hasAttribute "data-handler" || element.hasAttribute "data-command"
        || element.hasAttribute "jsaction" || element.hasAttribute "ng-click"
        || element.hasAttribute "v-on:click" then
      -- `hasModernInteractivity` is truthy before `className` is consulted
      Except.ok (JSValue.boolean true)
    else
      match element.className with
      | ClassName.animated => Except.error includesTypeError
      | ClassName.text className =>
        if JS.includes className "button" || JS.includes className "btn"
            || JS.includes className "clickable" || JS.includes className "link"
            || JS.includes className "interactive"
            || ["button", "link", "tab", "menuitem", "option", "gridcell", "cell"].contains
                role then
          Except.ok (JSValue.boolean true)
        else if element.style.cursor == "pointer" then Except.ok (JSValue.boolean true)
        else Except.ok (JSValue.boolean true)

/-- What `scanClickableElements` reads of the live document: the viewport size, the
three `querySelectorAll` results, the hit test `document.elementFromPoint` and the DOM
ancestor relation. -/
structure Document where
  innerWidth : ℚ
  innerHeight : ℚ
  selectorMatches : List DomElement
  clickableContainers : List DomElement
  modernWebElements : List DomElement
  elementFromPoint : ℚ → ℚ → Option Nat
  contains : Nat → Nat → Bool

/-- The array `pointerElements` (lines 276-280). -/
def pointerElements (doc : Document) : List DomElement :=
  doc.clickableContainers.filter (fun el =>
    el.style.cursor == "pointer" && !el.disabled && !el.hidden)

/-- The array `allClickableElements` (line 331). -/
def allClickableElements (doc : Document) : List DomElement :=
  doc.selectorMatches ++ pointerElements doc ++ doc.modernWebElements

/-- The loop state of `scanClickableElements`: the set `seen` of geometric keys (the
rounded `left, top, width, height`), the set `seenElements`, and `items`. -/
structure ScanState where
  seen : List (Int × Int × Int × Int)
  seenElements : List Nat
  items : List Candidate
  deriving DecidableEq, Repr

/-- The body of the loop `for (let i = 0; i < allClickableElements.length; i++)`
(lines 333-378) for the element `el`; a `continue` returns the state unchanged.  The sums
`rect.top + rect.height` and `rect.left + rect.width` are only compared with zero, which
the rounding of a binary64 sum does not change; the centre passed to
`document.elementFromPoint` is the rounded one. -/
def scanElement (doc : Document) (state : ScanState) (el : DomElement) :
    Except String ScanState :=
  if state.seenElements.contains el.handle then Except.ok state
  else
    match isElementClickable (some el) with
    | Except.error e => Except.error e
    | Except.ok clickable =>
      if !clickable.truthy then Except.ok state
      else
        let rect := el.rect
        let vw := doc.innerWidth
        let vh := doc.innerHeight
        if rect.width < 15 ∨ rect.height < 10 then Except.ok state
        else if rect.top + rect.height < 0 ∨ rect.left + rect.width < 0 then Except.ok state
        else if rect.top > vh ∨ rect.left > vw then Except.ok state
        else if el.style.visibility == "hidden" || el.style.display == "none" then
          Except.ok state
        else if el.style.opacity == "0" then Except.ok state
        else if el.style.pointerEvents == "none" then Except.ok state
        else
          let centerX := JS.toDouble (rect.left + JS.toDouble (rect.width / 2))
          let centerY := JS.toDouble (rect.top + JS.toDouble (rect.height / 2))
          let covered :=
            match doc.elementFromPoint centerX centerY with
            | none => false
            | some elementAtCenter =>
              !doc.contains el.handle elementAtCenter && !doc.contains elementAtCenter el.handle
          if covered then Except.ok state
          else
            let key := (JS.round rect.left, JS.round rect.top, JS.round rect.width,
              JS.round rect.height)
            if !state.seen.contains key then
              Except.ok
                { seen := state.seen ++ [key],
                  seenElements := state.seenElements ++ [el.handle],
                  items := state.items ++
                    [{ x := rect.left, y := rect.top, width := rect.width,
                       height := rect.height, element := el.handle }] }
            else Except.ok state

/-- The method `scanClickableElements()`: the array `items`, or the error thrown by
`isElementClickable`. -/
def scanClickableElements (doc : Document) : Except String (List Candidate) :=
  match (allClickableElements doc).foldlM (scanElement doc)
      { seen := [], seenElements := [], items := [] } with
  | Except.ok state => Except.ok state.items
  | Except.error e => Except.error e

/-- A candidate rectangle has a part of positive area inside the viewport rectangle
`[0, vw] x [0, vh]`. -/
def insideViewport (vw vh : ℚ) (c : Candidate) : Prop :=
  max 0 c.x < min vw (c.x + c.width) ∧ max 0 c.y < min vh (c.y + c.height)

/-- The elements that are to be rejected according to the description of
`isElementClickable`: a `null` element, a disabled or hidden element, a standard
interactive tag of type `hidden`, and a media element without `onclick`, without
`tabindex` and with an empty role. -/
def describedAsRejected (element : Option DomElement) : Prop :=
  match element with
  | none => True
  | some el =>
    (el.disabled = true ∨ el.hasAttribute "disabled" = true ∨ el.hidden = true)
    ∨ (JS.toLowerCase el.tagName ∈ ["button", "a", "input", "textarea", "select"]
        ∧ el.type = some "hidden")
    ∨ (JS.toLowerCase el.tagName ∈ ["video", "audio", "img"]
        ∧ el.hasAttribute "onclick" = false ∧ el.hasAttribute "tabindex" = false
        ∧ (el.getAttribute "role").getD "" = "")

/-- The computed style of a plainly visible element. -/
def visibleStyle : ComputedStyle :=
  { cursor := "auto", visibility := "visible", display := "block", opacity := "1",
    pointerEvents := "auto" }

/-- An `svg` icon that carries only a `data-testid` attribute and a class. -/
def svgIcon : DomElement :=
  { handle := 7, tagName := "svg", className := ClassName.animated,
    attributes := [("class", "icon"), ("data-testid", "CloseIcon")],
    disabled := false, hidden := false, type := none, style := visibleStyle,
    rect := { left := 10, top := 10, width := 24, height := 24 } }

/-- A document whose only match is `svgIcon`, found by the `[data-testid]` selector of
`modernWebElements`. -/
def svgDocument : Document :=
  { innerWidth := 1000, innerHeight := 800, selectorMatches := [],
    clickableContainers := [], modernWebElements := [svgIcon],
    elementFromPoint := fun _ _ => some 7, contains := fun a b => a == b }

/-- The bounds that the size and viewport tests of `scanClickableElements` (lines
345-347) leave true of a pushed item. -/
def passedSizeChecks (vw vh : ℚ) (c : Candidate) : Prop :=
  15 ≤ c.width ∧ 10 ≤ c.height ∧ 0 ≤ c.y + c.height ∧ 0 ≤ c.x + c.width
    ∧ c.y ≤ vh ∧ c.x ≤ vw

/-- A 100 x 40 button whose top edge lies exactly on the bottom edge of an 800 px high
viewport. -/
def belowFoldButton : DomElement :=
  { handle := 8, tagName := "BUTTON", className := ClassName.text "",
    attributes := [], disabled := false, hidden := false, type := some "submit",
    style := visibleStyle, rect := { left := 20, top := 800, width := 100, height := 40 } }

/-- A 1000 x 800 viewport whose document matches only `belowFoldButton`; no element is
hit at a point outside the viewport. -/
def belowFoldDocument : Document :=
  { innerWidth := 1000, innerHeight := 800, selectorMatches := [belowFoldButton],
    clickableContainers := [], modernWebElements := [],
    elementFromPoint := fun _ _ => none, contains := fun a b => a == b }

/-! ## Invariants of the matcher -/

/-- The coordinator flag `isOverlayVisible` equals `InputManager.sequenceListeningActive`. -/
def Synchronised (w : World) : Prop :=
  w.extension.isOverlayVisible = w.inputManager.sequenceListeningActive

/-- The invariant behind the bound on the prefix: the two flags agree, the labels of the
current target set are pairwise distinct strings of two characters, and while letters are
captured the sequence has at most one character. -/
def MatcherInvariant (w : World) : Prop :=
  Synchronised w
  ∧ (∀ u ∈ w.extension.elements, u.label.data.length = 2)
  ∧ (w.extension.elements.map (fun u => u.label)).Nodup
  ∧ (w.inputManager.sequenceListeningActive = true →
      w.inputManager.currentSequence.data.length ≤ 1)

/-! ## Binary64 rounding: auxiliary facts -/

theorem roundTiesToEven_eq (s : ℚ) (m : Int) (h1 : (m : ℚ) - 1 / 2 < s)
    (h2 : s < m + 1 / 2) : JS.roundTiesToEven s = m := by
  unfold JS.roundTiesToEven
  by_cases hs : (m : ℚ) ≤ s
  · have hf : ⌊s⌋ = m := Int.floor_eq_iff.mpr ⟨hs, by linarith⟩
    rw [hf, if_pos (by linarith)]
  · have hs' : s < m := not_le.mp hs
    have hf : ⌊s⌋ = m - 1 :=
      Int.floor_eq_iff.mpr ⟨by push_cast; linarith, by push_cast; linarith⟩
    rw [hf]
    have h3 : ¬ (s - ((m - 1 : Int) : ℚ) < 1 / 2) := by push_cast; linarith
    have h4 : 1 / 2 < s - ((m - 1 : Int) : ℚ) := by push_cast; linarith
    rw [if_neg h3, if_pos h4]
    ring

theorem roundTiesToEven_intCast (m : Int) : JS.roundTiesToEven (m : ℚ) = m :=
  roundTiesToEven_eq _ m (by linarith) (by linarith)

theorem roundTiesToEven_neg (s : ℚ) : JS.roundTiesToEven (-s) = -JS.roundTiesToEven s := by
  by_cases hint : (⌊s⌋ : ℚ) = s
  · rw [← hint, ← Int.cast_neg, roundTiesToEven_intCast, roundTiesToEven_intCast]
  · have hlt : (⌊s⌋ : ℚ) < s := lt_of_le_of_ne (Int.floor_le s) hint
    have hlt2 : s < ⌊s⌋ + 1 := Int.lt_floor_add_one s
    have hf : ⌊-s⌋ = -⌊s⌋ - 1 :=
      Int.floor_eq_iff.mpr ⟨by push_cast; linarith, by push_cast; linarith⟩
    unfold JS.roundTiesToEven
    rw [hf]
    push_cast
    by_cases h1 : s - ⌊s⌋ < 1 / 2
    · have a1 : ¬ (-s - (-(⌊s⌋ : ℚ) - 1) < 1 / 2) := by linarith
      have a2 : 1 / 2 < -s - (-(⌊s⌋ : ℚ) - 1) := by linarith
      rw [if_pos h1, if_neg a1, if_pos a2]
      ring
    · by_cases h2 : 1 / 2 < s - ⌊s⌋
      · have a1 : -s - (-(⌊s⌋ : ℚ) - 1) < 1 / 2 := by linarith
        rw [if_neg h1, if_pos h2, if_pos a1]
        ring
      · have a1 : ¬ (-s - (-(⌊s⌋ : ℚ) - 1) < 1 / 2) := by linarith
        have a2 : ¬ (1 / 2 < -s - (-(⌊s⌋ : ℚ) - 1)) := by linarith
        rw [if_neg h1, if_neg h2, if_neg a1, if_neg a2]
        by_cases hev : ⌊s⌋ % 2 = 0
        · have hodd : ¬ ((-⌊s⌋ - 1) % 2 = 0) := by omega
          rw [if_pos hev, if_neg hodd]
          ring
        · have hev2 : (-⌊s⌋ - 1) % 2 = 0 := by omega
          rw [if_neg hev, if_pos hev2]
          ring

theorem toDouble_neg (q : ℚ) : JS.toDouble (-q) = -JS.toDouble q := by
  unfold JS.toDouble
  by_cases h : q = 0
  · simp [h]
  · rw [if_neg h, if_neg (neg_ne_zero.mpr h), abs_neg, neg_div, roundTiesToEven_neg]
    push_cast
    ring

theorem ulpExponent_normal (a : ℚ) (k : Int) (h1 : (2 : ℚ) ^ k ≤ a)
    (h2 : a < (2 : ℚ) ^ (k + 1)) (hk : -1022 ≤ k) : JS.ulpExponent a = k - 52 := by
  have ha : 0 < a := lt_of_lt_of_le (zpow_pos (by norm_num) k) h1
  have hlog : Int.log 2 a = k := by
    apply le_antisymm
    · have := (Int.lt_zpow_iff_log_lt (b := 2) (by norm_num) ha (x := k + 1)).mp
        (by exact_mod_cast h2)
      omega
    · exact (Int.zpow_le_iff_le_log (b := 2) (by norm_num) ha).mp (by exact_mod_cast h1)
  unfold JS.ulpExponent
  rw [hlog]
  omega

theorem ulpExponent_le (a : ℚ) (p : Int) (ha : 0 < a) (h : a < (2 : ℚ) ^ (p + 53))
    (hp : -1074 ≤ p) : JS.ulpExponent a ≤ p := by
  have := (Int.lt_zpow_iff_log_lt (b := 2) (by norm_num) ha (x := p + 53)).mp
    (by exact_mod_cast h)
  unfold JS.ulpExponent
  omega

theorem toDouble_eq_of_near (q : ℚ) (m p : Int) (hq : q ≠ 0) (hu : JS.ulpExponent |q| = p)
    (h1 : ((m : ℚ) - 1 / 2) * 2 ^ p < q) (h2 : q < ((m : ℚ) + 1 / 2) * 2 ^ p) :
    JS.toDouble q = m * 2 ^ p := by
  unfold JS.toDouble
  rw [if_neg hq, hu]
  have hpos : (0 : ℚ) < 2 ^ p := zpow_pos (by norm_num) p
  rw [roundTiesToEven_eq (q / 2 ^ p) m ((lt_div_iff₀ hpos).mpr h1)
    ((div_lt_iff₀ hpos).mpr h2)]

/-- Rounding of a value in the binade `[2 ^ k, 2 ^ (k + 1))` of the normal range: the
result is the multiple `m * 2 ^ (k - 52)` of the unit in the last place that lies
within half a unit of `q`. -/
theorem toDouble_normal (q : ℚ) (m k : Int) (h1 : (2 : ℚ) ^ k ≤ |q|)
    (h2 : |q| < (2 : ℚ) ^ (k + 1)) (hk : -1022 ≤ k)
    (hlo : ((m : ℚ) - 1 / 2) * 2 ^ (k - 52) < q)
    (hhi : q < ((m : ℚ) + 1 / 2) * 2 ^ (k - 52)) :
    JS.toDouble q = m * 2 ^ (k - 52) := by
  have hq : q ≠ 0 := by
    intro h
    rw [h, abs_zero] at h1
    exact absurd h1 (not_le.mpr (zpow_pos (by norm_num) k))
  exact toDouble_eq_of_near q m (k - 52) hq (ulpExponent_normal _ k h1 h2 hk) hlo hhi

/-- Every `m * 2 ^ p` with `|m| < 2 ^ 53` and `p ≥ -1074` is a binary64 value. -/
theorem toDouble_of_dyadic (m p : Int) (hm : |m| < 2 ^ 53) (hp : -1074 ≤ p) :
    JS.toDouble (m * 2 ^ p) = m * 2 ^ p := by
  by_cases h0 : m = 0
  · simp [h0, JS.toDouble]
  have hpos : (0 : ℚ) < 2 ^ p := zpow_pos (by norm_num) p
  have hq : (m : ℚ) * 2 ^ p ≠ 0 := mul_ne_zero (by exact_mod_cast h0) (ne_of_gt hpos)
  have habs : |(m : ℚ) * 2 ^ p| = |(m : ℚ)| * 2 ^ p := by
    rw [abs_mul, abs_of_pos hpos]
  have hmq : |(m : ℚ)| < 2 ^ 53 := by exact_mod_cast hm
  have hlt : |(m : ℚ) * 2 ^ p| < (2 : ℚ) ^ (p + 53) := by
    rw [habs, zpow_add₀ (by norm_num), mul_comm]
    exact mul_lt_mul_of_pos_left (by exact_mod_cast hmq) hpos
  have hu := ulpExponent_le _ p (abs_pos.mpr hq) hlt hp
  unfold JS.toDouble
  rw [if_neg hq]
  generalize JS.ulpExponent |(m : ℚ) * 2 ^ p| = u at hu
  obtain ⟨n, hn⟩ := Int.eq_ofNat_of_zero_le (sub_nonneg.mpr hu)
  have hp' : p = u + n := by omega
  have hupos : (0 : ℚ) < 2 ^ u := zpow_pos (by norm_num) u
  have hdiv : (m : ℚ) * 2 ^ p / 2 ^ u = ((m * 2 ^ n : Int) : ℚ) := by
    rw [hp', zpow_add₀ (by norm_num), zpow_natCast]
    push_cast
    field_simp
    ring
  rw [hdiv, roundTiesToEven_intCast, hp', zpow_add₀ (by norm_num), zpow_natCast]
  push_cast
  ring

theorem toDouble_intCast (m : Int) (hm : |m| < 2 ^ 53) : JS.toDouble (m : ℚ) = m := by
  have := toDouble_of_dyadic m 0 hm (by norm_num)
  simpa using this

theorem ofExact_of_lt (q : ℚ) (h : |JS.toDouble q| < 2 ^ 1024) :
    JS.Number.ofExact q = JS.Number.finite (JS.toDouble q) := by
  unfold JS.Number.ofExact
  rw [if_neg (not_le.mpr h)]

theorem ofExact_intCast (m : Int) (hm : |m| < 2 ^ 53) :
    JS.Number.ofExact (m : ℚ) = JS.Number.finite m := by
  have h := toDouble_intCast m hm
  have hlt : |(m : ℚ)| < 2 ^ 1024 := by
    have h1 : |(m : ℚ)| < 2 ^ 53 := by exact_mod_cast hm
    have h2 : (2 : ℚ) ^ 53 < 2 ^ 1024 := by norm_num
    exact lt_trans h1 h2
  rw [ofExact_of_lt _ (by rw [h]; exact hlt), h]

theorem ofExact_neg (q : ℚ) :
    JS.Number.ofExact (-q)
      = match JS.Number.ofExact q with
        | JS.Number.finite v => JS.Number.finite (-v)
        | JS.Number.infinite n => JS.Number.infinite (!n)
        | JS.Number.nan => JS.Number.nan := by
  unfold JS.Number.ofExact
  rw [toDouble_neg, abs_neg]
  by_cases h : 2 ^ 1024 ≤ |JS.toDouble q|
  · rw [if_pos h, if_pos h]
    have hq : q ≠ 0 := by
      intro h0
      rw [h0] at h
      simp [JS.toDouble] at h
      exact absurd h (by norm_num)
    simp only
    congr 1
    by_cases hneg : q < 0
    · have : ¬ (-q < 0) := by linarith
      simp [hneg, this]
    · have hpos : 0 < q := lt_of_le_of_ne (not_lt.mp hneg) (Ne.symm hq)
      have : -q < 0 := by linarith
      simp [hneg, this]
  · rw [if_neg h, if_neg h]

/-- The value `Math.abs(p - q)` does not depend on the order of the two coordinates. -/
theorem distance_comm (p q : ℚ) : distance p q = distance q p := by
  unfold distance JS.Number.sub
  have h := ofExact_neg (q - p)
  rw [neg_sub] at h
  simp only
  rw [h]
  cases JS.Number.ofExact (q - p) <;> simp [JS.Number.abs]

/-! ## Label allocation: auxiliary facts -/

theorem classify_foldl (c : ℚ) (l : List Candidate) (acc : List Candidate × List Candidate) :
    l.foldl (classifyStep c) acc
      = (acc.1 ++ l.filter (fun el => decide (el.x < c)),
         acc.2 ++ l.filter (fun el => !decide (el.x < c))) := by
  induction l generalizing acc with
  | nil => simp
  | cons a t ih =>
    rw [List.foldl_cons, ih]
    by_cases h : a.x < c <;> simp [classifyStep, h, List.filter_cons]

theorem leftElements_eq_filter (w : ℚ) (l : List Candidate) :
    leftElements w l = l.filter (fun el => decide (el.x < w / 2)) := by
  simp [leftElements, classifyElements, classify_foldl]

theorem rightElements_eq_filter (w : ℚ) (l : List Candidate) :
    rightElements w l = l.filter (fun el => !decide (el.x < w / 2)) := by
  simp [rightElements, classifyElements, classify_foldl]

theorem generateLabel_natCast (table : List String) (n : Nat) :
    generateLabel table (n : Int) = table[n]? := by
  unfold generateLabel
  by_cases h : n < table.length
  · simp [h]
  · have : table[n]? = none := List.getElem?_eq_none (Nat.le_of_not_lt h)
    simp [h, this]

theorem generateLabel_eq_some (table : List String) (i : Int) (c : String)
    (h : generateLabel table i = some c) :
    0 ≤ i ∧ i.toNat < table.length ∧ table[i.toNat]? = some c := by
  unfold generateLabel at h
  split at h
  · rename_i hr
    exact ⟨hr.1, by omega, h⟩
  · simp at h

theorem assign_foldl (table : List String) (hne : ∀ s ∈ table, s ≠ "")
    (els : List Candidate) (n : Nat) (results : List LabeledTarget) :
    (els.enumFrom n).foldl (pushLabeled (generateLabel table)) results
      = results ++ List.zipWith labeledEntry (table.drop n) els := by
  induction els generalizing n results with
  | nil => simp
  | cons a t ih =>
    rw [List.enumFrom_cons, List.foldl_cons, ih]
    unfold pushLabeled
    rw [generateLabel_natCast]
    by_cases h : n < table.length
    · have hd : table.drop n = table[n] :: table.drop (n + 1) := List.drop_eq_getElem_cons h
      have hmem : table[n] ≠ "" := hne _ (List.getElem_mem h)
      rw [hd]
      simp [List.getElem?_eq_getElem h, JS.truthy, hmem, -List.getElem_cons_drop]
    · have h1 : table.drop n = [] := List.drop_eq_nil_of_le (Nat.le_of_not_lt h)
      have h2 : table.drop (n + 1) = [] := List.drop_eq_nil_of_le (by omega)
      have : table[n]? = none := List.getElem?_eq_none (Nat.le_of_not_lt h)
      simp [h1, h2, this]

theorem assignLabels_eq (table : List String) (hne : ∀ s ∈ table, s ≠ "")
    (els : List Candidate) (results : List LabeledTarget) :
    assignLabels (generateLabel table) els results
      = results ++ List.zipWith labeledEntry table els := by
  unfold assignLabels List.enum
  rw [assign_foldl table hne]
  simp

theorem leftSequences_ne_empty : ∀ s ∈ leftSequences, s ≠ "" := by decide

theorem rightSequences_ne_empty : ∀ s ∈ rightSequences, s ≠ "" := by decide

theorem allocateLabels_eq (w : ℚ) (l : List Candidate) :
    allocateLabels w l
      = List.zipWith labeledEntry leftSequences (leftElements w l)
        ++ List.zipWith labeledEntry rightSequences (rightElements w l) := by
  unfold allocateLabels generateLeftLabel generateRightLabel
  rw [assignLabels_eq _ leftSequences_ne_empty, assignLabels_eq _ rightSequences_ne_empty]
  simp

theorem map_label_zipWith (table : List String) (els : List Candidate) :
    (List.zipWith labeledEntry table els).map (fun t => t.label) = table.take els.length := by
  induction table generalizing els with
  | nil => simp
  | cons s t ih =>
    cases els with
    | nil => simp
    | cons a r => simp [labeledEntry, ih]

theorem map_element_zipWith (table : List String) (els : List Candidate) :
    (List.zipWith labeledEntry table els).map (fun t => t.element)
      = (els.take table.length).map (fun el => el.element) := by
  induction table generalizing els with
  | nil => simp
  | cons s t ih =>
    cases els with
    | nil => simp
    | cons a r => simp [labeledEntry, ih]

theorem zipWith_take_right (table : List String) (els : List Candidate) :
    List.zipWith labeledEntry table (els.take table.length)
      = List.zipWith labeledEntry table els := by
  induction table generalizing els with
  | nil => simp
  | cons s t ih =>
    cases els with
    | nil => simp
    | cons a r => simp [ih]

set_option maxRecDepth 100000 in
theorem tables_nodup : (leftSequences ++ rightSequences).Nodup := by decide

theorem allocateLabels_labels_nodup (w : ℚ) (l : List Candidate) :
    ((allocateLabels w l).map (fun t => t.label)).Nodup := by
  rw [allocateLabels_eq, List.map_append, map_label_zipWith, map_label_zipWith]
  exact tables_nodup.sublist
    (List.Sublist.append (List.take_sublist _ _) (List.take_sublist _ _))

/-- C1: for every list of discovered candidates and every viewport width (and when the
discovery throws), no two entries of the array that `scanCurrentViewport` hands to
`ElementResolver.setElements` carry the same label; the same holds for the allocation
step run on any deduplicated list. -/
theorem scan_labels_unique (page : Page) (w : World) :
    (((scanCurrentViewport page w).elementResolver.elements).map (fun t => t.label)).Nodup
    ∧ (∀ (contains : Nat → Nat → Bool) (innerWidth : ℚ) (elements : List Candidate),
        ((scanResults contains innerWidth elements).map (fun t => t.label)).Nodup)
    ∧ (∀ (innerWidth : ℚ) (dedupedElements : List Candidate),
        ((allocateLabels innerWidth dedupedElements).map (fun t => t.label)).Nodup) := by
  refine ⟨?_, ?_, ?_⟩
  · unfold scanCurrentViewport
    cases page.clickable with
    | none => simp [setElements]
    | some elements => exact allocateLabels_labels_nodup _ _
  · intro contains innerWidth elements
    exact allocateLabels_labels_nodup _ _
  · intro innerWidth dedupedElements
    exact allocateLabels_labels_nodup _ _

/-- C2: no code occurs twice in the concatenation of the near table `leftSequences` and
the far table `rightSequences`: neither table repeats a code, the tables share no code,
and so `generateLeftLabel` and `generateRightLabel` are injective on the indices where
they return a code and never return the same code. -/
theorem code_tables_no_repeat :
    (leftSequences ++ rightSequences).Nodup
    ∧ leftSequences.Nodup ∧ rightSequences.Nodup
    ∧ (∀ c, c ∈ leftSequences → c ∉ rightSequences)
    ∧ (∀ (i j : Int) (c : String),
        generateLeftLabel i = some c → generateLeftLabel j = some c → i = j)
    ∧ (∀ (i j : Int) (c : String),
        generateRightLabel i = some c → generateRightLabel j = some c → i = j)
    ∧ (∀ (i j : Int) (c : String),
        generateLeftLabel i = some c → generateRightLabel j ≠ some c) := by
  have hnd := tables_nodup
  have hl : leftSequences.Nodup := (List.nodup_append.mp hnd).1
  have hr : rightSequences.Nodup := (List.nodup_append.mp hnd).2.1
  have hd : ∀ c, c ∈ leftSequences → c ∉ rightSequences := fun c h1 h2 =>
    (List.nodup_append.mp hnd).2.2 h1 h2
  have inj : ∀ (table : List String), table.Nodup → ∀ (i j : Int) (c : String),
      generateLabel table i = some c → generateLabel table j = some c → i = j := by
    intro table hn i j c hi hj
    obtain ⟨hi0, hilt, hic⟩ := generateLabel_eq_some table i c hi
    obtain ⟨hj0, hjlt, hjc⟩ := generateLabel_eq_some table j c hj
    rw [List.getElem?_eq_getElem hilt] at hic
    rw [List.getElem?_eq_getElem hjlt] at hjc
    have heq : table[i.toNat] = table[j.toNat] := by
      rw [Option.some.inj hic, Option.some.inj hjc]
    have := (List.Nodup.getElem_inj_iff hn).mp heq
    omega
  refine ⟨hnd, hl, hr, hd, inj _ hl, inj _ hr, ?_⟩
  intro i j c hi hj
  obtain ⟨_, hilt, hic⟩ := generateLabel_eq_some _ i c hi
  obtain ⟨_, hjlt, hjc⟩ := generateLabel_eq_some _ j c hj
  exact hd c (List.getElem?_mem hic) (List.getElem?_mem hjc)

/-- Witness for C2: `generateLeftLabel 0` is `"AA"`, which `generateRightLabel 0` is not. -/
theorem code_tables_no_repeat_witness :
    generateLeftLabel 0 = some "AA" ∧ generateRightLabel 0 ≠ some "AA" :=
  ⟨by decide, code_tables_no_repeat.2.2.2.2.2.2 0 0 "AA" (by decide)⟩

/-- C3: every deduplicated candidate is pushed to `leftElements` exactly when its left
edge `x` is strictly below `innerWidth / 2` and to `rightElements` otherwise, so a
candidate with `x = innerWidth / 2` lands in `rightElements`; both pools are the
corresponding filters of the deduplicated list. -/
theorem partition_rule (innerWidth : ℚ) (dedupedElements : List Candidate) (c : Candidate)
    (hc : c ∈ dedupedElements) :
    (c ∈ leftElements innerWidth dedupedElements ↔ c.x < innerWidth / 2)
    ∧ (c ∈ rightElements innerWidth dedupedElements ↔ ¬ c.x < innerWidth / 2)
    ∧ (c.x = innerWidth / 2 →
        c ∈ rightElements innerWidth dedupedElements
        ∧ c ∉ leftElements innerWidth dedupedElements)
    ∧ leftElements innerWidth dedupedElements
        = dedupedElements.filter (fun el => decide (el.x < innerWidth / 2))
    ∧ rightElements innerWidth dedupedElements
        = dedupedElements.filter (fun el => !decide (el.x < innerWidth / 2)) := by
  have hl := leftElements_eq_filter innerWidth dedupedElements
  have hr := rightElements_eq_filter innerWidth dedupedElements
  refine ⟨?_, ?_, ?_, hl, hr⟩
  · rw [hl]; simp [List.mem_filter, hc]
  · rw [hr]; simp [List.mem_filter, hc]
  · intro hx
    rw [hl, hr]
    simp [List.mem_filter, hc, hx]

/-- Witness for C3: with viewport width 1000 a candidate at `x = 500` is in the far pool. -/
theorem partition_rule_witness :
    (⟨500, 0, 20, 20, 1⟩ : Candidate) ∈ rightElements 1000 [⟨500, 0, 20, 20, 1⟩]
    ∧ (⟨500, 0, 20, 20, 1⟩ : Candidate) ∉ leftElements 1000 [⟨500, 0, 20, 20, 1⟩] :=
  (partition_rule 1000 [⟨500, 0, 20, 20, 1⟩] ⟨500, 0, 20, 20, 1⟩
    (List.mem_singleton.mpr rfl)).2.2.1 (by norm_num)

theorem getElem?_zipWith_labeledEntry (table : List String) (els : List Candidate) (i : Nat)
    (hi : i < els.length) (hl : i < table.length) :
    (List.zipWith labeledEntry table els)[i]? = some (labeledEntry table[i] els[i]) := by
  rw [List.getElem?_zipWith, List.getElem?_eq_getElem hl, List.getElem?_eq_getElem hi]

theorem length_zipWith_labeledEntry (table : List String) (els : List Candidate) :
    (List.zipWith labeledEntry table els).length = min els.length table.length := by
  rw [List.length_zipWith, Nat.min_comm]

theorem sortByPosition_pair (a b : Candidate) :
    sortByPosition [a, b] = if compareByPosition a b ≤ 0 then [a, b] else [b, a] := by
  unfold sortByPosition
  rw [List.mergeSort]
  simp [List.splitInTwo, List.merge]

theorem deduplicateElements_far_pair (contains : Nat → Nat → Bool) (a b : Candidate)
    (hab : contains a.element b.element = false) (hba : contains b.element a.element = false)
    (hx : (distance b.x a.x).lt (JS.Number.finite proximityThreshold) = false) :
    deduplicateElements contains [a, b] = [a, b] := by
  simp [deduplicateElements, dedupStep, dedupAgainst, hab, hba, hx]

theorem distance_intCast (m n : Int) (h : |m - n| < 2 ^ 53) :
    distance (m : ℚ) (n : ℚ) = JS.Number.finite |((m - n : Int) : ℚ)| := by
  unfold distance JS.Number.sub
  simp only
  rw [← Int.cast_sub, ofExact_intCast _ h]
  rfl

/-- The sum `x + 5` is exact for a coordinate that is a multiple of 1/64 (a layout
unit) of magnitude below `2 ^ 46`; integer coordinates are the case `m = 64 * x`. -/
theorem toDouble_add_five_exact (m : Int) (hm : |m| < 2 ^ 52) :
    JS.toDouble ((m : ℚ) / 64 + 5) = (m : ℚ) / 64 + 5 := by
  have h := toDouble_of_dyadic (m + 320) (-6) (by rw [abs_lt] at hm ⊢; omega) (by norm_num)
  have e : ((m + 320 : Int) : ℚ) * 2 ^ (-6 : Int) = (m : ℚ) / 64 + 5 := by
    push_cast
    norm_num
    ring
  rw [e] at h
  exact h

/-- The sum `x + 5` is rounded: for `x = 0.49999999999999994`, the largest binary64
value below one half, `posX` is `5.5`, which `Math.round` takes to 6, and not the exact
sum, which is below `5.5`. -/
theorem labeledEntry_position_rounded :
    JS.toDouble (9007199254740991 / 18014398509481984) = 9007199254740991 / 18014398509481984
    ∧ (labeledEntry "AA" ⟨9007199254740991 / 18014398509481984, 0, 20, 20, 1⟩).position.x
        = 11 / 2
    ∧ JS.round
        (labeledEntry "AA" ⟨9007199254740991 / 18014398509481984, 0, 20, 20, 1⟩).position.x = 6
    ∧ JS.round (9007199254740991 / 18014398509481984 + 5) = 5 := by
  have h1 : JS.toDouble (9007199254740991 / 18014398509481984 + 5) = 11 / 2 := by
    have h := toDouble_normal (9007199254740991 / 18014398509481984 + 5)
      6192449487634432 2 (by norm_num [abs_of_pos]) (by norm_num [abs_of_pos]) (by norm_num)
      (by norm_num) (by norm_num)
    rw [h]
    norm_num
  have h0 : JS.toDouble (9007199254740991 / 18014398509481984)
      = 9007199254740991 / 18014398509481984 := by
    have h := toDouble_of_dyadic 9007199254740991 (-54) (by norm_num) (by norm_num)
    norm_num at h
    exact h
  refine ⟨h0, ?_, ?_, ?_⟩
  · show JS.toDouble (9007199254740991 / 18014398509481984 + 5) = 11 / 2
    exact h1
  · show JS.round (JS.toDouble (9007199254740991 / 18014398509481984 + 5)) = 6
    rw [h1]
    unfold JS.round
    norm_num
  · unfold JS.round
    rw [Int.floor_eq_iff]
    norm_num

/-- C4: both pools keep the order of the deduplicated list, and for `i` below the length
of a pool's table the `i`-th candidate of the pool yields the entry with the `i`-th code
of that table, position `(x + 5, y + 5)` (the binary64 sums that the code computes) and
the candidate's element: near-pool entries come first in `results`, far-pool entries
follow.  With viewport width 1000, candidates at `x = 100` and `x = 900` receive `"AA"`
and `"JJ"`, the first codes of the two tables, at `x = 105` and `x = 905`, also through
the whole scan when their elements are unrelated in the DOM. -/
theorem pool_label_assignment (innerWidth : ℚ) (dedupedElements : List Candidate) :
    leftElements innerWidth dedupedElements
        = dedupedElements.filter (fun el => decide (el.x < innerWidth / 2))
    ∧ rightElements innerWidth dedupedElements
        = dedupedElements.filter (fun el => !decide (el.x < innerWidth / 2))
    ∧ (∀ (i : Nat) (hi : i < (leftElements innerWidth dedupedElements).length)
        (hl : i < leftSequences.length),
        (allocateLabels innerWidth dedupedElements)[i]?
          = some { label := leftSequences[i],
                   position :=
                     { x := JS.toDouble ((leftElements innerWidth dedupedElements)[i].x + 5),
                       y := JS.toDouble ((leftElements innerWidth dedupedElements)[i].y + 5) },
                   element := (leftElements innerWidth dedupedElements)[i].element })
    ∧ (∀ (i : Nat) (hi : i < (rightElements innerWidth dedupedElements).length)
        (hl : i < rightSequences.length),
        (allocateLabels innerWidth dedupedElements)[
            min (leftElements innerWidth dedupedElements).length leftSequences.length + i]?
          = some { label := rightSequences[i],
                   position :=
                     { x := JS.toDouble ((rightElements innerWidth dedupedElements)[i].x + 5),
                       y := JS.toDouble ((rightElements innerWidth dedupedElements)[i].y + 5) },
                   element := (rightElements innerWidth dedupedElements)[i].element })
    ∧ (∀ a b : Candidate, a.x = 100 → b.x = 900 →
        allocateLabels 1000 [a, b]
            = [{ label := "AA", position := { x := 105, y := JS.toDouble (a.y + 5) },
                 element := a.element },
               { label := "JJ", position := { x := 905, y := JS.toDouble (b.y + 5) },
                 element := b.element }]
        ∧ allocateLabels 1000 [b, a]
            = [{ label := "AA", position := { x := 105, y := JS.toDouble (a.y + 5) },
                 element := a.element },
               { label := "JJ", position := { x := 905, y := JS.toDouble (b.y + 5) },
                 element := b.element }]
        ∧ generateLeftLabel 0 = some "AA" ∧ generateRightLabel 0 = some "JJ"
        ∧ (∀ contains : Nat → Nat → Bool,
            contains a.element b.element = false → contains b.element a.element = false →
            scanResults contains 1000 [a, b]
              = [{ label := "AA", position := { x := 105, y := JS.toDouble (a.y + 5) },
                   element := a.element },
                 { label := "JJ", position := { x := 905, y := JS.toDouble (b.y + 5) },
                   element := b.element }])) := by
  refine ⟨leftElements_eq_filter _ _, rightElements_eq_filter _ _, ?_, ?_, ?_⟩
  · intro i hi hl
    rw [allocateLabels_eq, List.getElem?_append_left
      (by rw [length_zipWith_labeledEntry]; exact Nat.lt_min.mpr ⟨hi, hl⟩),
      getElem?_zipWith_labeledEntry _ _ i hi hl]
    rfl
  · intro i hi hl
    rw [allocateLabels_eq, List.getElem?_append_right
      (by rw [length_zipWith_labeledEntry]; exact Nat.le_add_right _ _),
      length_zipWith_labeledEntry, Nat.add_sub_cancel_left,
      getElem?_zipWith_labeledEntry _ _ i hi hl]
    rfl
  · intro a b ha hb
    have h1 : a.x < 1000 / 2 := by rw [ha]; norm_num
    have h2 : ¬ b.x < 1000 / 2 := by rw [hb]; norm_num
    have s1 : JS.toDouble (100 + 5) = 105 := by
      have := toDouble_intCast 105 (by norm_num)
      norm_num at this ⊢
      exact this
    have s2 : JS.toDouble (900 + 5) = 905 := by
      have := toDouble_intCast 905 (by norm_num)
      norm_num at this ⊢
      exact this
    have e1 : allocateLabels 1000 [a, b]
        = [{ label := "AA", position := { x := 105, y := JS.toDouble (a.y + 5) },
             element := a.element },
           { label := "JJ", position := { x := 905, y := JS.toDouble (b.y + 5) },
             element := b.element }] := by
      rw [allocateLabels_eq, leftElements_eq_filter, rightElements_eq_filter]
      simp [List.filter_cons, h1, h2, leftSequences, rightSequences]
      constructor <;> simp only [labeledEntry, ha, hb, s1, s2]
    have e2 : allocateLabels 1000 [b, a]
        = [{ label := "AA", position := { x := 105, y := JS.toDouble (a.y + 5) },
             element := a.element },
           { label := "JJ", position := { x := 905, y := JS.toDouble (b.y + 5) },
             element := b.element }] := by
      rw [allocateLabels_eq, leftElements_eq_filter, rightElements_eq_filter]
      simp [List.filter_cons, h1, h2, leftSequences, rightSequences]
      constructor <;> simp only [labeledEntry, ha, hb, s1, s2]
    have d1 : (distance b.x a.x).lt (JS.Number.finite proximityThreshold) = false := by
      rw [ha, hb]
      have := distance_intCast 900 100 (by norm_num)
      norm_num at this
      rw [this]
      simp [JS.Number.lt, proximityThreshold]
      norm_num
    have d2 : (distance a.x b.x).lt (JS.Number.finite proximityThreshold) = false := by
      rw [distance_comm]; exact d1
    refine ⟨e1, e2, by decide, by decide, ?_⟩
    intro contains hab hba
    show allocateLabels 1000 (deduplicateElements contains (sortByPosition [a, b])) = _
    rw [sortByPosition_pair]
    split
    · rw [deduplicateElements_far_pair _ _ _ hab hba d1]
      exact e1
    · rw [deduplicateElements_far_pair _ _ _ hba hab d2]
      exact e2

/-- Witness for C4: the scan for viewport width 1000 and unrelated candidates at
`x = 100` and `x = 900`. -/
theorem pool_label_assignment_witness :
    scanResults (fun _ _ => false) 1000 [⟨100, 40, 20, 20, 1⟩, ⟨900, 40, 20, 20, 2⟩]
      = [{ label := "AA", position := { x := 105, y := JS.toDouble (40 + 5) }, element := 1 },
         { label := "JJ", position := { x := 905, y := JS.toDouble (40 + 5) }, element := 2 }] :=
  ((pool_label_assignment 1000 []).2.2.2.2 ⟨100, 40, 20, 20, 1⟩ ⟨900, 40, 20, 20, 2⟩
    rfl rfl).2.2.2.2 (fun _ _ => false) rfl rfl

theorem length_filter_add_filter_not (p : Candidate → Bool) (l : List Candidate) :
    (l.filter p).length + (l.filter (fun el => !p el)).length = l.length := by
  induction l with
  | nil => simp
  | cons a t ih =>
    cases h : p a <;> simp [List.filter_cons, h] <;> omega

theorem not_mem_take_of_nodup {α : Type} (l : List α) (hn : l.Nodup) (n i : Nat)
    (hni : n ≤ i) (hi : i < l.length) : l[i] ∉ l.take n := by
  intro hmem
  obtain ⟨j, hj, hji⟩ := List.getElem_of_mem hmem
  have hjn : j < n := by
    have := hj
    rw [List.length_take] at this
    omega
  have hjl : j < l.length := by
    have := hj
    rw [List.length_take] at this
    omega
  rw [List.getElem_take] at hji
  have := (List.Nodup.getElem_inj_iff hn).mp hji
  omega

theorem elements_disjoint_of_nodup (p : Candidate → Bool) (l : List Candidate)
    (hn : (l.map (fun el => el.element)).Nodup) (a b : Candidate)
    (ha : a ∈ l.filter p) (hb : b ∈ l.filter (fun el => !p el)) : a.element ≠ b.element := by
  intro heq
  have ha' := List.mem_filter.mp ha
  have hb' := List.mem_filter.mp hb
  have hab : a = b := List.inj_on_of_nodup_map hn ha'.1 hb'.1 heq
  rw [hab] at ha'
  have := hb'.2
  simp [ha'.2] at this

/-- C5: the array `results` is built from the first `leftSequences.length` candidates of
the near pool followed by the first `rightSequences.length` candidates of the far pool, so
its length is `min nNear L + min nFar R`; the pools together hold every deduplicated
candidate; the overflow message, when logged, reports the number of deduplicated
candidates minus that sum (and is logged exactly when that number is positive); and when
the deduplicated candidates have distinct elements, the element of a candidate whose index
in its pool is not below the table length belongs to no entry of `results`. -/
theorem overflow_accounting (innerWidth : ℚ) (dedupedElements : List Candidate) :
    allocateLabels innerWidth dedupedElements
        = List.zipWith labeledEntry leftSequences
            ((leftElements innerWidth dedupedElements).take leftSequences.length)
          ++ List.zipWith labeledEntry rightSequences
            ((rightElements innerWidth dedupedElements).take rightSequences.length)
    ∧ (allocateLabels innerWidth dedupedElements).length
        = min (leftElements innerWidth dedupedElements).length leftSequences.length
          + min (rightElements innerWidth dedupedElements).length rightSequences.length
    ∧ (leftElements innerWidth dedupedElements).length
        + (rightElements innerWidth dedupedElements).length = dedupedElements.length
    ∧ (∀ n : Nat,
        overflowReport dedupedElements (allocateLabels innerWidth dedupedElements) = some n →
        0 < n ∧
        n + (min (leftElements innerWidth dedupedElements).length leftSequences.length
          + min (rightElements innerWidth dedupedElements).length rightSequences.length)
          = dedupedElements.length)
    ∧ (overflowReport dedupedElements (allocateLabels innerWidth dedupedElements) = none ↔
        min (leftElements innerWidth dedupedElements).length leftSequences.length
          + min (rightElements innerWidth dedupedElements).length rightSequences.length
          = dedupedElements.length)
    ∧ ((dedupedElements.map (fun el => el.element)).Nodup →
        (∀ (i : Nat) (hi : i < (leftElements innerWidth dedupedElements).length),
          leftSequences.length ≤ i →
          ∀ t ∈ allocateLabels innerWidth dedupedElements,
            t.element ≠ (leftElements innerWidth dedupedElements)[i].element)
        ∧ (∀ (i : Nat) (hi : i < (rightElements innerWidth dedupedElements).length),
          rightSequences.length ≤ i →
          ∀ t ∈ allocateLabels innerWidth dedupedElements,
            t.element ≠ (rightElements innerWidth dedupedElements)[i].element)) := by
  have hlen : (allocateLabels innerWidth dedupedElements).length
      = min (leftElements innerWidth dedupedElements).length leftSequences.length
        + min (rightElements innerWidth dedupedElements).length rightSequences.length := by
    rw [allocateLabels_eq, List.length_append, length_zipWith_labeledEntry,
      length_zipWith_labeledEntry]
  have hsum : (leftElements innerWidth dedupedElements).length
      + (rightElements innerWidth dedupedElements).length = dedupedElements.length := by
    rw [leftElements_eq_filter, rightElements_eq_filter]
    exact length_filter_add_filter_not _ _
  have hle : min (leftElements innerWidth dedupedElements).length leftSequences.length
      + min (rightElements innerWidth dedupedElements).length rightSequences.length
      ≤ dedupedElements.length := by
    have h1 := Nat.min_le_left (leftElements innerWidth dedupedElements).length
      leftSequences.length
    have h2 := Nat.min_le_left (rightElements innerWidth dedupedElements).length
      rightSequences.length
    omega
  refine ⟨?_, hlen, hsum, ?_, ?_, ?_⟩
  · rw [zipWith_take_right, zipWith_take_right, allocateLabels_eq]
  · intro n hn
    unfold overflowReport at hn
    simp only [] at hn
    split at hn
    · rename_i hlt
      have := Option.some.inj hn
      rw [hlen] at hlt this
      omega
    · simp at hn
  · unfold overflowReport
    simp only []
    rw [hlen]
    constructor
    · intro h
      split at h
      · simp at h
      · omega
    · intro h
      rw [if_neg (by omega)]
  · intro hnd
    have hmemEl : ∀ t ∈ allocateLabels innerWidth dedupedElements,
        t.element ∈ ((leftElements innerWidth dedupedElements).take leftSequences.length).map
            (fun el => el.element)
          ∨ t.element ∈ ((rightElements innerWidth dedupedElements).take
            rightSequences.length).map (fun el => el.element) := by
      intro t ht
      have : t.element ∈ (allocateLabels innerWidth dedupedElements).map
          (fun t => t.element) := List.mem_map_of_mem _ ht
      rw [allocateLabels_eq, List.map_append, map_element_zipWith, map_element_zipWith] at this
      exact List.mem_append.mp this
    have hfl := leftElements_eq_filter innerWidth dedupedElements
    have hfr := rightElements_eq_filter innerWidth dedupedElements
    have hndl : ((leftElements innerWidth dedupedElements).map (fun el => el.element)).Nodup := by
      rw [hfl]
      exact hnd.sublist (List.Sublist.map _ (List.filter_sublist _))
    have hndr : ((rightElements innerWidth dedupedElements).map
        (fun el => el.element)).Nodup := by
      rw [hfr]
      exact hnd.sublist (List.Sublist.map _ (List.filter_sublist _))
    have hdisj : ∀ a ∈ leftElements innerWidth dedupedElements,
        ∀ b ∈ rightElements innerWidth dedupedElements, a.element ≠ b.element := by
      intro a ha b hb
      rw [hfl] at ha
      rw [hfr] at hb
      exact elements_disjoint_of_nodup _ _ hnd a b ha hb
    constructor
    · intro i hi hLi t ht heq
      rcases hmemEl t ht with h | h
      · have hnot := not_mem_take_of_nodup _ hndl leftSequences.length i hLi
          (by rw [List.length_map]; exact hi)
        rw [List.getElem_map, ← heq, ← List.map_take] at hnot
        exact hnot h
      · obtain ⟨b, hb, hbe⟩ := List.mem_map.mp h
        exact hdisj _ (List.getElem_mem hi) b (List.mem_of_mem_take hb) (by rw [hbe, heq])
    · intro i hi hRi t ht heq
      rcases hmemEl t ht with h | h
      · obtain ⟨a, ha, hae⟩ := List.mem_map.mp h
        exact hdisj a (List.mem_of_mem_take ha) _ (List.getElem_mem hi) (by rw [hae, heq])
      · have hnot := not_mem_take_of_nodup _ hndr rightSequences.length i hRi
          (by rw [List.length_map]; exact hi)
        rw [List.getElem_map, ← heq, ← List.map_take] at hnot
        exact hnot h

/-- Witness for C5: 97 candidates in the near pool fill the 96 codes of the near table
and the overflow message reports one candidate without label. -/
theorem overflow_accounting_witness :
    overflowReport (List.replicate 97 ⟨0, 0, 20, 20, 0⟩)
        (allocateLabels 1000 (List.replicate 97 ⟨0, 0, 20, 20, 0⟩)) = some 1
    ∧ 0 < 1
    ∧ 1 + (min (leftElements 1000 (List.replicate 97 ⟨0, 0, 20, 20, 0⟩)).length
            leftSequences.length
          + min (rightElements 1000 (List.replicate 97 ⟨0, 0, 20, 20, 0⟩)).length
            rightSequences.length)
        = (List.replicate 97 (⟨0, 0, 20, 20, 0⟩ : Candidate)).length := by
  have hl : leftElements 1000 (List.replicate 97 ⟨0, 0, 20, 20, 0⟩)
      = List.replicate 97 ⟨0, 0, 20, 20, 0⟩ := by
    rw [leftElements_eq_filter, List.filter_eq_self]
    intro a ha
    rw [List.eq_of_mem_replicate ha]
    norm_num
  have hsum := (overflow_accounting 1000 (List.replicate 97 ⟨0, 0, 20, 20, 0⟩)).2.2.1
  have hlen := (overflow_accounting 1000 (List.replicate 97 ⟨0, 0, 20, 20, 0⟩)).2.1
  rw [hl] at hlen hsum
  simp only [List.length_replicate] at hlen hsum
  have hr : (rightElements 1000 (List.replicate 97 ⟨0, 0, 20, 20, 0⟩)).length = 0 := by omega
  rw [hr] at hlen
  have hrep : overflowReport (List.replicate 97 ⟨0, 0, 20, 20, 0⟩)
      (allocateLabels 1000 (List.replicate 97 ⟨0, 0, 20, 20, 0⟩)) = some 1 := by
    unfold overflowReport
    simp only [hlen, List.length_replicate]
    decide
  exact ⟨hrep,
    (overflow_accounting 1000 (List.replicate 97 ⟨0, 0, 20, 20, 0⟩)).2.2.2.1 1 hrep⟩

/-! ## Keystroke matcher: auxiliary facts -/

theorem char_toUpper_toUpper (c : Char) : c.toUpper.toUpper = c.toUpper := by
  by_cases h : 97 ≤ c.toNat ∧ c.toNat ≤ 122
  · have h1 : c.toUpper = Char.ofNat (c.toNat - 32) := by
      unfold Char.toUpper
      simp only [ge_iff_le, h, and_self, if_true]
    rw [h1]
    obtain ⟨ha, hb⟩ := h
    generalize c.toNat = n at ha hb
    interval_cases n <;> rfl
  · have h1 : c.toUpper = c := by
      unfold Char.toUpper
      simp only [ge_iff_le, h, if_false]
    rw [h1, h1]

theorem toUpperCase_toUpperCase (s : String) :
    JS.toUpperCase (JS.toUpperCase s) = JS.toUpperCase s := by
  have hc : Char.toUpper ∘ Char.toUpper = Char.toUpper := funext char_toUpper_toUpper
  simp [JS.toUpperCase, hc]

theorem toUpperCase_append (s t : String) :
    JS.toUpperCase (s ++ t) = JS.toUpperCase s ++ JS.toUpperCase t := by
  simp [JS.toUpperCase, String.ext_iff]

theorem toUpperCase_empty : JS.toUpperCase "" = "" := rfl

theorem length_toUpperCase (s : String) : (JS.toUpperCase s).data.length = s.data.length := by
  simp [JS.toUpperCase]

theorem length_of_isLetterKey (key : String) (h : isLetterKey key = true) :
    key.data.length = 1 := by
  unfold isLetterKey JS.length at h
  simp only [Bool.and_eq_true, beq_iff_eq] at h
  obtain ⟨h1, -⟩ := h
  match hk : key.data, h1 with
  | [], h1 => simp at h1
  | [c], _ => rfl
  | c :: d :: r, h1 =>
    exfalso
    simp only [List.map_cons, List.sum_cons] at h1
    have : ∀ x : Char, 1 ≤ (if x.val < 0x10000 then 1 else 2 : Nat) := by
      intro x; split <;> omega
    have h2 := this c
    have h3 := this d
    omega

theorem ne_of_data_length_ne (s t : String) (h : s.data.length ≠ t.data.length) : s ≠ t := by
  intro e; rw [e] at h; exact h rfl

theorem handleKeyDown_letter (page : Page) (click : ClickOutcome) (now : Int)
    (event : KeyEvent) (key : String) (w : World)
    (hkey : event.key = some key) (hletter : isLetterKey key = true)
    (hshort : isToggleShortcutPressed w.inputManager.shortcutKeys event = false)
    (hlisten : w.inputManager.sequenceListeningActive = true)
    (hnew : JS.toUpperCase key ∉ w.inputManager.keyPressed) :
    handleKeyDown page click now event w
      = emit Effect.stopPropagation (emit Effect.preventDefault
          (handleKeySequence click (w.inputManager.currentSequence ++ JS.toUpperCase key)
            (acceptLetter (JS.toUpperCase key) w))) := by
  have hlen := length_of_isLetterKey key hletter
  have h1 : key ≠ "" := ne_of_data_length_ne _ _ (by rw [hlen]; decide)
  have h2 : key ≠ "Escape" := ne_of_data_length_ne _ _ (by rw [hlen]; decide)
  unfold handleKeyDown
  simp [hkey, h1, h2, hshort, hlisten, hletter, hnew, acceptLetter]

theorem handleKeySequence_escape (click : ClickOutcome) (w : World)
    (hvis : w.extension.isOverlayVisible = true) :
    handleKeySequence click "ESCAPE" w = clearOverlay w := by
  unfold handleKeySequence
  simp [hvis]

theorem handleKeySequence_none (click : ClickOutcome) (sequence : String) (w : World)
    (hvis : w.extension.isOverlayVisible = true)
    (hnone : matchingElements w.extension.elements (JS.toUpperCase sequence) = []) :
    handleKeySequence click sequence w
      = clearOverlay { w with extension := { w.extension with currentInput := "" } } ∨
    handleKeySequence click sequence w = clearOverlay w := by
  by_cases hesc : sequence = "ESCAPE"
  · right; rw [hesc]; exact handleKeySequence_escape click w hvis
  · left
    unfold handleKeySequence
    simp [hvis, hesc, hnone]

theorem handleKeySequence_narrow (click : ClickOutcome) (sequence : String) (w : World)
    (hvis : w.extension.isOverlayVisible = true) (hesc : sequence ≠ "ESCAPE")
    (hsome : matchingElements w.extension.elements (JS.toUpperCase sequence) ≠ [])
    (hnot : ¬ ((matchingElements w.extension.elements (JS.toUpperCase sequence)).length = 1
      ∧ (matchingElements w.extension.elements (JS.toUpperCase sequence)).head?.map
          (fun m => m.label) = some (JS.toUpperCase sequence))) :
    handleKeySequence click sequence w
      = filterLabels (JS.toUpperCase sequence)
          { w with extension :=
              { w.extension with currentInput := JS.toUpperCase sequence } } := by
  unfold handleKeySequence
  simp only [hvis, hesc, Bool.not_true, Bool.false_eq_true, if_false]
  rw [if_neg hnot, if_neg (by simpa using hsome)]

theorem handleKeySequence_exact (click : ClickOutcome) (sequence : String) (w : World)
    (t : LabeledTarget)
    (hvis : w.extension.isOverlayVisible = true) (hesc : sequence ≠ "ESCAPE")
    (hone : matchingElements w.extension.elements (JS.toUpperCase sequence) = [t])
    (hlabel : t.label = JS.toUpperCase sequence) :
    handleKeySequence click sequence w
      = clearOverlay
          { (clickAt click (JS.round t.position.x) (JS.round t.position.y)
              { w with extension :=
                  { w.extension with currentInput := JS.toUpperCase sequence } }).1 with
            extension :=
              { (clickAt click (JS.round t.position.x) (JS.round t.position.y)
                  { w with extension :=
                      { w.extension with currentInput := JS.toUpperCase sequence } }).1.extension
                with currentInput := "" } } := by
  unfold handleKeySequence
  simp [hvis, hesc, hone, hlabel]

theorem isPrefixOf_eq_of_length (p s : List Char) (h : p.isPrefixOf s = true)
    (hl : p.length = s.length) : p = s := by
  induction p generalizing s with
  | nil =>
    cases s with
    | nil => rfl
    | cons b r => simp at hl
  | cons a q ih =>
    cases s with
    | nil => simp at hl
    | cons b r =>
      simp only [List.isPrefixOf, Bool.and_eq_true, beq_iff_eq] at h
      simp only [List.length_cons, Nat.add_right_cancel_iff] at hl
      rw [h.1, ih r h.2 hl]

theorem isPrefixOf_append_self (p q : List Char) : p.isPrefixOf (p ++ q) = true := by
  induction p with
  | nil => simp [List.isPrefixOf]
  | cons a r ih => simp [List.isPrefixOf, ih]

theorem isPrefixOf_length_le (p s : List Char) (h : p.isPrefixOf s = true) :
    p.length ≤ s.length := by
  induction p generalizing s with
  | nil => simp
  | cons a q ih =>
    cases s with
    | nil => simp [List.isPrefixOf] at h
    | cons b r =>
      simp only [List.isPrefixOf, Bool.and_eq_true, beq_iff_eq] at h
      simp only [List.length_cons]
      have := ih r h.2
      omega

theorem filter_eq_singleton {α : Type} (p : α → Bool) (t : α) (l : List α) (hn : l.Nodup)
    (ht : t ∈ l) (hp : ∀ u ∈ l, (p u = true ↔ u = t)) : l.filter p = [t] := by
  induction l with
  | nil => simp at ht
  | cons a r ih =>
    have hnr : r.Nodup := (List.nodup_cons.mp hn).2
    have har : a ∉ r := (List.nodup_cons.mp hn).1
    by_cases hat : a = t
    · have hpa : p a = true := (hp a (List.mem_cons_self _ _)).mpr hat
      have hrest : r.filter p = [] := by
        rw [List.filter_eq_nil_iff]
        intro u hu hpu
        have hut : u = t := (hp u (List.mem_cons_of_mem _ hu)).mp hpu
        rw [hut, ← hat] at hu
        exact har hu
      rw [List.filter_cons, if_pos hpa, hrest, hat]
    · have hpa : ¬ p a = true := fun h => hat ((hp a (List.mem_cons_self _ _)).mp h)
      have htr : t ∈ r := by
        rcases List.mem_cons.mp ht with h | h
        · exact absurd h.symm hat
        · exact h
      rw [List.filter_cons, if_neg hpa]
      exact ih hnr htr (fun u hu => hp u (List.mem_cons_of_mem _ hu))

theorem matchingElements_unique (elements : List LabeledTarget) (t : LabeledTarget)
    (hlen : ∀ u ∈ elements, u.label.data.length = 2)
    (hnd : (elements.map (fun u => u.label)).Nodup) (ht : t ∈ elements) :
    matchingElements elements t.label = [t] := by
  unfold matchingElements
  apply filter_eq_singleton _ t elements (List.Nodup.of_map _ hnd) ht
  intro u hu
  constructor
  · intro h
    unfold JS.startsWith at h
    have hd : t.label.data = u.label.data :=
      isPrefixOf_eq_of_length _ _ h (by rw [hlen u hu, hlen t ht])
    have hl : u.label = t.label := (String.ext hd).symm
    exact List.inj_on_of_nodup_map hnd hu ht hl
  · intro h
    rw [h]
    unfold JS.startsWith
    have := isPrefixOf_append_self t.label.data []
    simp

theorem activations_append (a b : List Effect) :
    activations (a ++ b) = activations a ++ activations b := by
  simp [activations, List.filterMap_append]

/-- C7: in every Armed state, when an accepted letter (a letter key that is not held
and whose event is not the toggle shortcut) extends the prefix so that no label of the
target set starts with it, `handleKeyDown` dispatches no activation (the only
collaborator calls are `onSequence`, `hideAll`, `preventDefault`, `stopPropagation`),
clears the prefix and the held keys, and leaves the matcher Idle, not Armed, with the
overlay hidden. -/
theorem no_match_cancels (page : Page) (click : ClickOutcome) (now : Int) (event : KeyEvent)
    (key : String) (w : World)
    (harmed : Armed w) (hkey : event.key = some key) (hletter : isLetterKey key = true)
    (hshort : isToggleShortcutPressed w.inputManager.shortcutKeys event = false)
    (hnew : JS.toUpperCase key ∉ w.inputManager.keyPressed)
    (hnone : ∀ t ∈ w.extension.elements,
      JS.startsWith t.label
        (JS.toUpperCase (w.inputManager.currentSequence ++ JS.toUpperCase key)) = false) :
    (handleKeyDown page click now event w).trace
        = w.trace ++ [Effect.onSequence (w.inputManager.currentSequence ++ JS.toUpperCase key),
            Effect.hideAll, Effect.preventDefault, Effect.stopPropagation]
    ∧ activations (handleKeyDown page click now event w).trace = activations w.trace
    ∧ (handleKeyDown page click now event w).inputManager.currentSequence = ""
    ∧ (handleKeyDown page click now event w).extension.currentInput = ""
    ∧ (handleKeyDown page click now event w).inputManager.keyPressed = []
    ∧ Idle (handleKeyDown page click now event w)
    ∧ ¬ Armed (handleKeyDown page click now event w)
    ∧ (handleKeyDown page click now event w).overlayRenderer.isVisible = false
    ∧ (handleKeyDown page click now event w).overlayRenderer.labels = [] := by
  obtain ⟨hvis, hlisten⟩ := harmed
  have hvis' : (acceptLetter (JS.toUpperCase key) w).extension.isOverlayVisible = true := hvis
  have hnone' : matchingElements (acceptLetter (JS.toUpperCase key) w).extension.elements
      (JS.toUpperCase (w.inputManager.currentSequence ++ JS.toUpperCase key)) = [] := by
    unfold matchingElements
    rw [List.filter_eq_nil_iff]
    intro t ht
    have := hnone t ht
    simp [this]
  rw [handleKeyDown_letter page click now event key w hkey hletter hshort hlisten hnew]
  rcases handleKeySequence_none click _ _ hvis' hnone' with h | h <;>
    rw [h] <;>
    simp [emit, clearOverlay, hideAll, setSequenceListening, acceptLetter, activations,
      Idle, Armed, List.filterMap_append]

/-- Witness for C7: with targets `AA` and `AB`, typing A and then C ends Idle. -/
theorem no_match_cancels_witness :
    Idle (handleKeyDown emptyPage clickLands 0 (plainKey "c")
      (pressRelease "a" (armedState [targetAt "AA" 10 10 1, targetAt "AB" 50 50 2]))) :=
  (no_match_cancels emptyPage clickLands 0 (plainKey "c") "c"
    (pressRelease "a" (armedState [targetAt "AA" 10 10 1, targetAt "AB" 50 50 2]))
    ⟨rfl, rfl⟩ rfl (by decide) (by decide) (by decide) (by decide)).2.2.2.2.2.1

/-- The word `ESCAPE` is a sentinel of `handleKeySequence`: with labels `ESCAPEA` and
`ESCAPEB` (which the scanner, whose codes have two letters, never allocates) and the
Armed state reached by typing E, S, C, A, P, the accepted letter E extends the prefix to
`ESCAPE`, which two labels match; the matcher does not stay Armed, the prefix is cleared,
and `filterLabels` is not called with the extended prefix. -/
theorem escape_word_clears :
    Armed escapeWordState
    ∧ escapeWordState.inputManager.currentSequence = "ESCAP"
    ∧ isLetterKey "e" = true
    ∧ isToggleShortcutPressed escapeWordState.inputManager.shortcutKeys (plainKey "e") = false
    ∧ JS.toUpperCase "e" ∉ escapeWordState.inputManager.keyPressed
    ∧ (matchingElements escapeWordState.extension.elements
        (JS.toUpperCase
          (escapeWordState.inputManager.currentSequence ++ JS.toUpperCase "e"))).length = 2
    ∧ ¬ Armed (handleKeyDown emptyPage clickLands 0 (plainKey "e") escapeWordState)
    ∧ (handleKeyDown emptyPage clickLands 0 (plainKey "e")
        escapeWordState).inputManager.currentSequence = ""
    ∧ Effect.filterLabels "ESCAPE"
        ∉ (handleKeyDown emptyPage clickLands 0 (plainKey "e") escapeWordState).trace := by
  refine ⟨⟨by decide, by decide⟩, by decide, by decide, by decide, by decide, by decide, ?_,
    by decide, by decide⟩
  unfold Armed
  decide

theorem handleKeyDown_narrow (page : Page) (click : ClickOutcome) (now : Int)
    (event : KeyEvent) (key : String) (w : World)
    (harmed : Armed w) (hkey : event.key = some key) (hletter : isLetterKey key = true)
    (hshort : isToggleShortcutPressed w.inputManager.shortcutKeys event = false)
    (hnew : JS.toUpperCase key ∉ w.inputManager.keyPressed)
    (hesc : w.inputManager.currentSequence ++ JS.toUpperCase key ≠ "ESCAPE")
    (hsome : matchingElements w.extension.elements
      (JS.toUpperCase (w.inputManager.currentSequence ++ JS.toUpperCase key)) ≠ [])
    (hnot : ¬ ((matchingElements w.extension.elements
        (JS.toUpperCase (w.inputManager.currentSequence ++ JS.toUpperCase key))).length = 1
      ∧ (matchingElements w.extension.elements
          (JS.toUpperCase (w.inputManager.currentSequence ++ JS.toUpperCase key))).head?.map
            (fun m => m.label)
          = some (JS.toUpperCase (w.inputManager.currentSequence ++ JS.toUpperCase key)))) :
    handleKeyDown page click now event w
      = { inputManager :=
            { w.inputManager with
              keyPressed := w.inputManager.keyPressed ++ [JS.toUpperCase key],
              currentSequence := w.inputManager.currentSequence ++ JS.toUpperCase key },
          extension :=
            { w.extension with
              currentInput :=
                JS.toUpperCase (w.inputManager.currentSequence ++ JS.toUpperCase key) },
          overlayRenderer :=
            { w.overlayRenderer with
              labels := w.overlayRenderer.labels.map (fun label =>
                { label with
                  shown := JS.startsWith (JS.toUpperCase label.text)
                    (JS.toUpperCase (JS.toUpperCase
                      (w.inputManager.currentSequence ++ JS.toUpperCase key))) }) },
          elementResolver := w.elementResolver,
          trace := w.trace ++
            [Effect.onSequence (w.inputManager.currentSequence ++ JS.toUpperCase key),
             Effect.filterLabels
               (JS.toUpperCase (w.inputManager.currentSequence ++ JS.toUpperCase key)),
             Effect.preventDefault, Effect.stopPropagation] } := by
  obtain ⟨hvis, hlisten⟩ := harmed
  rw [handleKeyDown_letter page click now event key w hkey hletter hshort hlisten hnew,
    handleKeySequence_narrow click _ (acceptLetter (JS.toUpperCase key) w) hvis hesc hsome hnot]
  simp [emit, filterLabels, acceptLetter]

/-- The narrowing step for a typed sequence other than the word `ESCAPE`, for labels of
any length. -/
theorem narrowing_step (page : Page) (click : ClickOutcome) (now : Int)
    (event : KeyEvent) (key : String) (w : World)
    (harmed : Armed w) (hkey : event.key = some key) (hletter : isLetterKey key = true)
    (hshort : isToggleShortcutPressed w.inputManager.shortcutKeys event = false)
    (hnew : JS.toUpperCase key ∉ w.inputManager.keyPressed)
    (hesc : w.inputManager.currentSequence ++ JS.toUpperCase key ≠ "ESCAPE")
    (hmatch : 2 ≤ (matchingElements w.extension.elements
        (JS.toUpperCase (w.inputManager.currentSequence ++ JS.toUpperCase key))).length
      ∨ ∃ m, matchingElements w.extension.elements
          (JS.toUpperCase (w.inputManager.currentSequence ++ JS.toUpperCase key)) = [m]
        ∧ (JS.toUpperCase (w.inputManager.currentSequence ++ JS.toUpperCase key)).data.length
            < m.label.data.length) :
    (handleKeyDown page click now event w).trace
        = w.trace ++
            [Effect.onSequence (w.inputManager.currentSequence ++ JS.toUpperCase key),
             Effect.filterLabels
               (JS.toUpperCase (w.inputManager.currentSequence ++ JS.toUpperCase key)),
             Effect.preventDefault, Effect.stopPropagation]
    ∧ activations (handleKeyDown page click now event w).trace = activations w.trace
    ∧ Armed (handleKeyDown page click now event w)
    ∧ (handleKeyDown page click now event w).inputManager.currentSequence
        = w.inputManager.currentSequence ++ JS.toUpperCase key
    ∧ (handleKeyDown page click now event w).extension.currentInput
        = JS.toUpperCase (w.inputManager.currentSequence ++ JS.toUpperCase key)
    ∧ (handleKeyDown page click now event w).inputManager.keyPressed
        = w.inputManager.keyPressed ++ [JS.toUpperCase key]
    ∧ (handleKeyDown page click now event w).extension.elements = w.extension.elements
    ∧ (handleKeyDown page click now event w).overlayRenderer.isVisible
        = w.overlayRenderer.isVisible := by
  have hsome : matchingElements w.extension.elements
      (JS.toUpperCase (w.inputManager.currentSequence ++ JS.toUpperCase key)) ≠ [] := by
    rcases hmatch with h | ⟨m, hm, -⟩
    · intro h0; rw [h0] at h; simp at h
    · rw [hm]; simp
  have hnot : ¬ ((matchingElements w.extension.elements
        (JS.toUpperCase (w.inputManager.currentSequence ++ JS.toUpperCase key))).length = 1
      ∧ (matchingElements w.extension.elements
          (JS.toUpperCase (w.inputManager.currentSequence ++ JS.toUpperCase key))).head?.map
            (fun m => m.label)
          = some (JS.toUpperCase (w.inputManager.currentSequence ++ JS.toUpperCase key))) := by
    rintro ⟨h1, h2⟩
    rcases hmatch with h | ⟨m, hm, hlt⟩
    · omega
    · rw [hm] at h2
      simp only [List.head?_cons, Option.map_some', Option.some.injEq] at h2
      rw [h2] at hlt
      exact lt_irrefl _ hlt
  rw [handleKeyDown_narrow page click now event key w harmed hkey hletter hshort hnew hesc
    hsome hnot]
  obtain ⟨hvis, hlisten⟩ := harmed
  simp [activations, List.filterMap_append, Armed, hvis, hlisten]

/-- A sequence that some two-character label starts with is not the word `ESCAPE`. -/
theorem ne_escape_of_match (elements : List LabeledTarget) (sequence : String)
    (hlabels : ∀ u ∈ elements, u.label.data.length = 2)
    (hsome : matchingElements elements (JS.toUpperCase sequence) ≠ []) :
    sequence ≠ "ESCAPE" := by
  obtain ⟨t, ht⟩ := List.exists_mem_of_ne_nil _ hsome
  have hmem := (List.mem_filter.mp ht).1
  have hpre : JS.startsWith t.label (JS.toUpperCase sequence) = true := (List.mem_filter.mp ht).2
  have hle := isPrefixOf_length_le _ _ hpre
  rw [length_toUpperCase, hlabels t hmem] at hle
  apply ne_of_data_length_ne
  have : "ESCAPE".data.length = 6 := by decide
  omega

/-- C8: for every target set whose labels are two-character codes (as every label
allocated by the scanner is) and every Armed state, when the prefix extended by a newly
accepted letter is matched by two or more labels, or by exactly one label that is
strictly longer than the prefix, `handleKeyDown` dispatches no activation, the matcher
stays Armed with the extended prefix, and `filterLabels` is called with that prefix. -/
theorem narrowing_keeps_armed (page : Page) (click : ClickOutcome) (now : Int)
    (event : KeyEvent) (key : String) (w : World)
    (harmed : Armed w) (hkey : event.key = some key) (hletter : isLetterKey key = true)
    (hshort : isToggleShortcutPressed w.inputManager.shortcutKeys event = false)
    (hnew : JS.toUpperCase key ∉ w.inputManager.keyPressed)
    (hlabels : ∀ u ∈ w.extension.elements, u.label.data.length = 2)
    (hmatch : 2 ≤ (matchingElements w.extension.elements
        (JS.toUpperCase (w.inputManager.currentSequence ++ JS.toUpperCase key))).length
      ∨ ∃ m, matchingElements w.extension.elements
          (JS.toUpperCase (w.inputManager.currentSequence ++ JS.toUpperCase key)) = [m]
        ∧ (JS.toUpperCase (w.inputManager.currentSequence ++ JS.toUpperCase key)).data.length
            < m.label.data.length) :
    (handleKeyDown page click now event w).trace
        = w.trace ++
            [Effect.onSequence (w.inputManager.currentSequence ++ JS.toUpperCase key),
             Effect.filterLabels
               (JS.toUpperCase (w.inputManager.currentSequence ++ JS.toUpperCase key)),
             Effect.preventDefault, Effect.stopPropagation]
    ∧ activations (handleKeyDown page click now event w).trace = activations w.trace
    ∧ Armed (handleKeyDown page click now event w)
    ∧ (handleKeyDown page click now event w).inputManager.currentSequence
        = w.inputManager.currentSequence ++ JS.toUpperCase key
    ∧ (handleKeyDown page click now event w).extension.currentInput
        = JS.toUpperCase (w.inputManager.currentSequence ++ JS.toUpperCase key)
    ∧ (handleKeyDown page click now event w).inputManager.keyPressed
        = w.inputManager.keyPressed ++ [JS.toUpperCase key]
    ∧ (handleKeyDown page click now event w).extension.elements = w.extension.elements
    ∧ (handleKeyDown page click now event w).overlayRenderer.isVisible
        = w.overlayRenderer.isVisible := by
  have hsome : matchingElements w.extension.elements
      (JS.toUpperCase (w.inputManager.currentSequence ++ JS.toUpperCase key)) ≠ [] := by
    rcases hmatch with h | ⟨m, hm, -⟩
    · intro h0; rw [h0] at h; simp at h
    · rw [hm]; simp
  exact narrowing_step page click now event key w harmed hkey hletter hshort hnew
    (ne_escape_of_match _ _ hlabels hsome) hmatch

/-- Witness for C8: with labels `AA`, `AB`, `AC`, typing A leaves three matches and the
matcher Armed with prefix `A`. -/
theorem narrowing_keeps_armed_witness :
    (matchingElements [targetAt "AA" 10 10 1, targetAt "AB" 50 50 2, targetAt "AC" 90 90 3]
        "A").length = 3
    ∧ Armed (handleKeyDown emptyPage clickLands 0 (plainKey "a")
        (armedState [targetAt "AA" 10 10 1, targetAt "AB" 50 50 2, targetAt "AC" 90 90 3]))
    ∧ (handleKeyDown emptyPage clickLands 0 (plainKey "a")
        (armedState [targetAt "AA" 10 10 1, targetAt "AB" 50 50 2,
          targetAt "AC" 90 90 3])).inputManager.currentSequence = "A" :=
  ⟨by decide,
   (narrowing_keeps_armed emptyPage clickLands 0 (plainKey "a") "a"
      (armedState [targetAt "AA" 10 10 1, targetAt "AB" 50 50 2, targetAt "AC" 90 90 3])
      ⟨rfl, rfl⟩ rfl (by decide) (by decide) (by decide) (by decide)
      (Or.inl (by decide))).2.2.1,
   (narrowing_keeps_armed emptyPage clickLands 0 (plainKey "a") "a"
      (armedState [targetAt "AA" 10 10 1, targetAt "AB" 50 50 2, targetAt "AC" 90 90 3])
      ⟨rfl, rfl⟩ rfl (by decide) (by decide) (by decide) (by decide)
      (Or.inl (by decide))).2.2.2.1⟩

theorem handleKeyDown_exact (page : Page) (click : ClickOutcome) (now : Int)
    (event : KeyEvent) (key : String) (w : World) (t : LabeledTarget)
    (harmed : Armed w) (hkey : event.key = some key) (hletter : isLetterKey key = true)
    (hshort : isToggleShortcutPressed w.inputManager.shortcutKeys event = false)
    (hnew : JS.toUpperCase key ∉ w.inputManager.keyPressed)
    (hesc : w.inputManager.currentSequence ++ JS.toUpperCase key ≠ "ESCAPE")
    (hone : matchingElements w.extension.elements
      (JS.toUpperCase (w.inputManager.currentSequence ++ JS.toUpperCase key)) = [t])
    (hlabel : t.label
      = JS.toUpperCase (w.inputManager.currentSequence ++ JS.toUpperCase key)) :
    activations (handleKeyDown page click now event w).trace
        = activations w.trace ++ [(JS.round t.position.x, JS.round t.position.y)]
    ∧ Idle (handleKeyDown page click now event w)
    ∧ (handleKeyDown page click now event w).inputManager.currentSequence = ""
    ∧ (handleKeyDown page click now event w).extension.currentInput = ""
    ∧ (handleKeyDown page click now event w).inputManager.keyPressed = []
    ∧ (handleKeyDown page click now event w).overlayRenderer.isVisible = false
    ∧ (handleKeyDown page click now event w).overlayRenderer.labels = [] := by
  obtain ⟨hvis, hlisten⟩ := harmed
  rw [handleKeyDown_letter page click now event key w hkey hletter hshort hlisten hnew,
    handleKeySequence_exact click _ (acceptLetter (JS.toUpperCase key) w) t hvis hesc hone
      hlabel]
  cases hd : click.dispatched <;>
    simp [emit, clearOverlay, hideAll, setSequenceListening, acceptLetter, activations,
      Idle, List.filterMap_append, clickAt, handleClick, hd, hvis]

theorem handleKeyUp_letter (event : KeyEvent) (key : String) (w : World)
    (hkey : event.key = some key) (hletter : isLetterKey key = true) :
    handleKeyUp event w
      = { w with inputManager :=
            { w.inputManager with
              keyPressed :=
                w.inputManager.keyPressed.filter (fun held => held != JS.toUpperCase key) } } := by
  have hlen := length_of_isLetterKey key hletter
  have h1 : key ≠ "" := ne_of_data_length_ne _ _ (by rw [hlen]; decide)
  unfold handleKeyUp
  simp [hkey, h1, hletter]

/-- C6: for every target set whose labels are pairwise distinct strings of two uppercase
letters and every target `t` in it: from an Armed state with empty prefix and no held key,
a keydown of the first letter of `t.label`, the keyup of that key and a keydown of the
second letter (neither keydown being the toggle shortcut) dispatch exactly one activation,
`clickAt (round t.position.x) (round t.position.y)`, and leave the matcher Idle with an
empty prefix, no held key and the overlay hidden. -/
theorem exact_match_activates (page1 page2 : Page) (click1 click2 : ClickOutcome)
    (now1 now2 : Int) (down1 up1 down2 : KeyEvent) (key1 key2 : String) (w : World)
    (t : LabeledTarget)
    (harmed : Armed w) (hseq : w.inputManager.currentSequence = "")
    (hheld : w.inputManager.keyPressed = [])
    (hlabels : ∀ u ∈ w.extension.elements,
      u.label.data.length = 2 ∧ ∀ c ∈ u.label.data, c.isUpper = true)
    (hdistinct : (w.extension.elements.map (fun u => u.label)).Nodup)
    (ht : t ∈ w.extension.elements)
    (hd1 : down1.key = some key1) (hu1 : up1.key = some key1) (hd2 : down2.key = some key2)
    (hl1 : isLetterKey key1 = true) (hl2 : isLetterKey key2 = true)
    (hlabel : t.label = JS.toUpperCase key1 ++ JS.toUpperCase key2)
    (hs1 : isToggleShortcutPressed w.inputManager.shortcutKeys down1 = false)
    (hs2 : isToggleShortcutPressed w.inputManager.shortcutKeys down2 = false) :
    activations (handleKeyDown page2 click2 now2 down2
        (handleKeyUp up1 (handleKeyDown page1 click1 now1 down1 w))).trace
        = activations w.trace ++ [(JS.round t.position.x, JS.round t.position.y)]
    ∧ Idle (handleKeyDown page2 click2 now2 down2
        (handleKeyUp up1 (handleKeyDown page1 click1 now1 down1 w)))
    ∧ (handleKeyDown page2 click2 now2 down2
        (handleKeyUp up1 (handleKeyDown page1 click1 now1 down1 w))).inputManager.currentSequence
        = ""
    ∧ (handleKeyDown page2 click2 now2 down2
        (handleKeyUp up1 (handleKeyDown page1 click1 now1 down1 w))).extension.currentInput = ""
    ∧ (handleKeyDown page2 click2 now2 down2
        (handleKeyUp up1 (handleKeyDown page1 click1 now1 down1 w))).inputManager.keyPressed = []
    ∧ (handleKeyDown page2 click2 now2 down2
        (handleKeyUp up1 (handleKeyDown page1 click1 now1 down1 w))).overlayRenderer.isVisible
        = false
    ∧ (handleKeyDown page2 click2 now2 down2
        (handleKeyUp up1 (handleKeyDown page1 click1 now1 down1 w))).overlayRenderer.labels
        = [] := by
  have hlen1 : (JS.toUpperCase key1).data.length = 1 := by
    rw [length_toUpperCase]; exact length_of_isLetterKey key1 hl1
  have hlen2 : (JS.toUpperCase key2).data.length = 1 := by
    rw [length_toUpperCase]; exact length_of_isLetterKey key2 hl2
  have hlen : ∀ u ∈ w.extension.elements, u.label.data.length = 2 :=
    fun u hu => (hlabels u hu).1
  have hup1 : JS.toUpperCase (w.inputManager.currentSequence ++ JS.toUpperCase key1)
      = JS.toUpperCase key1 := by
    rw [hseq, toUpperCase_append, toUpperCase_empty, toUpperCase_toUpperCase]
    exact String.ext (by simp)
  have hcat1 : w.inputManager.currentSequence ++ JS.toUpperCase key1 = JS.toUpperCase key1 := by
    rw [hseq]; exact String.ext (by simp)
  -- the first keydown narrows
  have hstart : JS.startsWith t.label (JS.toUpperCase key1) = true := by
    unfold JS.startsWith
    rw [hlabel, String.data_append]
    exact isPrefixOf_append_self _ _
  have hsome : matchingElements w.extension.elements
      (JS.toUpperCase (w.inputManager.currentSequence ++ JS.toUpperCase key1)) ≠ [] := by
    rw [hup1]
    intro h0
    have hmem : t ∈ matchingElements w.extension.elements (JS.toUpperCase key1) := by
      unfold matchingElements
      exact List.mem_filter.mpr ⟨ht, hstart⟩
    rw [h0] at hmem
    simp at hmem
  have hnot : ¬ ((matchingElements w.extension.elements
        (JS.toUpperCase (w.inputManager.currentSequence ++ JS.toUpperCase key1))).length = 1
      ∧ (matchingElements w.extension.elements
          (JS.toUpperCase (w.inputManager.currentSequence ++ JS.toUpperCase key1))).head?.map
            (fun m => m.label)
          = some (JS.toUpperCase (w.inputManager.currentSequence ++ JS.toUpperCase key1))) := by
    rintro ⟨-, h2⟩
    rw [hup1] at h2
    cases hm : matchingElements w.extension.elements (JS.toUpperCase key1) with
    | nil => rw [hm] at h2; simp at h2
    | cons m r =>
      rw [hm] at h2
      simp only [List.head?_cons, Option.map_some', Option.some.injEq] at h2
      have hmem : m ∈ w.extension.elements := by
        have : m ∈ matchingElements w.extension.elements (JS.toUpperCase key1) := by
          rw [hm]; exact List.mem_cons_self _ _
        exact (List.mem_filter.mp this).1
      have := hlen m hmem
      rw [h2, hlen1] at this
      omega
  have hesc1 : w.inputManager.currentSequence ++ JS.toUpperCase key1 ≠ "ESCAPE" := by
    rw [hcat1]
    exact ne_of_data_length_ne _ _ (by rw [hlen1]; decide)
  have hnew1 : JS.toUpperCase key1 ∉ w.inputManager.keyPressed := by rw [hheld]; simp
  have step1 := handleKeyDown_narrow page1 click1 now1 down1 key1 w harmed hd1 hl1 hs1 hnew1
    hesc1 hsome hnot
  -- the keyup releases the key
  have step2 := handleKeyUp_letter up1 key1 (handleKeyDown page1 click1 now1 down1 w) hu1 hl1
  -- the second keydown is an exact match
  have harmed2 : Armed (handleKeyUp up1 (handleKeyDown page1 click1 now1 down1 w)) := by
    rw [step2, step1]; exact harmed
  have hkeys2 : (handleKeyUp up1
      (handleKeyDown page1 click1 now1 down1 w)).inputManager.shortcutKeys
      = w.inputManager.shortcutKeys := by
    rw [step2, step1]
  have hseq2 : (handleKeyUp up1
      (handleKeyDown page1 click1 now1 down1 w)).inputManager.currentSequence
      = JS.toUpperCase key1 := by
    rw [step2, step1]; exact hcat1
  have hheld2 : (handleKeyUp up1
      (handleKeyDown page1 click1 now1 down1 w)).inputManager.keyPressed = [] := by
    rw [step2, step1]
    simp [hheld]
  have hels2 : (handleKeyUp up1 (handleKeyDown page1 click1 now1 down1 w)).extension.elements
      = w.extension.elements := by
    rw [step2, step1]
  have htrace2 : (handleKeyUp up1 (handleKeyDown page1 click1 now1 down1 w)).trace
      = w.trace ++
            [Effect.onSequence (w.inputManager.currentSequence ++ JS.toUpperCase key1),
             Effect.filterLabels
               (JS.toUpperCase (w.inputManager.currentSequence ++ JS.toUpperCase key1)),
             Effect.preventDefault, Effect.stopPropagation] := by
    rw [step2, step1]
  have hup2 : JS.toUpperCase ((handleKeyUp up1
      (handleKeyDown page1 click1 now1 down1 w)).inputManager.currentSequence
        ++ JS.toUpperCase key2) = t.label := by
    rw [hseq2, toUpperCase_append, toUpperCase_toUpperCase, toUpperCase_toUpperCase, hlabel]
  have hesc2 : (handleKeyUp up1
      (handleKeyDown page1 click1 now1 down1 w)).inputManager.currentSequence
        ++ JS.toUpperCase key2 ≠ "ESCAPE" := by
    rw [hseq2]
    exact ne_of_data_length_ne _ _
      (by rw [String.data_append, List.length_append, hlen1, hlen2]; decide)
  have hone : matchingElements
      (handleKeyUp up1 (handleKeyDown page1 click1 now1 down1 w)).extension.elements
      (JS.toUpperCase ((handleKeyUp up1
        (handleKeyDown page1 click1 now1 down1 w)).inputManager.currentSequence
          ++ JS.toUpperCase key2)) = [t] := by
    rw [hup2, hels2]
    exact matchingElements_unique _ t hlen hdistinct ht
  have hnew2 : JS.toUpperCase key2 ∉ (handleKeyUp up1
      (handleKeyDown page1 click1 now1 down1 w)).inputManager.keyPressed := by
    rw [hheld2]; simp
  have step3 := handleKeyDown_exact page2 click2 now2 down2 key2
    (handleKeyUp up1 (handleKeyDown page1 click1 now1 down1 w)) t harmed2 hd2 hl2
    (by rw [hkeys2]; exact hs2) hnew2 hesc2 hone hup2.symm
  refine ⟨?_, step3.2⟩
  rw [step3.1, htrace2, activations_append]
  simp [activations]

/-- Witness for C6: with targets `AA` at (10,10) and `AB` at (50,50), typing A, releasing
it and typing A again activates at (10,10) and ends Idle. -/
theorem exact_match_activates_witness :
    activations (handleKeyDown emptyPage clickLands 0 (plainKey "a")
        (handleKeyUp (plainKey "a") (handleKeyDown emptyPage clickLands 0 (plainKey "a")
          (armedState [targetAt "AA" 10 10 1, targetAt "AB" 50 50 2])))).trace = [(10, 10)]
    ∧ Idle (handleKeyDown emptyPage clickLands 0 (plainKey "a")
        (handleKeyUp (plainKey "a") (handleKeyDown emptyPage clickLands 0 (plainKey "a")
          (armedState [targetAt "AA" 10 10 1, targetAt "AB" 50 50 2])))) := by
  have h := exact_match_activates emptyPage emptyPage clickLands clickLands 0 0
    (plainKey "a") (plainKey "a") (plainKey "a") "a" "a"
    (armedState [targetAt "AA" 10 10 1, targetAt "AB" 50 50 2]) (targetAt "AA" 10 10 1)
    ⟨rfl, rfl⟩ rfl rfl (by decide) (by decide) (List.mem_cons_self _ _) rfl rfl rfl
    (by decide) (by decide) (by decide) (by decide) (by decide)
  have hr : JS.round 10 = 10 := by
    unfold JS.round
    rw [Int.floor_eq_iff]
    norm_num
  refine ⟨?_, h.2.1⟩
  rw [h.1]
  simp [activations, armedState, targetAt, hr]

/-! ## Shortcut detection -/

theorem contains_eq_true_iff (l : List String) (a : String) :
    l.contains a = true ↔ a ∈ l := by
  simp

theorem allModifiers_iff (shortcutKeys : List String) (event : KeyEvent) :
    (shortcutKeys.filter (fun key => modifierKeys.contains key)).all (modifierPressed event)
        = true
      ↔ ∀ m ∈ modifierKeys, m ∈ shortcutKeys → modifierPressed event m = true := by
  simp only [List.all_eq_true, List.mem_filter, contains_eq_true_iff, and_imp]
  constructor
  · intro h m hm hs; exact h m hs hm
  · intro h m hs hm; exact h m hm hs

theorem noExtra_iff (shortcutKeys : List String) (event : KeyEvent) :
    (requiredKeys event).all (fun entry =>
        if (shortcutKeys.filter (fun key => modifierKeys.contains key)).contains entry.1
        then true else !entry.2) = true
      ↔ ∀ m ∈ modifierKeys, m ∉ shortcutKeys → modifierPressed event m = false := by
  simp only [requiredKeys, modifierKeys, modifierPressed, List.all_cons, List.all_nil,
    contains_eq_true_iff, List.mem_filter, List.mem_cons, List.mem_singleton,
    List.not_mem_nil, or_false, Bool.and_true, Bool.and_eq_true, forall_eq_or_imp, forall_eq,
    true_or, or_true, and_true]
  by_cases h1 : "Control" ∈ shortcutKeys <;> by_cases h2 : "Alt" ∈ shortcutKeys <;>
    by_cases h3 : "Shift" ∈ shortcutKeys <;> by_cases h4 : "Meta" ∈ shortcutKeys <;>
    simp [h1, h2, h3, h4] <;> tauto

theorem isToggleShortcutPressed_iff (shortcutKeys : List String) (event : KeyEvent) :
    isToggleShortcutPressed shortcutKeys event = true
      ↔ (∀ m ∈ modifierKeys, m ∈ shortcutKeys → modifierPressed event m = true)
        ∧ ((shortcutKeys.filter (fun key => !modifierKeys.contains key)).length = 0
            ∨ ∃ key ∈ shortcutKeys.filter (fun key => !modifierKeys.contains key),
                event.key = some key ∨ event.key = some (JS.toLowerCase key))
        ∧ (∀ m ∈ modifierKeys, m ∉ shortcutKeys → modifierPressed event m = false) := by
  unfold isToggleShortcutPressed
  simp only [Bool.and_eq_true, allModifiers_iff, noExtra_iff, Bool.or_eq_true, beq_iff_eq,
    List.any_eq_true, and_assoc]

theorem isToggleShortcutPressed_plainKey (shortcutKeys : List String) (key : String)
    (hmod : ∃ m ∈ modifierKeys, m ∈ shortcutKeys) :
    isToggleShortcutPressed shortcutKeys (plainKey key) = false := by
  obtain ⟨m, hm, hs⟩ := hmod
  cases h : isToggleShortcutPressed shortcutKeys (plainKey key) with
  | false => rfl
  | true =>
    have hp := ((isToggleShortcutPressed_iff _ _).mp h).1 m hm hs
    have hflag : modifierPressed (plainKey key) m = false := by
      simp [modifierPressed, plainKey]
    rw [hflag] at hp
    exact absurd hp (by decide)

/-- C9: `isToggleShortcutPressed` returns true only if every required modifier is pressed
and no modifier (Control, Alt, Shift, Meta) outside the required set is pressed; when the
shortcut has no regular key these two conditions are also sufficient.  A Control+Alt
shortcut does not match an event with Control, Alt and Shift pressed. -/
theorem shortcut_exact_modifiers (shortcutKeys : List String) (event : KeyEvent) :
    (isToggleShortcutPressed shortcutKeys event = true →
      (∀ m ∈ modifierKeys, m ∈ shortcutKeys → modifierPressed event m = true)
      ∧ (∀ m ∈ modifierKeys, m ∉ shortcutKeys → modifierPressed event m = false))
    ∧ ((∀ key ∈ shortcutKeys, key ∈ modifierKeys) →
        (∀ m ∈ modifierKeys, m ∈ shortcutKeys → modifierPressed event m = true) →
        (∀ m ∈ modifierKeys, m ∉ shortcutKeys → modifierPressed event m = false) →
        isToggleShortcutPressed shortcutKeys event = true)
    ∧ (event.ctrlKey = true → event.altKey = true → event.shiftKey = true →
        isToggleShortcutPressed ["Control", "Alt"] event = false) := by
  refine ⟨?_, ?_, ?_⟩
  · intro h
    have := (isToggleShortcutPressed_iff shortcutKeys event).mp h
    exact ⟨this.1, this.2.2⟩
  · intro hreg hall hextra
    rw [isToggleShortcutPressed_iff]
    refine ⟨hall, Or.inl ?_, hextra⟩
    rw [List.length_eq_zero, List.filter_eq_nil_iff]
    intro key hk
    simp [hreg key hk]
  · intro _ _ hshift
    cases h : isToggleShortcutPressed ["Control", "Alt"] event with
    | false => rfl
    | true =>
      have := ((isToggleShortcutPressed_iff _ event).mp h).2.2 "Shift" (by decide) (by decide)
      have hflag : modifierPressed event "Shift" = event.shiftKey := by
        simp [modifierPressed]
      rw [hflag, hshift] at this
      exact absurd this (by decide)

/-- Witness for C9: the default Control+Alt shortcut matches an event with exactly Control
and Alt pressed, hence both are pressed and Shift and Meta are not; it does not match when
Shift is pressed as well. -/
theorem shortcut_exact_modifiers_witness :
    ((∀ m ∈ modifierKeys, m ∈ ["Control", "Alt"] →
        modifierPressed ⟨some "Alt", true, true, false, false⟩ m = true)
      ∧ (∀ m ∈ modifierKeys, m ∉ ["Control", "Alt"] →
        modifierPressed ⟨some "Alt", true, true, false, false⟩ m = false))
    ∧ isToggleShortcutPressed ["Control", "Alt"] ⟨some "Shift", true, true, true, false⟩
        = false :=
  ⟨(shortcut_exact_modifiers ["Control", "Alt"] ⟨some "Alt", true, true, false, false⟩).1
      (by decide),
   (shortcut_exact_modifiers ["Control", "Alt"] ⟨some "Shift", true, true, true, false⟩).2.2
      rfl rfl rfl⟩

/-- Counterexample to C10 as stated: for the shortcut Control + `k` (lower case) and a
keydown of `K` with exactly Control pressed, the event key equals the required key when
letter case is ignored, and `isToggleShortcutPressed` returns false. -/
theorem regular_key_case_counterexample :
    ["Control", "k"].filter (fun key => !modifierKeys.contains key) = ["k"]
    ∧ (∀ m ∈ modifierKeys,
        modifierPressed ⟨some "K", false, true, false, false⟩ m
          = decide (m ∈ ["Control", "k"]))
    ∧ JS.toLowerCase "K" = JS.toLowerCase "k"
    ∧ isToggleShortcutPressed ["Control", "k"] ⟨some "K", false, true, false, false⟩
        = false := by
  decide

theorem isToggleShortcutPressedWith_iff (toLowerCase : String → String)
    (shortcutKeys : List String) (event : KeyEvent) :
    isToggleShortcutPressedWith toLowerCase shortcutKeys event = true
      ↔ (∀ m ∈ modifierKeys, m ∈ shortcutKeys → modifierPressed event m = true)
        ∧ ((shortcutKeys.filter (fun key => !modifierKeys.contains key)).length = 0
            ∨ ∃ key ∈ shortcutKeys.filter (fun key => !modifierKeys.contains key),
                event.key = some key ∨ event.key = some (toLowerCase key))
        ∧ (∀ m ∈ modifierKeys, m ∉ shortcutKeys → modifierPressed event m = false) := by
  unfold isToggleShortcutPressedWith
  simp only [Bool.and_eq_true, allModifiers_iff, noExtra_iff, Bool.or_eq_true, beq_iff_eq,
    List.any_eq_true, and_assoc]

theorem isToggleShortcutPressed_eq_with (shortcutKeys : List String) (event : KeyEvent) :
    isToggleShortcutPressed shortcutKeys event
      = isToggleShortcutPressedWith JS.toLowerCase shortcutKeys event := rfl

/-- C10 (amended): for a shortcut with exactly one required regular key `k` and a keydown
event whose pressed modifiers are exactly the required ones, `isToggleShortcutPressed`
returns true if and only if the event key is `k` itself or `k.toLowerCase()`, whatever
function `String.prototype.toLowerCase` is (the parameter `toLowerCase`).  So a key `k`
stored in upper case is matched by the upper-case and by the lower-case event key, while
the event key is never lower-cased.  For a key `k` of ASCII characters the same holds of
`isToggleShortcutPressed` with the ASCII lower-casing `JS.toLowerCase`. -/
theorem regular_key_match (toLowerCase : String → String) (shortcutKeys : List String)
    (event : KeyEvent) (k : String)
    (hreg : shortcutKeys.filter (fun key => !modifierKeys.contains key) = [k])
    (hmods : ∀ m ∈ modifierKeys, modifierPressed event m = decide (m ∈ shortcutKeys)) :
    (isToggleShortcutPressedWith toLowerCase shortcutKeys event = true
      ↔ event.key = some k ∨ event.key = some (toLowerCase k))
    ∧ (event.key = some (toLowerCase k) →
        isToggleShortcutPressedWith toLowerCase shortcutKeys event = true)
    ∧ (event.key = some k →
        isToggleShortcutPressedWith toLowerCase shortcutKeys event = true)
    ∧ ((∀ c ∈ k.data, c.val < 128) →
        (isToggleShortcutPressed shortcutKeys event = true
          ↔ event.key = some k ∨ event.key = some (JS.toLowerCase k))) := by
  have hiff : ∀ lower : String → String,
      isToggleShortcutPressedWith lower shortcutKeys event = true
        ↔ event.key = some k ∨ event.key = some (lower k) := by
    intro lower
    rw [isToggleShortcutPressedWith_iff, hreg]
    constructor
    · rintro ⟨-, h, -⟩
      rcases h with h | ⟨key, hk, h⟩
      · simp at h
      · rw [List.mem_singleton.mp hk] at h
        exact h
    · intro h
      refine ⟨?_, Or.inr ⟨k, List.mem_singleton.mpr rfl, h⟩, ?_⟩
      · intro m hm hs
        rw [hmods m hm]
        exact decide_eq_true hs
      · intro m hm hs
        rw [hmods m hm]
        exact decide_eq_false hs
  refine ⟨hiff toLowerCase, fun h => (hiff toLowerCase).mpr (Or.inr h),
    fun h => (hiff toLowerCase).mpr (Or.inl h), fun _ => ?_⟩
  rw [isToggleShortcutPressed_eq_with]
  exact hiff JS.toLowerCase

/-- Witness for C10: the shortcut Control + `K` matches the keydown of `k` with exactly
Control pressed. -/
theorem regular_key_match_witness :
    isToggleShortcutPressedWith JS.toLowerCase ["Control", "K"]
      ⟨some "k", false, true, false, false⟩ = true :=
  (regular_key_match JS.toLowerCase ["Control", "K"] ⟨some "k", false, true, false, false⟩ "K"
    (by decide) (by decide)).2.1 (by decide)

/-! ## Toggle debounce -/

theorem handleKeyDown_shortcut (page : Page) (click : ClickOutcome) (now : Int)
    (event : KeyEvent) (key : String) (w : World)
    (hkey : event.key = some key) (hne : key ≠ "")
    (hshort : isToggleShortcutPressed w.inputManager.shortcutKeys event = true) :
    handleKeyDown page click now event w
      = if now - w.inputManager.lastToggleTime > toggleDebounceMs then
          toggleOverlay page (emit Effect.onToggle
            { (emit Effect.stopPropagation (emit Effect.preventDefault w)) with
              inputManager :=
                { w.inputManager with lastToggleTime := now } })
        else emit Effect.stopPropagation (emit Effect.preventDefault w) := by
  unfold handleKeyDown
  simp [hkey, hne, hshort, emit]

theorem toggleOverlay_facts (page : Page) (w : World)
    (hpre : w.extension.preloadComplete = true) :
    (toggleOverlay page w).extension.isOverlayVisible = !w.extension.isOverlayVisible
    ∧ (toggleOverlay page w).inputManager.sequenceListeningActive
        = !w.extension.isOverlayVisible
    ∧ (toggleOverlay page w).inputManager.lastToggleTime = w.inputManager.lastToggleTime
    ∧ (toggleOverlay page w).inputManager.shortcutKeys = w.inputManager.shortcutKeys
    ∧ (toggleOverlay page w).extension.preloadComplete = true
    ∧ toggleCount (toggleOverlay page w).trace = toggleCount w.trace := by
  unfold toggleOverlay
  cases hv : w.extension.isOverlayVisible
  · simp only [hv, hpre, Bool.false_eq_true, if_false, Bool.not_true, Bool.not_false,
      setSequenceListening, renderLabels, emit, scanCurrentViewport, toggleCount]
    cases page.clickable <;> simp [setElements, hpre]
  · simp [hv, hpre, hideAll, setSequenceListening, clearSequence, emit, toggleCount]

/-- C11: for two consecutive shortcut detections at times `t1 < t2` on an initialised
coordinator, where the first passes the debounce test and so toggles the overlay, the
second toggles it again if and only if `t2 - t1 > 300`: after the first the visibility has
flipped and the matcher is Armed or Idle accordingly; 50 ms apart the pair produces exactly
one flip and one `onToggle` call, 400 ms apart two flips and two calls. -/
theorem toggle_debounce (page1 page2 : Page) (click1 click2 : ClickOutcome) (t1 t2 : Int)
    (event1 event2 : KeyEvent) (key1 key2 : String) (w : World)
    (hk1 : event1.key = some key1) (hne1 : key1 ≠ "")
    (hk2 : event2.key = some key2) (hne2 : key2 ≠ "")
    (hs1 : isToggleShortcutPressed w.inputManager.shortcutKeys event1 = true)
    (hs2 : isToggleShortcutPressed w.inputManager.shortcutKeys event2 = true)
    (hpre : w.extension.preloadComplete = true)
    (hfirst : t1 - w.inputManager.lastToggleTime > toggleDebounceMs)
    (_hlt : t1 < t2) :
    (handleKeyDown page1 click1 t1 event1 w).extension.isOverlayVisible
        = !w.extension.isOverlayVisible
    ∧ (handleKeyDown page1 click1 t1 event1 w).inputManager.sequenceListeningActive
        = !w.extension.isOverlayVisible
    ∧ toggleCount (handleKeyDown page1 click1 t1 event1 w).trace = toggleCount w.trace + 1
    ∧ (t2 - t1 > 300 ↔
        (handleKeyDown page2 click2 t2 event2
          (handleKeyDown page1 click1 t1 event1 w)).extension.isOverlayVisible
          = !(handleKeyDown page1 click1 t1 event1 w).extension.isOverlayVisible)
    ∧ (t2 - t1 > 300 ↔
        toggleCount (handleKeyDown page2 click2 t2 event2
          (handleKeyDown page1 click1 t1 event1 w)).trace = toggleCount w.trace + 2)
    ∧ (¬ t2 - t1 > 300 →
        handleKeyDown page2 click2 t2 event2 (handleKeyDown page1 click1 t1 event1 w)
          = emit Effect.stopPropagation (emit Effect.preventDefault
              (handleKeyDown page1 click1 t1 event1 w)))
    ∧ (t2 - t1 = 50 →
        (handleKeyDown page2 click2 t2 event2
          (handleKeyDown page1 click1 t1 event1 w)).extension.isOverlayVisible
          = !w.extension.isOverlayVisible
        ∧ toggleCount (handleKeyDown page2 click2 t2 event2
            (handleKeyDown page1 click1 t1 event1 w)).trace = toggleCount w.trace + 1)
    ∧ (t2 - t1 = 400 →
        (handleKeyDown page2 click2 t2 event2
          (handleKeyDown page1 click1 t1 event1 w)).extension.isOverlayVisible
          = w.extension.isOverlayVisible
        ∧ toggleCount (handleKeyDown page2 click2 t2 event2
            (handleKeyDown page1 click1 t1 event1 w)).trace = toggleCount w.trace + 2) := by
  -- the first detection
  have step1 := handleKeyDown_shortcut page1 click1 t1 event1 key1 w hk1 hne1 hs1
  rw [if_pos hfirst] at step1
  have f1 := toggleOverlay_facts page1 (emit Effect.onToggle
    { (emit Effect.stopPropagation (emit Effect.preventDefault w)) with
      inputManager := { w.inputManager with lastToggleTime := t1 } }) hpre
  rw [← step1] at f1
  obtain ⟨hvis1, hlis1, hlast1, hkeys1, hpre1, hcount1⟩ := f1
  have hvis1' : (handleKeyDown page1 click1 t1 event1 w).extension.isOverlayVisible
      = !w.extension.isOverlayVisible := hvis1
  have hlis1' : (handleKeyDown page1 click1 t1 event1 w).inputManager.sequenceListeningActive
      = !w.extension.isOverlayVisible := hlis1
  have hlast1' : (handleKeyDown page1 click1 t1 event1 w).inputManager.lastToggleTime = t1 :=
    hlast1
  have hkeys1' : (handleKeyDown page1 click1 t1 event1 w).inputManager.shortcutKeys
      = w.inputManager.shortcutKeys := hkeys1
  have hcount1' : toggleCount (handleKeyDown page1 click1 t1 event1 w).trace
      = toggleCount w.trace + 1 := by
    rw [hcount1]
    simp [emit, toggleCount, List.count_append]
  -- the second detection
  have step2 := handleKeyDown_shortcut page2 click2 t2 event2 key2
    (handleKeyDown page1 click1 t1 event1 w) hk2 hne2 (by rw [hkeys1']; exact hs2)
  rw [hlast1'] at step2
  have hpass : t2 - t1 > 300 →
      (handleKeyDown page2 click2 t2 event2
        (handleKeyDown page1 click1 t1 event1 w)).extension.isOverlayVisible
        = !(handleKeyDown page1 click1 t1 event1 w).extension.isOverlayVisible
      ∧ toggleCount (handleKeyDown page2 click2 t2 event2
          (handleKeyDown page1 click1 t1 event1 w)).trace = toggleCount w.trace + 2 := by
    intro h
    rw [if_pos (by unfold toggleDebounceMs; exact h)] at step2
    have f2 := toggleOverlay_facts page2 (emit Effect.onToggle
      { (emit Effect.stopPropagation (emit Effect.preventDefault
          (handleKeyDown page1 click1 t1 event1 w))) with
        inputManager :=
          { (handleKeyDown page1 click1 t1 event1 w).inputManager with
            lastToggleTime := t2 } }) hpre1
    rw [← step2] at f2
    refine ⟨f2.1, ?_⟩
    rw [f2.2.2.2.2.2]
    simp only [emit, toggleCount, List.count_append] at hcount1' ⊢
    simp [hcount1']
  have hblock : ¬ t2 - t1 > 300 →
      handleKeyDown page2 click2 t2 event2 (handleKeyDown page1 click1 t1 event1 w)
        = emit Effect.stopPropagation (emit Effect.preventDefault
            (handleKeyDown page1 click1 t1 event1 w)) := by
    intro h
    rw [if_neg (by unfold toggleDebounceMs; exact h)] at step2
    exact step2
  have hblockVis : ¬ t2 - t1 > 300 →
      (handleKeyDown page2 click2 t2 event2
        (handleKeyDown page1 click1 t1 event1 w)).extension.isOverlayVisible
        = !w.extension.isOverlayVisible
      ∧ toggleCount (handleKeyDown page2 click2 t2 event2
          (handleKeyDown page1 click1 t1 event1 w)).trace = toggleCount w.trace + 1 := by
    intro h
    rw [hblock h]
    refine ⟨hvis1', ?_⟩
    simp only [emit, toggleCount, List.count_append] at hcount1' ⊢
    simp [hcount1']
  refine ⟨hvis1', hlis1', hcount1', ?_, ?_, hblock, ?_, ?_⟩
  · constructor
    · intro h; exact (hpass h).1
    · intro h
      by_contra hn
      rw [(hblockVis hn).1, hvis1'] at h
      cases hv : w.extension.isOverlayVisible <;> simp [hv] at h
  · constructor
    · intro h; exact (hpass h).2
    · intro h
      by_contra hn
      rw [(hblockVis hn).2] at h
      omega
  · intro h
    exact hblockVis (by omega)
  · intro h
    have := hpass (by omega)
    refine ⟨?_, this.2⟩
    rw [this.1, hvis1']
    simp

/-- Witness for C11: from the Idle state, default-shortcut detections at 1000 ms and
1050 ms leave the overlay shown (one flip); detections at 1000 ms and 1400 ms leave it
hidden again (two flips). -/
theorem toggle_debounce_witness :
    (handleKeyDown emptyPage clickLands 1050 controlAltEvent
      (handleKeyDown emptyPage clickLands 1000 controlAltEvent
        idleState)).extension.isOverlayVisible = true
    ∧ (handleKeyDown emptyPage clickLands 1400 controlAltEvent
      (handleKeyDown emptyPage clickLands 1000 controlAltEvent
        idleState)).extension.isOverlayVisible = false :=
  ⟨((toggle_debounce emptyPage emptyPage clickLands clickLands 1000 1050 controlAltEvent
      controlAltEvent "Alt" "Alt" idleState rfl (by decide) rfl (by decide) (by decide)
      (by decide) rfl (by decide) (by decide)).2.2.2.2.2.2.1 (by decide)).1,
   ((toggle_debounce emptyPage emptyPage clickLands clickLands 1000 1400 controlAltEvent
      controlAltEvent "Alt" "Alt" idleState rfl (by decide) rfl (by decide) (by decide)
      (by decide) rfl (by decide) (by decide)).2.2.2.2.2.2.2 (by decide)).1⟩

/-! ## Structural deduplication -/

theorem roundTiesToEven_tie (s : ℚ) (f : Int) (h : s = f + 1 / 2) :
    JS.roundTiesToEven s = if f % 2 = 0 then f else f + 1 := by
  have hf : ⌊s⌋ = f := Int.floor_eq_iff.mpr ⟨by rw [h]; linarith, by rw [h]; linarith⟩
  unfold JS.roundTiesToEven
  rw [hf, if_neg (by rw [h]; norm_num), if_neg (by rw [h]; norm_num)]

/-- Rounding of a value of the normal range that lies half-way between two neighbouring
binary64 values: the one with the even significand is taken. -/
theorem toDouble_normal_tie (q : ℚ) (f k : Int) (h1 : (2 : ℚ) ^ k ≤ |q|)
    (h2 : |q| < (2 : ℚ) ^ (k + 1)) (hk : -1022 ≤ k)
    (hq : q = ((f : ℚ) + 1 / 2) * 2 ^ (k - 52)) :
    JS.toDouble q = ((if f % 2 = 0 then f else f + 1 : Int) : ℚ) * 2 ^ (k - 52) := by
  have hne : q ≠ 0 := by
    intro h
    rw [h, abs_zero] at h1
    exact absurd h1 (not_le.mpr (zpow_pos (by norm_num) k))
  have hpos : (0 : ℚ) < 2 ^ (k - 52) := zpow_pos (by norm_num) _
  unfold JS.toDouble
  rw [if_neg hne, ulpExponent_normal _ k h1 h2 hk,
    roundTiesToEven_tie (q / 2 ^ (k - 52)) f (by rw [hq]; field_simp; ring)]

/-- The literal `0.8` denotes the binary64 value `3602879701896397 / 2 ^ 52`. -/
theorem ofExact_eight_tenths :
    JS.Number.ofExact (8 / 10) = JS.Number.finite (3602879701896397 / 4503599627370496) := by
  have h : JS.toDouble (8 / 10) = 3602879701896397 / 4503599627370496 := by
    rw [toDouble_normal (8 / 10) 7205759403792794 (-1) (by norm_num [abs_of_pos])
      (by norm_num [abs_of_pos]) (by norm_num) (by norm_num) (by norm_num)]
    norm_num
  rw [ofExact_of_lt _ (by rw [h]; norm_num [abs_of_pos]), h]

/-- In binary64 arithmetic `100 * 0.8` is 80. -/
theorem hundred_mul_eight_tenths :
    (JS.Number.finite 100).mul (JS.Number.ofExact (8 / 10)) = JS.Number.finite 80 := by
  rw [ofExact_eight_tenths]
  show JS.Number.ofExact (100 * (3602879701896397 / 4503599627370496)) = _
  have h : JS.toDouble (100 * (3602879701896397 / 4503599627370496)) = 80 := by
    rw [toDouble_normal (100 * (3602879701896397 / 4503599627370496)) 5629499534213120 6
      (by norm_num [abs_of_pos]) (by norm_num [abs_of_pos]) (by norm_num) (by norm_num)
      (by norm_num)]
    norm_num
  rw [ofExact_of_lt _ (by rw [h]; norm_num [abs_of_pos]), h]

theorem area_intCast (c : Candidate) (m n : Int) (hw : c.width = m) (hh : c.height = n)
    (h : |m * n| < 2 ^ 53) : area c = JS.Number.finite ((m * n : Int) : ℚ) := by
  unfold area JS.Number.mul
  simp only
  rw [hw, hh, ← Int.cast_mul, ofExact_intCast _ h]

theorem nested_pair_eq (contains : Nat → Nat → Bool) (a b : Candidate)
    (hchild : contains a.element b.element = true) :
    deduplicateElements contains [a, b]
      = if (area b).lt ((area a).mul (JS.Number.ofExact (8 / 10))) = true then [b]
        else [a] := by
  cases h : (area b).lt ((area a).mul (JS.Number.ofExact (8 / 10))) <;>
    simp [deduplicateElements, dedupStep, dedupAgainst, hchild, h]

theorem near_pair_eq (contains : Nat → Nat → Bool) (a b : Candidate)
    (hab : contains a.element b.element = false)
    (hba : contains b.element a.element = false) :
    deduplicateElements contains [a, b]
      = if (distance a.x b.x).lt (JS.Number.finite 30) = true
            ∧ (distance a.y b.y).lt (JS.Number.finite 30) = true then
          (if (area a).lt (area b) = true then [b] else [a])
        else [a, b] := by
  rw [distance_comm a.x, distance_comm a.y]
  cases hx : (distance b.x a.x).lt (JS.Number.finite 30) <;>
    cases hy : (distance b.y a.y).lt (JS.Number.finite 30) <;>
    cases hl : (area a).lt (area b) <;>
    simp [deduplicateElements, dedupStep, dedupAgainst, hab, hba, proximityThreshold, hx, hy,
      hl]

/-- C12: for a candidate `A` and a later candidate `B` whose element is a DOM descendant
of the element of `A`, `deduplicateElements [A, B]` is `[B]` when
`area(B) < area(A) * 0.8` and `[A]` otherwise, the areas, the product with `0.8` and the
comparison being those of the code (binary64 arithmetic); areas 100 and 70 give `[B]`,
areas 100 and 90 give `[A]`, areas 100 and 80 give `[A]`. -/
theorem nested_pair_dedup (contains : Nat → Nat → Bool) (a b : Candidate)
    (hchild : contains a.element b.element = true) :
    ((area b).lt ((area a).mul (JS.Number.ofExact (8 / 10))) = true →
      deduplicateElements contains [a, b] = [b])
    ∧ ((area b).lt ((area a).mul (JS.Number.ofExact (8 / 10))) = false →
      deduplicateElements contains [a, b] = [a])
    ∧ (area a = JS.Number.finite 100 → area b = JS.Number.finite 70 →
        deduplicateElements contains [a, b] = [b])
    ∧ (area a = JS.Number.finite 100 → area b = JS.Number.finite 90 →
        deduplicateElements contains [a, b] = [a])
    ∧ (area a = JS.Number.finite 100 → area b = JS.Number.finite 80 →
        deduplicateElements contains [a, b] = [a]) := by
  have hlt : (area b).lt ((area a).mul (JS.Number.ofExact (8 / 10))) = true →
      deduplicateElements contains [a, b] = [b] := by
    intro h
    simp [deduplicateElements, dedupStep, dedupAgainst, hchild, h]
  have hge : (area b).lt ((area a).mul (JS.Number.ofExact (8 / 10))) = false →
      deduplicateElements contains [a, b] = [a] := by
    intro h
    simp [deduplicateElements, dedupStep, dedupAgainst, hchild, h]
  refine ⟨hlt, hge, ?_, ?_, ?_⟩
  · intro ha hb
    apply hlt
    rw [ha, hb, hundred_mul_eight_tenths]
    simp [JS.Number.lt]
    norm_num
  · intro ha hb
    apply hge
    rw [ha, hb, hundred_mul_eight_tenths]
    simp [JS.Number.lt]
    norm_num
  · intro ha hb
    apply hge
    rw [ha, hb, hundred_mul_eight_tenths]
    simp [JS.Number.lt]

/-- Witness for C12: a 10 x 7 descendant replaces its 10 x 10 ancestor, a 10 x 8
descendant does not. -/
theorem nested_pair_dedup_witness :
    deduplicateElements nestedDom [⟨0, 0, 10, 10, 3⟩, ⟨0, 0, 10, 7, 2⟩] = [⟨0, 0, 10, 7, 2⟩]
    ∧ deduplicateElements nestedDom [⟨0, 0, 10, 10, 3⟩, ⟨0, 0, 10, 8, 2⟩]
        = [⟨0, 0, 10, 10, 3⟩] :=
  ⟨(nested_pair_dedup nestedDom ⟨0, 0, 10, 10, 3⟩ ⟨0, 0, 10, 7, 2⟩ (by decide)).2.2.1
      (by rw [area_intCast _ 10 10 (by norm_num) (by norm_num) (by norm_num)]; norm_num)
      (by rw [area_intCast _ 10 7 (by norm_num) (by norm_num) (by norm_num)]; norm_num),
   (nested_pair_dedup nestedDom ⟨0, 0, 10, 10, 3⟩ ⟨0, 0, 10, 8, 2⟩ (by decide)).2.2.2.2
      (by rw [area_intCast _ 10 10 (by norm_num) (by norm_num) (by norm_num)]; norm_num)
      (by rw [area_intCast _ 10 8 (by norm_num) (by norm_num) (by norm_num)]; norm_num)⟩

/-- The area test of the nested case is the binary64 one.  Parent 10.1 x 10 and child
8.08 x 10: the child replaces the parent, because the rounded `8.08 * 10` is below the
rounded `10.1 * 10 * 0.8`, although the exact product of the same sides with 8/10 is not
above the exact child area.  Parent 11.5 x 10 and child 9.2 x 10: the parent stays,
because `9.2 * 10` rounds (a tie, to even) to 92 and `11.5 * 10 * 0.8` rounds to 92,
although the exact child area is below 92. -/
theorem nested_pair_rounding :
    deduplicateElements nestedDom
        [⟨0, 0, JS.toDouble (101 / 10), 10, 3⟩, ⟨0, 0, JS.toDouble (808 / 100), 10, 2⟩]
      = [⟨0, 0, JS.toDouble (808 / 100), 10, 2⟩]
    ∧ ¬ (JS.toDouble (808 / 100) * 10 < JS.toDouble (101 / 10) * 10 * (8 / 10))
    ∧ deduplicateElements nestedDom
        [⟨0, 0, 115 / 10, 10, 3⟩, ⟨0, 0, JS.toDouble (92 / 10), 10, 2⟩]
      = [⟨0, 0, 115 / 10, 10, 3⟩]
    ∧ JS.toDouble (92 / 10) * 10 < 115 / 10 * 10 * (8 / 10) := by
  have w1 : JS.toDouble (101 / 10) = 5685794529555251 / 562949953421312 := by
    rw [toDouble_normal (101 / 10) 5685794529555251 3 (by norm_num [abs_of_pos])
      (by norm_num [abs_of_pos]) (by norm_num) (by norm_num) (by norm_num)]
    norm_num
  have w2 : JS.toDouble (808 / 100) = 4548635623644201 / 562949953421312 := by
    rw [toDouble_normal (808 / 100) 4548635623644201 3 (by norm_num [abs_of_pos])
      (by norm_num [abs_of_pos]) (by norm_num) (by norm_num) (by norm_num)]
    norm_num
  have w3 : JS.toDouble (92 / 10) = 2589569785738035 / 281474976710656 := by
    rw [toDouble_normal (92 / 10) 5179139571476070 3 (by norm_num [abs_of_pos])
      (by norm_num [abs_of_pos]) (by norm_num) (by norm_num) (by norm_num)]
    norm_num
  have a1 : area ⟨0, 0, 5685794529555251 / 562949953421312, 10, 3⟩ = JS.Number.finite 101 := by
    show JS.Number.ofExact (5685794529555251 / 562949953421312 * 10) = _
    have h : JS.toDouble (5685794529555251 / 562949953421312 * 10) = 101 := by
      rw [toDouble_normal (5685794529555251 / 562949953421312 * 10) 7107243161944064 6
        (by norm_num [abs_of_pos]) (by norm_num [abs_of_pos]) (by norm_num) (by norm_num)
        (by norm_num)]
      norm_num
    rw [ofExact_of_lt _ (by rw [h]; norm_num [abs_of_pos]), h]
  have a2 : area ⟨0, 0, 4548635623644201 / 562949953421312, 10, 2⟩
      = JS.Number.finite (5685794529555251 / 70368744177664) := by
    show JS.Number.ofExact (4548635623644201 / 562949953421312 * 10) = _
    have h : JS.toDouble (4548635623644201 / 562949953421312 * 10)
        = 5685794529555251 / 70368744177664 := by
      rw [toDouble_normal (4548635623644201 / 562949953421312 * 10) 5685794529555251 6
        (by norm_num [abs_of_pos]) (by norm_num [abs_of_pos]) (by norm_num) (by norm_num)
        (by norm_num)]
      norm_num
    rw [ofExact_of_lt _ (by rw [h]; norm_num [abs_of_pos]), h]
  have m1 : (JS.Number.finite 101).mul (JS.Number.ofExact (8 / 10))
      = JS.Number.finite (1421448632388813 / 17592186044416) := by
    rw [ofExact_eight_tenths]
    show JS.Number.ofExact (101 * (3602879701896397 / 4503599627370496)) = _
    have h : JS.toDouble (101 * (3602879701896397 / 4503599627370496))
        = 1421448632388813 / 17592186044416 := by
      rw [toDouble_normal (101 * (3602879701896397 / 4503599627370496)) 5685794529555252 6
        (by norm_num [abs_of_pos]) (by norm_num [abs_of_pos]) (by norm_num) (by norm_num)
        (by norm_num)]
      norm_num
    rw [ofExact_of_lt _ (by rw [h]; norm_num [abs_of_pos]), h]
  have a3 : area ⟨0, 0, 115 / 10, 10, 3⟩ = JS.Number.finite 115 := by
    show JS.Number.ofExact (115 / 10 * 10) = _
    have := ofExact_intCast 115 (by norm_num)
    norm_num at this ⊢
    exact this
  have a4 : area ⟨0, 0, 2589569785738035 / 281474976710656, 10, 2⟩ = JS.Number.finite 92 := by
    show JS.Number.ofExact (2589569785738035 / 281474976710656 * 10) = _
    have h : JS.toDouble (2589569785738035 / 281474976710656 * 10) = 92 := by
      rw [toDouble_normal_tie (2589569785738035 / 281474976710656 * 10) 6473924464345087 6
        (by norm_num [abs_of_pos]) (by norm_num [abs_of_pos]) (by norm_num) (by norm_num)]
      norm_num
    rw [ofExact_of_lt _ (by rw [h]; norm_num [abs_of_pos]), h]
  have m3 : (JS.Number.finite 115).mul (JS.Number.ofExact (8 / 10)) = JS.Number.finite 92 := by
    rw [ofExact_eight_tenths]
    show JS.Number.ofExact (115 * (3602879701896397 / 4503599627370496)) = _
    have h : JS.toDouble (115 * (3602879701896397 / 4503599627370496)) = 92 := by
      rw [toDouble_normal (115 * (3602879701896397 / 4503599627370496)) 6473924464345088 6
        (by norm_num [abs_of_pos]) (by norm_num [abs_of_pos]) (by norm_num) (by norm_num)
        (by norm_num)]
      norm_num
    rw [ofExact_of_lt _ (by rw [h]; norm_num [abs_of_pos]), h]
  rw [w1, w2, w3]
  refine ⟨?_, by norm_num, ?_, by norm_num⟩
  · rw [nested_pair_eq nestedDom _ _ (by decide), a1, a2, m1, if_pos]
    simp [JS.Number.lt]
    norm_num
  · rw [nested_pair_eq nestedDom _ _ (by decide), a3, a4, m3, if_neg]
    simp [JS.Number.lt]

/-- C14: for two candidates `A`, `B` (in this order) whose elements are not in an
ancestor/descendant relation: when `|A.x - B.x| < 30` and `|A.y - B.y| < 30`,
`deduplicateElements [A, B]` is the single candidate with the larger area, `A` when the
areas are equal; when either distance is 30 or more it is `[A, B]`.  Distances, areas and
comparisons are those of the code (binary64 arithmetic). -/
theorem near_pair_dedup (contains : Nat → Nat → Bool) (a b : Candidate)
    (hab : contains a.element b.element = false)
    (hba : contains b.element a.element = false) :
    ((distance a.x b.x).lt (JS.Number.finite 30) = true →
      (distance a.y b.y).lt (JS.Number.finite 30) = true →
      (area a).lt (area b) = true → deduplicateElements contains [a, b] = [b])
    ∧ ((distance a.x b.x).lt (JS.Number.finite 30) = true →
      (distance a.y b.y).lt (JS.Number.finite 30) = true →
      (area a).lt (area b) = false → deduplicateElements contains [a, b] = [a])
    ∧ ((distance a.x b.x).lt (JS.Number.finite 30) = false
        ∨ (distance a.y b.y).lt (JS.Number.finite 30) = false →
      deduplicateElements contains [a, b] = [a, b])
    ∧ (area a = area b → (area a).lt (area b) = false)
    ∧ (∀ p q : ℚ, (distance p q).lt (JS.Number.finite 30) = false
        ↔ (JS.Number.finite 30).lt (distance p q) = true
          ∨ distance p q = JS.Number.finite 30) := by
  have heq := near_pair_eq contains a b hab hba
  refine ⟨?_, ?_, ?_, ?_, ?_⟩
  · intro hx hy hl
    rw [heq, if_pos ⟨hx, hy⟩, if_pos hl]
  · intro hx hy hl
    rw [heq, if_pos ⟨hx, hy⟩, if_neg (by rw [hl]; decide)]
  · intro hfar
    rw [heq, if_neg]
    rintro ⟨hx, hy⟩
    rcases hfar with h | h
    · rw [h] at hx; exact absurd hx (by decide)
    · rw [h] at hy; exact absurd hy (by decide)
  · intro h
    rw [h]
    cases area b <;> simp [JS.Number.lt]
  · intro p q
    unfold distance JS.Number.sub
    simp only
    cases h : JS.Number.ofExact (p - q) with
    | finite v =>
      simp only [JS.Number.abs, JS.Number.lt, decide_eq_false_iff_not, decide_eq_true_eq,
        JS.Number.finite.injEq, not_lt]
      rw [le_iff_lt_or_eq, eq_comm]
    | infinite n => simp [JS.Number.abs, JS.Number.lt]
    | nan =>
      unfold JS.Number.ofExact at h
      split at h <;> cases h

/-- Witness for C14: of two unrelated candidates 10 px apart the larger one is kept, and
two unrelated candidates 40 px apart are both kept. -/
theorem near_pair_dedup_witness :
    deduplicateElements flatDom [cornerCandidate, largeCandidate] = [largeCandidate]
    ∧ deduplicateElements flatDom [cornerCandidate, rowCandidate]
        = [cornerCandidate, rowCandidate] :=
  ⟨(near_pair_dedup flatDom cornerCandidate largeCandidate (by decide) (by decide)).1
      (by
        have := distance_intCast 0 10 (by norm_num)
        norm_num at this
        simp [cornerCandidate, largeCandidate, this, JS.Number.lt]
        norm_num)
      (by
        have := distance_intCast 0 5 (by norm_num)
        norm_num at this
        simp [cornerCandidate, largeCandidate, this, JS.Number.lt]
        norm_num)
      (by
        rw [area_intCast cornerCandidate 20 20 (by norm_num [cornerCandidate])
            (by norm_num [cornerCandidate]) (by norm_num),
          area_intCast largeCandidate 100 100 (by norm_num [largeCandidate])
            (by norm_num [largeCandidate]) (by norm_num)]
        simp [JS.Number.lt]
        norm_num),
   (near_pair_dedup flatDom cornerCandidate rowCandidate (by decide) (by decide)).2.2.1
      (Or.inl (by
        have := distance_intCast 0 40 (by norm_num)
        norm_num at this
        simp [cornerCandidate, rowCandidate, this, JS.Number.lt]
        norm_num))⟩

/-- The proximity test is the binary64 one.  For the unrelated candidates at `x = 0.2` and
`x = 30.2` (the binary64 values of these literals) `Math.abs(30.2 - 0.2)` is exactly 30,
so both candidates are kept, although the exact difference of the two values is below
30. -/
theorem near_pair_rounding :
    distance (JS.toDouble (302 / 10)) (JS.toDouble (2 / 10)) = JS.Number.finite 30
    ∧ |JS.toDouble (302 / 10) - JS.toDouble (2 / 10)| < 30
    ∧ deduplicateElements flatDom
        [⟨JS.toDouble (2 / 10), 0, 20, 20, 1⟩, ⟨JS.toDouble (302 / 10), 0, 20, 20, 2⟩]
      = [⟨JS.toDouble (2 / 10), 0, 20, 20, 1⟩, ⟨JS.toDouble (302 / 10), 0, 20, 20, 2⟩] := by
  have w1 : JS.toDouble (2 / 10) = 3602879701896397 / 18014398509481984 := by
    rw [toDouble_normal (2 / 10) 7205759403792794 (-3) (by norm_num [abs_of_pos])
      (by norm_num [abs_of_pos]) (by norm_num) (by norm_num) (by norm_num)]
    norm_num
  have w2 : JS.toDouble (302 / 10) = 8500544296661811 / 281474976710656 := by
    rw [toDouble_normal (302 / 10) 8500544296661811 4 (by norm_num [abs_of_pos])
      (by norm_num [abs_of_pos]) (by norm_num) (by norm_num) (by norm_num)]
    norm_num
  have d : distance (8500544296661811 / 281474976710656)
      (3602879701896397 / 18014398509481984) = JS.Number.finite 30 := by
    show (JS.Number.ofExact (8500544296661811 / 281474976710656
      - 3602879701896397 / 18014398509481984)).abs = _
    have h : JS.toDouble (8500544296661811 / 281474976710656
        - 3602879701896397 / 18014398509481984) = 30 := by
      rw [toDouble_normal (8500544296661811 / 281474976710656
          - 3602879701896397 / 18014398509481984) 8444249301319680 4
        (by norm_num [abs_of_pos]) (by norm_num [abs_of_pos]) (by norm_num) (by norm_num)
        (by norm_num)]
      norm_num
    rw [ofExact_of_lt _ (by rw [h]; norm_num [abs_of_pos]), h]
    simp [JS.Number.abs]
  rw [w1, w2]
  refine ⟨d, by norm_num [abs_lt], ?_⟩
  rw [near_pair_eq flatDom _ _ (by decide) (by decide), if_neg]
  rintro ⟨hx, -⟩
  rw [distance_comm] at hx
  simp only at hx
  rw [d] at hx
  simp [JS.Number.lt] at hx

theorem deduplicateElements_append_singleton (contains : Nat → Nat → Bool)
    (l : List Candidate) (n : Candidate) :
    deduplicateElements contains (l ++ [n])
      = dedupStep contains (deduplicateElements contains l) n := by
  simp [deduplicateElements, List.foldl_append]

theorem dedupAgainst_skip (contains : Nat → Nat → Bool) (n : Candidate)
    (pre rest : List Candidate)
    (hpre : ∀ e ∈ pre, contains e.element n.element = false
      ∧ contains n.element e.element = false ∧ ¬ withinProximity n e) :
    dedupAgainst contains n (pre ++ rest)
      = (dedupAgainst contains n rest).map (fun kept => pre ++ kept) := by
  induction pre with
  | nil => simp
  | cons e t ih =>
    have he := hpre e (List.mem_cons_self _ _)
    have ht := ih (fun x hx => hpre x (List.mem_cons_of_mem _ hx))
    have hprox : ¬ ((distance n.x e.x).lt (JS.Number.finite proximityThreshold) = true
        ∧ (distance n.y e.y).lt (JS.Number.finite proximityThreshold) = true) := he.2.2
    have hprox' : ((distance n.x e.x).lt (JS.Number.finite proximityThreshold)
        && (distance n.y e.y).lt (JS.Number.finite proximityThreshold)) = false := by
      rw [Bool.and_eq_false_iff]
      by_cases hx : (distance n.x e.x).lt (JS.Number.finite proximityThreshold) = true
      · right
        cases hy : (distance n.y e.y).lt (JS.Number.finite proximityThreshold)
        · rfl
        · exact absurd ⟨hx, hy⟩ hprox
      · left; simpa using hx
    simp only [List.cons_append, dedupAgainst, he.1, he.2.1, Bool.false_eq_true, if_false,
      hprox']
    rw [show t.append rest = t ++ rest from rfl, ht]
    cases dedupAgainst contains n rest <;> simp

/-- When the first kept candidate that is related to the new candidate `n` or near it is
one whose element lies inside the element of `n`, the new candidate is dropped and the
kept list is unchanged. -/
theorem ancestor_dropped (contains : Nat → Nat → Bool) (l pre post : List Candidate)
    (k n : Candidate)
    (hkept : deduplicateElements contains l = pre ++ k :: post)
    (hpre : ∀ e ∈ pre, contains e.element n.element = false
      ∧ contains n.element e.element = false ∧ ¬ withinProximity n e)
    (hnotChild : contains k.element n.element = false)
    (hancestor : contains n.element k.element = true) :
    dedupAgainst contains n (deduplicateElements contains l)
        = some (deduplicateElements contains l)
    ∧ dedupStep contains (deduplicateElements contains l) n = deduplicateElements contains l
    ∧ deduplicateElements contains (l ++ [n]) = deduplicateElements contains l := by
  have h1 : dedupAgainst contains n (deduplicateElements contains l)
      = some (deduplicateElements contains l) := by
    rw [hkept, dedupAgainst_skip contains n pre (k :: post) hpre]
    simp [dedupAgainst, hnotChild, hancestor]
  have h2 : dedupStep contains (deduplicateElements contains l) n
      = deduplicateElements contains l := by
    unfold dedupStep
    rw [h1]
  exact ⟨h1, h2, by rw [deduplicateElements_append_singleton, h2]⟩

theorem distance_lt_intCast (m n : Int) (h : |m - n| < 2 ^ 53) (t : ℚ) :
    (distance (m : ℚ) (n : ℚ)).lt (JS.Number.finite t)
      = decide (|((m - n : Int) : ℚ)| < t) := by
  rw [distance_intCast m n h]
  rfl

theorem area_cornerCandidate : area cornerCandidate = JS.Number.finite 400 := by
  rw [area_intCast cornerCandidate 20 20 (by norm_num [cornerCandidate])
    (by norm_num [cornerCandidate]) (by norm_num)]
  norm_num

theorem area_rowCandidate : area rowCandidate = JS.Number.finite 400 := by
  rw [area_intCast rowCandidate 20 20 (by norm_num [rowCandidate])
    (by norm_num [rowCandidate]) (by norm_num)]
  norm_num

theorem area_largeCandidate : area largeCandidate = JS.Number.finite 10000 := by
  rw [area_intCast largeCandidate 100 100 (by norm_num [largeCandidate])
    (by norm_num [largeCandidate]) (by norm_num)]
  norm_num

theorem dedup_corner_row (contains : Nat → Nat → Bool)
    (h12 : contains 1 2 = false) (h21 : contains 2 1 = false) :
    deduplicateElements contains [cornerCandidate, rowCandidate]
      = [cornerCandidate, rowCandidate] := by
  apply deduplicateElements_far_pair contains cornerCandidate rowCandidate h12 h21
  have := distance_lt_intCast 40 0 (by norm_num) proximityThreshold
  norm_num [proximityThreshold] at this
  simpa [cornerCandidate, rowCandidate, proximityThreshold] using this

theorem dedupStep_corner_row_large (contains : Nat → Nat → Bool)
    (h13 : contains 1 3 = false) (h31 : contains 3 1 = false) :
    dedupStep contains [cornerCandidate, rowCandidate] largeCandidate
      = [largeCandidate, rowCandidate] := by
  have dx := distance_lt_intCast 10 0 (by norm_num) 30
  have dy := distance_lt_intCast 5 0 (by norm_num) 30
  norm_num at dx dy
  have hc : contains cornerCandidate.element largeCandidate.element = false := h13
  have hl : contains largeCandidate.element cornerCandidate.element = false := h31
  have hx : (distance largeCandidate.x cornerCandidate.x).lt (JS.Number.finite 30) = true := dx
  have hy : (distance largeCandidate.y cornerCandidate.y).lt (JS.Number.finite 30) = true := dy
  have ha : (area cornerCandidate).lt (area largeCandidate) = true := by
    rw [area_cornerCandidate, area_largeCandidate]
    simp [JS.Number.lt]
    norm_num
  simp [dedupStep, dedupAgainst, hc, hl, proximityThreshold, hx, hy, ha]

theorem sorted_corner_row_large :
    SortedByPosition [cornerCandidate, rowCandidate, largeCandidate] := by
  simp [SortedByPosition, compareByPosition, cornerCandidate, rowCandidate, largeCandidate]

/-- C13 (as the code has it): the inner loop of `deduplicateElements` stops at the first
kept candidate that is related to the new one or near it.  In the sorted list
`[cornerCandidate, rowCandidate, largeCandidate]`, with `largeCandidate` a DOM ancestor of
`rowCandidate`, the kept list is `[cornerCandidate, rowCandidate]` when `largeCandidate`
is processed; the new candidate is an ancestor of the kept `rowCandidate`, yet it is not
dropped: it is near `cornerCandidate` and larger, overwrites it, and is returned together
with its descendant. -/
theorem ancestor_not_dropped :
    SortedByPosition [cornerCandidate, rowCandidate, largeCandidate]
    ∧ deduplicateElements nestedDom [cornerCandidate, rowCandidate]
        = [cornerCandidate, rowCandidate]
    ∧ nestedDom largeCandidate.element rowCandidate.element = true
    ∧ nestedDom rowCandidate.element largeCandidate.element = false
    ∧ dedupStep nestedDom [cornerCandidate, rowCandidate] largeCandidate
        = [largeCandidate, rowCandidate]
    ∧ dedupStep nestedDom [cornerCandidate, rowCandidate] largeCandidate
        ≠ [cornerCandidate, rowCandidate]
    ∧ deduplicateElements nestedDom [cornerCandidate, rowCandidate, largeCandidate]
        = [largeCandidate, rowCandidate] := by
  have hkept := dedup_corner_row nestedDom (by decide) (by decide)
  have hstep := dedupStep_corner_row_large nestedDom (by decide) (by decide)
  refine ⟨sorted_corner_row_large, hkept, by decide, by decide, hstep, ?_, ?_⟩
  · rw [hstep]
    simp [cornerCandidate, largeCandidate]
  · have := deduplicateElements_append_singleton nestedDom [cornerCandidate, rowCandidate]
      largeCandidate
    rw [hkept, hstep] at this
    exact this

/-- In the list `[rowCandidate, largeCandidate]` the ancestor `largeCandidate` of
`rowCandidate` is dropped. -/
theorem ancestor_dropped_pair :
    deduplicateElements nestedDom ([rowCandidate] ++ [largeCandidate])
      = deduplicateElements nestedDom [rowCandidate] :=
  (ancestor_dropped nestedDom [rowCandidate] [] [] rowCandidate largeCandidate
    (by simp [deduplicateElements, dedupStep, dedupAgainst])
    (by simp) (by decide) (by decide)).2.2

/-- What the inner loop does to the kept list when it ends with a `break`: every slot
keeps its candidate, except that one slot may now hold the new candidate `n`, which then
overwrites the candidate that was there. -/
theorem dedupAgainst_some (contains : Nat → Nat → Bool) (n : Candidate) :
    ∀ (kept kept' : List Candidate), dedupAgainst contains n kept = some kept' →
      List.Forall₂ (fun k k' => k' = k ∨ (k' = n ∧ overwrites contains k n)) kept kept' := by
  intro kept
  induction kept with
  | nil => intro kept' h; simp [dedupAgainst] at h
  | cons e t ih =>
    intro kept' h
    have hrefl : List.Forall₂ (fun k k' => k' = k ∨ (k' = n ∧ overwrites contains k n)) t t :=
      List.forall₂_same.mpr (fun _ _ => Or.inl rfl)
    simp only [dedupAgainst] at h
    by_cases h1 : contains e.element n.element = true
    · rw [if_pos h1] at h
      by_cases h2 : (area n).lt ((area e).mul (JS.Number.ofExact (8 / 10))) = true
      · rw [if_pos h2] at h
        cases h
        exact List.Forall₂.cons (Or.inr ⟨rfl, Or.inl ⟨h1, h2⟩⟩) hrefl
      · rw [if_neg h2] at h
        cases h
        exact List.Forall₂.cons (Or.inl rfl) hrefl
    · rw [if_neg h1] at h
      by_cases h2 : contains n.element e.element = true
      · rw [if_pos h2] at h
        cases h
        exact List.Forall₂.cons (Or.inl rfl) hrefl
      · rw [if_neg h2] at h
        by_cases h3 : ((distance n.x e.x).lt (JS.Number.finite proximityThreshold)
            && (distance n.y e.y).lt (JS.Number.finite proximityThreshold)) = true
        · rw [if_pos h3] at h
          by_cases h4 : (area e).lt (area n) = true
          · rw [if_pos h4] at h
            cases h
            refine List.Forall₂.cons (Or.inr ⟨rfl, Or.inr ⟨?_, ?_, ?_, h4⟩⟩) hrefl
            · simpa using h1
            · simpa using h2
            · exact (Bool.and_eq_true _ _).mp h3 |>.elim (fun a b => ⟨a, b⟩)
          · rw [if_neg h4] at h
            cases h
            exact List.Forall₂.cons (Or.inl rfl) hrefl
        · rw [if_neg h3] at h
          cases hr : dedupAgainst contains n t with
          | none => rw [hr] at h; simp at h
          | some r =>
            rw [hr] at h
            simp only [Option.map_some', Option.some.injEq] at h
            rw [← h]
            exact List.Forall₂.cons (Or.inl rfl) (ih r hr)

theorem forall₂_step {α : Type} (T S : α → α → Prop) (P : α → Prop)
    (hstep : ∀ o k k', P o → T o k → S k k' → T o k') :
    ∀ (opened kept kept' : List α), (∀ o ∈ opened, P o) → List.Forall₂ T opened kept →
      List.Forall₂ S kept kept' → List.Forall₂ T opened kept' := by
  intro opened
  induction opened with
  | nil =>
    intro kept kept' _ h1 h2
    cases h1
    cases h2
    exact List.Forall₂.nil
  | cons o os ih =>
    intro kept kept' hP h1 h2
    cases h1 with
    | cons hok hrest =>
      cases h2 with
      | cons hkk hrest2 =>
        exact List.Forall₂.cons (hstep _ _ _ (hP o (List.mem_cons_self _ _)) hok hkk)
          (ih _ _ (fun x hx => hP x (List.mem_cons_of_mem _ hx)) hrest hrest2)

theorem compareByPosition_self (c : Candidate) : compareByPosition c c ≤ 0 := by
  simp [compareByPosition]

/-- The slots of the kept list through the outer loop: `opened` holds, slot by slot, the
candidate that was pushed to open the slot; the slot now holds that candidate or one that
comes later in the input and took the slot over by a chain of overwrites. -/
theorem foldl_dedupStep_slots (contains : Nat → Nat → Bool) :
    ∀ (rest done kept opened : List Candidate),
      SortedByPosition (done ++ rest) →
      opened.Sublist done →
      List.Forall₂ (fun o r => compareByPosition o r ≤ 0
        ∧ Relation.ReflTransGen (overwrites contains) o r) opened kept →
      (∀ r ∈ kept, r ∈ done) →
      ∃ opened' : List Candidate,
        opened'.Sublist (done ++ rest)
        ∧ List.Forall₂ (fun o r => compareByPosition o r ≤ 0
            ∧ Relation.ReflTransGen (overwrites contains) o r)
          opened' (rest.foldl (dedupStep contains) kept)
        ∧ (∀ r ∈ rest.foldl (dedupStep contains) kept, r ∈ done ++ rest)
        ∧ ((done ++ rest).Pairwise (fun a b => ¬ overwrites contains a b) →
            kept = opened → rest.foldl (dedupStep contains) kept = opened') := by
  intro rest
  induction rest with
  | nil =>
    intro done kept opened _ hsub hT hmem
    exact ⟨opened, by simpa using hsub, hT, by simpa using hmem, fun _ h => h⟩
  | cons n t ih =>
    intro done kept opened hsorted hsub hT hmem
    have hsorted' : SortedByPosition ((done ++ [n]) ++ t) := by simpa using hsorted
    have hbefore : ∀ x ∈ done, compareByPosition x n ≤ 0 := by
      intro x hx
      have := List.pairwise_append.mp hsorted
      exact this.2.2 x hx n (List.mem_cons_self _ _)
    rw [List.foldl_cons]
    cases hd : dedupAgainst contains n kept with
    | none =>
      have hstep : dedupStep contains kept n = kept ++ [n] := by
        unfold dedupStep; rw [hd]
      rw [hstep]
      have hT' : List.Forall₂ (fun o r => compareByPosition o r ≤ 0
          ∧ Relation.ReflTransGen (overwrites contains) o r) (opened ++ [n]) (kept ++ [n]) :=
        List.rel_append hT
          (List.Forall₂.cons ⟨compareByPosition_self n, Relation.ReflTransGen.refl⟩
            List.Forall₂.nil)
      obtain ⟨opened', h1, h2, h3, h4⟩ := ih (done ++ [n]) (kept ++ [n]) (opened ++ [n])
        hsorted' (List.Sublist.append hsub (List.Sublist.refl _)) hT'
        (by
          intro r hr
          rcases List.mem_append.mp hr with h | h
          · exact List.mem_append_left _ (hmem r h)
          · exact List.mem_append_right _ h)
      refine ⟨opened', by simpa using h1, h2, by simpa using h3, ?_⟩
      intro hno hko
      exact h4 (by simpa using hno) (by rw [hko])
    | some kept' =>
      have hstep : dedupStep contains kept n = kept' := by
        unfold dedupStep; rw [hd]
      rw [hstep]
      have hS := dedupAgainst_some contains n kept kept' hd
      have hT' : List.Forall₂ (fun o r => compareByPosition o r ≤ 0
          ∧ Relation.ReflTransGen (overwrites contains) o r) opened kept' := by
        refine forall₂_step _ _ (fun o => compareByPosition o n ≤ 0) ?_ opened kept kept'
          (fun o ho => hbefore o (hsub.subset ho)) hT hS
        intro o k k' hP hok hkk
        rcases hkk with h | ⟨h, hov⟩
        · rw [h]; exact hok
        · rw [h]; exact ⟨hP, Relation.ReflTransGen.tail hok.2 hov⟩
      have hmem' : ∀ r ∈ kept', r ∈ done ++ [n] := by
        intro r hr
        obtain ⟨k, hk, hrel⟩ : ∃ k, k ∈ kept ∧ (r = k ∨ (r = n ∧ overwrites contains k n)) := by
          clear hT' hstep hd hT
          induction hS with
          | nil => simp at hr
          | cons hab _ ih2 =>
            rcases List.mem_cons.mp hr with h | h
            · exact ⟨_, List.mem_cons_self _ _, by rw [h]; exact hab⟩
            · obtain ⟨k, hk, hrel⟩ := ih2 (fun r hr => hmem r (List.mem_cons_of_mem _ hr)) h
              exact ⟨k, List.mem_cons_of_mem _ hk, hrel⟩
        rcases hrel with h | ⟨h, -⟩
        · rw [h]; exact List.mem_append_left _ (hmem k hk)
        · rw [h]; simp
      obtain ⟨opened', h1, h2, h3, h4⟩ := ih (done ++ [n]) kept' opened hsorted'
        (hsub.trans (List.sublist_append_left _ _)) hT' hmem'
      refine ⟨opened', by simpa using h1, h2, by simpa using h3, ?_⟩
      intro hno hko
      have hno' : (done ++ [n] ++ t).Pairwise (fun a b => ¬ overwrites contains a b) := by
        simpa using hno
      apply h4 hno'
      -- no kept candidate is overwritten by `n`, so the kept list is unchanged
      have hnone : ∀ k ∈ kept, ¬ overwrites contains k n := by
        intro k hk
        have := List.pairwise_append.mp hno
        exact this.2.2 k (hmem k hk) n (List.mem_cons_self _ _)
      rw [← hko]
      clear hT' hstep hd hT h4 h2 h3 h1 hmem' hko
      induction hS with
      | nil => rfl
      | cons hab _ ih2 =>
        rcases hab with h | ⟨-, hov⟩
        · rw [h, ih2 (fun r hr => hmem r (List.mem_cons_of_mem _ hr))
            (fun k hk => hnone k (List.mem_cons_of_mem _ hk))]
        · exact absurd hov (hnone _ (List.mem_cons_self _ _))

/-- Counterexample to C15 as stated: the list `[cornerCandidate, rowCandidate,
largeCandidate]` of DOM-unrelated candidates is sorted ascending by (top, left);
`largeCandidate` overwrites the nearby smaller `cornerCandidate` in place, so the
returned list `[largeCandidate, rowCandidate]` is not sorted and does not keep the
relative order of the input. -/
theorem dedup_order_counterexample :
    SortedByPosition [cornerCandidate, rowCandidate, largeCandidate]
    ∧ deduplicateElements flatDom [cornerCandidate, rowCandidate, largeCandidate]
        = [largeCandidate, rowCandidate]
    ∧ ¬ SortedByPosition
        (deduplicateElements flatDom [cornerCandidate, rowCandidate, largeCandidate])
    ∧ ¬ (deduplicateElements flatDom
          [cornerCandidate, rowCandidate, largeCandidate]).Sublist
        [cornerCandidate, rowCandidate, largeCandidate] := by
  have hkept := dedup_corner_row flatDom (by decide) (by decide)
  have hstep := dedupStep_corner_row_large flatDom (by decide) (by decide)
  have hall : deduplicateElements flatDom [cornerCandidate, rowCandidate, largeCandidate]
      = [largeCandidate, rowCandidate] := by
    have := deduplicateElements_append_singleton flatDom [cornerCandidate, rowCandidate]
      largeCandidate
    rw [hkept, hstep] at this
    exact this
  refine ⟨sorted_corner_row_large, hall, ?_, ?_⟩
  · rw [hall]
    norm_num [SortedByPosition, compareByPosition, largeCandidate, rowCandidate]
  · rw [hall]
    intro hs
    have hp : [cornerCandidate, rowCandidate, largeCandidate].Pairwise
        (fun a b => a.element < b.element) := by
      simp [cornerCandidate, rowCandidate, largeCandidate]
    have := hp.sublist hs
    simp [largeCandidate, rowCandidate] at this

/-- C15 (amended): for every candidate list sorted ascending by (top, left), the list
returned by `deduplicateElements` keeps its slots in the order of the input: there is a
sublist `opened` of the input, hence sorted ascending (the candidates that were pushed to
open the slots), such that the returned list has one candidate per slot, and the
candidate in a slot is the one that opened it or a candidate that is not before it in the
(top, left) order and took the slot by a chain of overwrites (an overwrite as the code
tests it: a DOM descendant with `area < existingArea * 0.8`, or an unrelated candidate
within the proximity threshold with a strictly larger area).  Every returned candidate
comes from the input.  When no candidate of the input overwrites an earlier one, the
returned list is `opened` itself: a sublist of the input, sorted ascending. -/
theorem dedup_order_preserved (contains : Nat → Nat → Bool) (l : List Candidate)
    (hsorted : SortedByPosition l) :
    ∃ opened : List Candidate,
      opened.Sublist l
      ∧ SortedByPosition opened
      ∧ List.Forall₂ (fun o r => compareByPosition o r ≤ 0
          ∧ Relation.ReflTransGen (overwrites contains) o r)
        opened (deduplicateElements contains l)
      ∧ (∀ r ∈ deduplicateElements contains l, r ∈ l)
      ∧ (l.Pairwise (fun a b => ¬ overwrites contains a b) →
          deduplicateElements contains l = opened
          ∧ (deduplicateElements contains l).Sublist l
          ∧ SortedByPosition (deduplicateElements contains l)) := by
  obtain ⟨opened, h1, h2, h3, h4⟩ := foldl_dedupStep_slots contains l [] [] []
    (by simpa using hsorted) (List.Sublist.refl _) List.Forall₂.nil
    (fun r hr => absurd hr (List.not_mem_nil r))
  have h1' : opened.Sublist l := by simpa using h1
  have hso : SortedByPosition opened := List.Pairwise.sublist h1' hsorted
  refine ⟨opened, h1', hso, h2, by simpa using h3, ?_⟩
  intro hno
  have he : deduplicateElements contains l = opened := h4 (by simpa using hno) rfl
  rw [he]
  exact ⟨rfl, h1', hso⟩

/-- Witness for C15: the slots of the result for the sorted list `[cornerCandidate,
rowCandidate, largeCandidate]`; the result `[largeCandidate, rowCandidate]` has its first
slot taken over by `largeCandidate`. -/
theorem dedup_order_preserved_witness :
    ∃ opened : List Candidate,
      opened.Sublist [cornerCandidate, rowCandidate, largeCandidate]
      ∧ SortedByPosition opened
      ∧ List.Forall₂ (fun o r => compareByPosition o r ≤ 0
          ∧ Relation.ReflTransGen (overwrites flatDom) o r)
        opened (deduplicateElements flatDom [cornerCandidate, rowCandidate, largeCandidate])
      ∧ (∀ r ∈ deduplicateElements flatDom [cornerCandidate, rowCandidate, largeCandidate],
          r ∈ [cornerCandidate, rowCandidate, largeCandidate])
      ∧ ([cornerCandidate, rowCandidate, largeCandidate].Pairwise
            (fun a b => ¬ overwrites flatDom a b) →
          deduplicateElements flatDom [cornerCandidate, rowCandidate, largeCandidate] = opened
          ∧ (deduplicateElements flatDom
              [cornerCandidate, rowCandidate, largeCandidate]).Sublist
              [cornerCandidate, rowCandidate, largeCandidate]
          ∧ SortedByPosition
              (deduplicateElements flatDom
                [cornerCandidate, rowCandidate, largeCandidate])) :=
  dedup_order_preserved flatDom [cornerCandidate, rowCandidate, largeCandidate]
    sorted_corner_row_large

/-! ## Match set, held keys, cancel and suppressed keys -/

/-- Counterexample to C16 as stated: the label `aa` starts with the typed `a` when letter
case is ignored on both, and `filterLabels` keeps its marker shown, yet the match set
computed by `handleKeySequence` for `a` is empty and the overlay is cancelled. -/
theorem match_set_case_counterexample :
    JS.startsWith (JS.toUpperCase "aa") (JS.toUpperCase "a") = true
    ∧ matchingElements [targetAt "aa" 10 10 1] (JS.toUpperCase "a") = []
    ∧ Idle (handleKeySequence clickLands "a" (armedState [targetAt "aa" 10 10 1]))
    ∧ (handleKeySequence clickLands "a" (armedState [targetAt "aa" 10 10 1])).trace
        = [Effect.hideAll]
    ∧ ((filterLabels (JS.toUpperCase "a")
          (armedState [targetAt "aa" 10 10 1])).overlayRenderer.labels.map
        (fun label => label.shown)) = [true] := by
  refine ⟨by decide, by decide, ⟨by decide, by decide⟩, by decide, by decide⟩

/-- C16 (amended): for every state with the overlay shown and every typed sequence other
than the word `ESCAPE`, the match set on which `handleKeySequence` decides is the list of
the targets whose label starts, case-sensitively, with the upper-cased sequence: when
this list is empty the overlay is cleared, when it is a single target whose label is the
upper-cased sequence that target is activated and the overlay cleared, and otherwise
`filterLabels` is called with the upper-cased sequence.  When every label is in upper
case the list is that of the targets whose label starts with the sequence when letter
case is ignored on both, which are the targets whose markers `filterLabels` keeps
shown. -/
theorem match_set_characterisation (click : ClickOutcome) (sequence : String) (w : World)
    (hvis : w.extension.isOverlayVisible = true) (hesc : sequence ≠ "ESCAPE") :
    (w.extension.elements.filter
        (fun t => JS.startsWith t.label (JS.toUpperCase sequence)) = [] →
      handleKeySequence click sequence w
        = clearOverlay { w with extension := { w.extension with currentInput := "" } })
    ∧ (∀ t : LabeledTarget,
        w.extension.elements.filter
          (fun t => JS.startsWith t.label (JS.toUpperCase sequence)) = [t] →
        t.label = JS.toUpperCase sequence →
        handleKeySequence click sequence w
          = clearOverlay
              { (clickAt click (JS.round t.position.x) (JS.round t.position.y)
                  { w with extension :=
                      { w.extension with currentInput := JS.toUpperCase sequence } }).1 with
                extension :=
                  { (clickAt click (JS.round t.position.x) (JS.round t.position.y)
                      { w with extension :=
                          { w.extension with
                            currentInput := JS.toUpperCase sequence } }).1.extension
                    with currentInput := "" } }
        ∧ activations (handleKeySequence click sequence w).trace
            = activations w.trace ++ [(JS.round t.position.x, JS.round t.position.y)])
    ∧ (w.extension.elements.filter
          (fun t => JS.startsWith t.label (JS.toUpperCase sequence)) ≠ [] →
        (∀ t : LabeledTarget,
          w.extension.elements.filter
            (fun t => JS.startsWith t.label (JS.toUpperCase sequence)) = [t] →
          t.label ≠ JS.toUpperCase sequence) →
        handleKeySequence click sequence w
          = filterLabels (JS.toUpperCase sequence)
              { w with extension :=
                  { w.extension with currentInput := JS.toUpperCase sequence } })
    ∧ (∀ t, t ∈ w.extension.elements.filter
              (fun t => JS.startsWith t.label (JS.toUpperCase sequence))
        ↔ t ∈ w.extension.elements
          ∧ JS.startsWith t.label (JS.toUpperCase sequence) = true)
    ∧ ((∀ t ∈ w.extension.elements, JS.toUpperCase t.label = t.label) →
        w.extension.elements.filter
            (fun t => JS.startsWith t.label (JS.toUpperCase sequence))
          = w.extension.elements.filter (fun t =>
              JS.startsWith (JS.toUpperCase t.label) (JS.toUpperCase sequence)))
    ∧ (filterLabels (JS.toUpperCase sequence) w).overlayRenderer.labels
        = w.overlayRenderer.labels.map (fun label =>
            { label with
              shown := JS.startsWith (JS.toUpperCase label.text)
                (JS.toUpperCase sequence) }) := by
  refine ⟨?_, ?_, ?_, ?_, ?_, ?_⟩
  · intro hnone
    rcases handleKeySequence_none click sequence w hvis hnone with h | h
    · exact h
    · unfold handleKeySequence
      simp [hvis, hesc, matchingElements, hnone]
  · intro t hone hlabel
    have h := handleKeySequence_exact click sequence w t hvis hesc hone hlabel
    refine ⟨h, ?_⟩
    rw [h]
    cases hd : click.dispatched <;>
      simp [emit, clearOverlay, hideAll, setSequenceListening, activations,
        List.filterMap_append, clickAt, handleClick, hd, hvis]
  · intro hsome hnot
    apply handleKeySequence_narrow click sequence w hvis hesc hsome
    rintro ⟨h1, h2⟩
    obtain ⟨t, ht⟩ := List.length_eq_one.mp h1
    have ht' : w.extension.elements.filter
        (fun t => JS.startsWith t.label (JS.toUpperCase sequence)) = [t] := ht
    unfold matchingElements at h2
    rw [ht'] at h2
    simp only [List.head?_cons, Option.map_some', Option.some.injEq] at h2
    exact hnot t ht' h2
  · intro t
    rw [List.mem_filter]
  · intro hup
    apply List.filter_congr
    intro t ht
    rw [hup t ht]
  · simp [filterLabels, emit, toUpperCase_toUpperCase]

/-- Witness for C16: with the upper-case labels `AA`, `AB`, `JJ` and the overlay shown,
the typed `a` is matched by `AA` and `AB`, and `filterLabels` is called with `A`. -/
theorem match_set_characterisation_witness :
    handleKeySequence clickLands "a"
        (armedState [targetAt "AA" 10 10 1, targetAt "AB" 50 50 2, targetAt "JJ" 90 90 3])
      = filterLabels (JS.toUpperCase "a")
          { armedState [targetAt "AA" 10 10 1, targetAt "AB" 50 50 2, targetAt "JJ" 90 90 3]
            with extension :=
              { (armedState [targetAt "AA" 10 10 1, targetAt "AB" 50 50 2,
                  targetAt "JJ" 90 90 3]).extension
                with currentInput := JS.toUpperCase "a" } } :=
  (match_set_characterisation clickLands "a"
    (armedState [targetAt "AA" 10 10 1, targetAt "AB" 50 50 2, targetAt "JJ" 90 90 3])
    rfl (by decide)).2.2.1 (by decide)
    (fun t ht => by
      have hlist : List.filter (fun t => JS.startsWith t.label (JS.toUpperCase "a"))
          (armedState [targetAt "AA" 10 10 1, targetAt "AB" 50 50 2,
            targetAt "JJ" 90 90 3]).extension.elements
          = [targetAt "AA" 10 10 1, targetAt "AB" 50 50 2] := by decide
      rw [hlist] at ht
      simp at ht)

theorem handleKeySequence_trace (click : ClickOutcome) (sequence : String) (w : World) :
    ∃ rest, (handleKeySequence click sequence w).trace = w.trace ++ rest := by
  unfold handleKeySequence
  by_cases hv : w.extension.isOverlayVisible = true
  · simp only [hv, Bool.not_true, Bool.false_eq_true, if_false]
    split
    · exact ⟨[Effect.hideAll], by simp [clearOverlay, hideAll, setSequenceListening, emit]⟩
    · split
      · cases hd : click.dispatched
        · exact ⟨_, by
            simp [clearOverlay, hideAll, setSequenceListening, emit, clickAt, hd]; rfl⟩
        · exact ⟨_, by
            simp [clearOverlay, hideAll, setSequenceListening, emit, clickAt, hd,
              handleClick, hv]; rfl⟩
      · split
        · exact ⟨[Effect.hideAll], by
            simp [clearOverlay, hideAll, setSequenceListening, emit]⟩
        · exact ⟨_, by simp [filterLabels, emit]; rfl⟩
  · exact ⟨[], by simp [hv]⟩

theorem handleKeyDown_held (page : Page) (click : ClickOutcome) (now : Int)
    (event : KeyEvent) (key : String) (w : World)
    (hkey : event.key = some key) (hletter : isLetterKey key = true)
    (hshort : isToggleShortcutPressed w.inputManager.shortcutKeys event = false)
    (hlisten : w.inputManager.sequenceListeningActive = true)
    (hheld : JS.toUpperCase key ∈ w.inputManager.keyPressed) :
    handleKeyDown page click now event w
      = emit Effect.stopPropagation (emit Effect.preventDefault w) := by
  have hlen := length_of_isLetterKey key hletter
  have h1 : key ≠ "" := ne_of_data_length_ne _ _ (by rw [hlen]; decide)
  have h2 : key ≠ "Escape" := ne_of_data_length_ne _ _ (by rw [hlen]; decide)
  unfold handleKeyDown
  simp [hkey, h1, h2, hshort, hlisten, hletter, hheld]

/-- C17: while Armed, a keydown (not the toggle shortcut) of a letter that is in
`keyPressed` only suppresses the event: the state is unchanged apart from the recorded
`preventDefault` and `stopPropagation`, so the prefix is unchanged and neither
`onSequence` nor an activation happens.  After a keyup of that letter it is no longer
held, and its next keydown is accepted: it is added to `keyPressed`, appended to the
sequence, and `onSequence` is called with the extended sequence. -/
theorem held_letter_ignored (page page2 : Page) (click click2 : ClickOutcome)
    (now now2 : Int) (event up event2 : KeyEvent) (key upKey key2 : String) (w : World)
    (harmed : Armed w)
    (hkey : event.key = some key) (hletter : isLetterKey key = true)
    (hshort : isToggleShortcutPressed w.inputManager.shortcutKeys event = false)
    (hheld : JS.toUpperCase key ∈ w.inputManager.keyPressed)
    (hup : up.key = some upKey) (hupLetter : isLetterKey upKey = true)
    (hupSame : JS.toUpperCase upKey = JS.toUpperCase key)
    (hkey2 : event2.key = some key2) (hletter2 : isLetterKey key2 = true)
    (hsame2 : JS.toUpperCase key2 = JS.toUpperCase key)
    (hshort2 : isToggleShortcutPressed w.inputManager.shortcutKeys event2 = false) :
    handleKeyDown page click now event w
        = emit Effect.stopPropagation (emit Effect.preventDefault w)
    ∧ (handleKeyDown page click now event w).inputManager.currentSequence
        = w.inputManager.currentSequence
    ∧ (handleKeyDown page click now event w).inputManager.keyPressed
        = w.inputManager.keyPressed
    ∧ (handleKeyDown page click now event w).trace
        = w.trace ++ [Effect.preventDefault, Effect.stopPropagation]
    ∧ JS.toUpperCase key
        ∉ (handleKeyUp up (handleKeyDown page click now event w)).inputManager.keyPressed
    ∧ handleKeyDown page2 click2 now2 event2
          (handleKeyUp up (handleKeyDown page click now event w))
        = emit Effect.stopPropagation (emit Effect.preventDefault
            (handleKeySequence click2
              (w.inputManager.currentSequence ++ JS.toUpperCase key)
              (acceptLetter (JS.toUpperCase key)
                (handleKeyUp up (handleKeyDown page click now event w)))))
    ∧ (∃ rest,
        (handleKeyDown page2 click2 now2 event2
          (handleKeyUp up (handleKeyDown page click now event w))).trace
          = w.trace ++ [Effect.preventDefault, Effect.stopPropagation]
            ++ [Effect.onSequence (w.inputManager.currentSequence ++ JS.toUpperCase key)]
            ++ rest) := by
  obtain ⟨hvis, hlisten⟩ := harmed
  have step1 := handleKeyDown_held page click now event key w hkey hletter hshort hlisten hheld
  have step2 := handleKeyUp_letter up upKey (handleKeyDown page click now event w) hup
    hupLetter
  have hnot : JS.toUpperCase key
      ∉ (handleKeyUp up (handleKeyDown page click now event w)).inputManager.keyPressed := by
    rw [step2, hupSame]
    simp [List.mem_filter]
  have hseq2 : (handleKeyUp up
      (handleKeyDown page click now event w)).inputManager.currentSequence
      = w.inputManager.currentSequence := by
    rw [step2, step1]; rfl
  have hkeys2 : (handleKeyUp up (handleKeyDown page click now event w)).inputManager.shortcutKeys
      = w.inputManager.shortcutKeys := by
    rw [step2, step1]; rfl
  have hlisten2 : (handleKeyUp up
      (handleKeyDown page click now event w)).inputManager.sequenceListeningActive = true := by
    rw [step2, step1]; exact hlisten
  have htrace2 : (handleKeyUp up (handleKeyDown page click now event w)).trace
      = w.trace ++ [Effect.preventDefault, Effect.stopPropagation] := by
    rw [step2, step1]; simp [emit]
  have step3 := handleKeyDown_letter page2 click2 now2 event2 key2
    (handleKeyUp up (handleKeyDown page click now event w)) hkey2 hletter2
    (by rw [hkeys2]; exact hshort2) hlisten2 (by rw [hsame2]; exact hnot)
  rw [hsame2, hseq2] at step3
  refine ⟨step1, by rw [step1]; rfl, by rw [step1]; rfl, by rw [step1]; simp [emit], hnot,
    step3, ?_⟩
  obtain ⟨rest, hrest⟩ := handleKeySequence_trace click2
    (w.inputManager.currentSequence ++ JS.toUpperCase key)
    (acceptLetter (JS.toUpperCase key)
      (handleKeyUp up (handleKeyDown page click now event w)))
  refine ⟨rest ++ [Effect.preventDefault, Effect.stopPropagation], ?_⟩
  rw [step3]
  simp only [emit]
  rw [hrest]
  simp [acceptLetter, emit, htrace2, hseq2]

/-- Witness for C17: with targets `AA`, `AB` and the letter A typed and still held, a
second keydown of A leaves the prefix `A`. -/
theorem held_letter_ignored_witness :
    (handleKeyDown emptyPage clickLands 0 (plainKey "a")
      (handleKeyDown emptyPage clickLands 0 (plainKey "a")
        (armedState [targetAt "AA" 10 10 1, targetAt "AB" 50 50 2]))).inputManager.currentSequence
      = "A" :=
  (held_letter_ignored emptyPage emptyPage clickLands clickLands 0 0 (plainKey "a")
    (plainKey "a") (plainKey "a") "a" "a" "a"
    (handleKeyDown emptyPage clickLands 0 (plainKey "a")
      (armedState [targetAt "AA" 10 10 1, targetAt "AB" 50 50 2]))
    ⟨rfl, rfl⟩ rfl (by decide) (by decide) (by decide) rfl (by decide) rfl rfl (by decide) rfl
    (by decide)).2.1

/-- C18: in every Armed state, with any prefix and any held keys, a keydown of Escape
that is not the toggle shortcut calls only `onCancel`, `hideAll`, `preventDefault` and
`stopPropagation` (no activation), clears the prefix and the held keys, and leaves the
matcher Idle with the overlay hidden. -/
theorem escape_cancels (page : Page) (click : ClickOutcome) (now : Int) (event : KeyEvent)
    (w : World)
    (harmed : Armed w) (hkey : event.key = some "Escape")
    (hshort : isToggleShortcutPressed w.inputManager.shortcutKeys event = false) :
    (handleKeyDown page click now event w).trace
        = w.trace ++ [Effect.onCancel, Effect.hideAll, Effect.preventDefault,
            Effect.stopPropagation]
    ∧ activations (handleKeyDown page click now event w).trace = activations w.trace
    ∧ (handleKeyDown page click now event w).inputManager.currentSequence = ""
    ∧ (handleKeyDown page click now event w).extension.currentInput = ""
    ∧ (handleKeyDown page click now event w).inputManager.keyPressed = []
    ∧ Idle (handleKeyDown page click now event w)
    ∧ (handleKeyDown page click now event w).overlayRenderer.isVisible = false
    ∧ (handleKeyDown page click now event w).overlayRenderer.labels = [] := by
  obtain ⟨hvis, hlisten⟩ := harmed
  unfold handleKeyDown
  simp [hkey, hshort, hlisten, emit, clearOverlay, clearSequence, hideAll,
    setSequenceListening, activations, Idle, List.filterMap_append]

/-- Witness for C18: with targets `AA`, `AB` and prefix `A`, Escape ends Idle. -/
theorem escape_cancels_witness :
    Idle (handleKeyDown emptyPage clickLands 0 (plainKey "Escape")
      (handleKeyDown emptyPage clickLands 0 (plainKey "a")
        (armedState [targetAt "AA" 10 10 1, targetAt "AB" 50 50 2]))) :=
  (escape_cancels emptyPage clickLands 0 (plainKey "Escape")
    (handleKeyDown emptyPage clickLands 0 (plainKey "a")
      (armedState [targetAt "AA" 10 10 1, targetAt "AB" 50 50 2]))
    ⟨rfl, rfl⟩ rfl (by decide)).2.2.2.2.2.1

theorem startsWith_F_ne_escape (key : String) (h : JS.startsWith key "F" = true) :
    key ≠ "Escape" := by
  intro e
  rw [e] at h
  exact absurd h (by decide)

theorem isLetterKey_false_of_length (key : String) (h : JS.length key ≠ 1) :
    isLetterKey key = false := by
  unfold isLetterKey
  simp [h]

theorem ne_empty_of_length (key : String) (h : JS.length key ≠ 0) : key ≠ "" := by
  intro e
  rw [e] at h
  exact h (by decide)

theorem ne_empty_of_matchesLetter (key : String) (h : JS.matchesLetter key = true) :
    key ≠ "" := by
  intro e
  rw [e] at h
  exact absurd h (by decide)

theorem handleKeyDown_prevented (page : Page) (click : ClickOutcome) (now : Int)
    (event : KeyEvent) (key : String) (w : World)
    (hkey : event.key = some key) (hne : key ≠ "") (hesc : key ≠ "Escape")
    (hletter : isLetterKey key = false)
    (hshort : isToggleShortcutPressed w.inputManager.shortcutKeys event = false)
    (hlisten : w.inputManager.sequenceListeningActive = true)
    (hprev : (preventedShortcuts event key).any (fun condition => condition) = true) :
    handleKeyDown page click now event w
      = emit Effect.stopPropagation (emit Effect.preventDefault w) := by
  unfold handleKeyDown
  simp only [hkey, hne, hesc, hshort, hlisten, hletter, if_false, if_true, Bool.false_eq_true,
    hprev]

/-- Counterexample to C19 as stated: while Armed with targets `SA`, `SD` and the default
Control+Alt shortcut, a keydown of S with Control held is a modifier+letter combination
that is not the shortcut; it is handled as the letter S: the prefix changes from empty to
`S`, `S` becomes a held key and `onSequence` runs. -/
theorem modifier_letter_counterexample :
    Armed (armedState [targetAt "SA" 10 10 1, targetAt "SD" 50 50 2])
    ∧ isToggleShortcutPressed
        (armedState [targetAt "SA" 10 10 1, targetAt "SD" 50 50 2]).inputManager.shortcutKeys
        ⟨some "s", false, true, false, false⟩ = false
    ∧ (armedState [targetAt "SA" 10 10 1,
        targetAt "SD" 50 50 2]).inputManager.currentSequence = ""
    ∧ (handleKeyDown emptyPage clickLands 0 ⟨some "s", false, true, false, false⟩
        (armedState [targetAt "SA" 10 10 1,
          targetAt "SD" 50 50 2])).inputManager.currentSequence = "S"
    ∧ (handleKeyDown emptyPage clickLands 0 ⟨some "s", false, true, false, false⟩
        (armedState [targetAt "SA" 10 10 1,
          targetAt "SD" 50 50 2])).inputManager.keyPressed = ["S"]
    ∧ (handleKeyDown emptyPage clickLands 0 ⟨some "s", false, true, false, false⟩
        (armedState [targetAt "SA" 10 10 1, targetAt "SD" 50 50 2])).trace
        = [Effect.onSequence "S", Effect.filterLabels "S", Effect.preventDefault,
            Effect.stopPropagation] := by
  refine ⟨⟨by decide, by decide⟩, by decide, by decide, by decide, by decide, by decide⟩

/-- C19 (amended): while Armed, a keydown that is not the toggle shortcut and is a
function key, Tab, Space or an arrow key, or a key other than Escape and other than a
single letter whose name contains a letter pressed with Alt or Control held, only has its
default behaviour and propagation suppressed: the state is unchanged apart from the
recorded `preventDefault` and `stopPropagation`, so prefix, held keys and the Armed state
are the same and `onSequence` is not called.  A keydown of a single letter is handled as a
letter whatever modifiers are held: it is suppressed too, and when the letter is not held
it is added to the held keys, appended to the prefix and passed to `onSequence`. -/
theorem suppressed_keys_frame (page : Page) (click : ClickOutcome) (now : Int)
    (event : KeyEvent) (key : String) (w : World)
    (harmed : Armed w) (hkey : event.key = some key)
    (hshort : isToggleShortcutPressed w.inputManager.shortcutKeys event = false) :
    ((key = "Tab" ∨ key = " " ∨ key = "Space"
        ∨ key ∈ ["ArrowUp", "ArrowDown", "ArrowLeft", "ArrowRight"]
        ∨ (JS.startsWith key "F" = true ∧ 2 ≤ JS.length key ∧ JS.length key ≤ 3)
        ∨ ((event.altKey = true ∨ event.ctrlKey = true) ∧ JS.matchesLetter key = true
            ∧ isLetterKey key = false ∧ key ≠ "Escape")) →
      handleKeyDown page click now event w
          = emit Effect.stopPropagation (emit Effect.preventDefault w)
      ∧ (handleKeyDown page click now event w).trace
          = w.trace ++ [Effect.preventDefault, Effect.stopPropagation]
      ∧ (handleKeyDown page click now event w).inputManager = w.inputManager
      ∧ (handleKeyDown page click now event w).extension = w.extension
      ∧ Armed (handleKeyDown page click now event w))
    ∧ (isLetterKey key = true → JS.toUpperCase key ∉ w.inputManager.keyPressed →
        handleKeyDown page click now event w
          = emit Effect.stopPropagation (emit Effect.preventDefault
              (handleKeySequence click (w.inputManager.currentSequence ++ JS.toUpperCase key)
                (acceptLetter (JS.toUpperCase key) w)))) := by
  obtain ⟨hvis, hlisten⟩ := harmed
  refine ⟨?_, ?_⟩
  · intro hcat
    have hmain : handleKeyDown page click now event w
        = emit Effect.stopPropagation (emit Effect.preventDefault w) := by
      rcases hcat with h | h | h | h | ⟨hF, h2, h3⟩ | ⟨hmod, hm, hl, he⟩
      · subst h
        exact handleKeyDown_prevented page click now event _ w hkey (by decide) (by decide)
          (by decide) hshort hlisten (by simp [preventedShortcuts])
      · subst h
        exact handleKeyDown_prevented page click now event _ w hkey (by decide) (by decide)
          (by decide) hshort hlisten (by simp [preventedShortcuts])
      · subst h
        exact handleKeyDown_prevented page click now event _ w hkey (by decide) (by decide)
          (by decide) hshort hlisten (by simp [preventedShortcuts])
      · simp only [List.mem_cons, List.mem_singleton, List.not_mem_nil, or_false] at h
        rcases h with h | h | h | h <;> subst h <;>
          exact handleKeyDown_prevented page click now event _ w hkey (by decide) (by decide)
            (by decide) hshort hlisten (by simp [preventedShortcuts])
      · exact handleKeyDown_prevented page click now event key w hkey
          (ne_empty_of_length key (by omega)) (startsWith_F_ne_escape key hF)
          (isLetterKey_false_of_length key (by omega)) hshort hlisten
          (by simp [preventedShortcuts, hF, h3])
      · exact handleKeyDown_prevented page click now event key w hkey
          (ne_empty_of_matchesLetter key hm) he hl hshort hlisten
          (by rcases hmod with h | h <;> simp [preventedShortcuts, h, hm])
    rw [hmain]
    exact ⟨rfl, by simp [emit], rfl, rfl, ⟨hvis, hlisten⟩⟩
  · intro hletter hnew
    exact handleKeyDown_letter page click now event key w hkey hletter hshort hlisten hnew

/-- Witness for C19: while Armed with prefix `A`, the keydown of F5 leaves the input
manager state as it was. -/
theorem suppressed_keys_frame_witness :
    (handleKeyDown emptyPage clickLands 0 (plainKey "F5")
      (handleKeyDown emptyPage clickLands 0 (plainKey "a")
        (armedState [targetAt "AA" 10 10 1, targetAt "AB" 50 50 2]))).inputManager
      = (handleKeyDown emptyPage clickLands 0 (plainKey "a")
          (armedState [targetAt "AA" 10 10 1, targetAt "AB" 50 50 2])).inputManager :=
  ((suppressed_keys_frame emptyPage clickLands 0 (plainKey "F5") "F5"
    (handleKeyDown emptyPage clickLands 0 (plainKey "a")
      (armedState [targetAt "AA" 10 10 1, targetAt "AB" 50 50 2]))
    ⟨rfl, rfl⟩ rfl (by decide)).1
    (Or.inr (Or.inr (Or.inr (Or.inr (Or.inl ⟨by decide, by decide, by decide⟩)))))).2.2.1

/-- Counterexample to C20 as stated: in the Idle state the keydown of Escape, which is
not the default shortcut, makes the handler call `preventDefault` and
`stopPropagation`. -/
theorem idle_escape_counterexample :
    Idle idleState
    ∧ isToggleShortcutPressed idleState.inputManager.shortcutKeys (plainKey "Escape") = false
    ∧ (handleKeyDown emptyPage clickLands 0 (plainKey "Escape") idleState).trace
        = [Effect.onCancel, Effect.hideAll, Effect.preventDefault, Effect.stopPropagation]
    ∧ Effect.preventDefault
        ∈ (handleKeyDown emptyPage clickLands 0 (plainKey "Escape") idleState).trace
    ∧ Effect.stopPropagation
        ∈ (handleKeyDown emptyPage clickLands 0 (plainKey "Escape") idleState).trace := by
  refine ⟨⟨by decide, by decide⟩, by decide, by decide, by decide, by decide⟩

/-- C20 (amended): while Idle, a keydown of Escape that is not the toggle shortcut clears
the sequence and the held keys, calls `onCancel` (which calls `hideAll` and resets the
coordinator), and then suppresses the event's default behaviour and stops its
propagation; the matcher remains Idle with an empty prefix and no activation is
dispatched. -/
theorem idle_escape (page : Page) (click : ClickOutcome) (now : Int) (event : KeyEvent)
    (w : World)
    (hidle : Idle w) (hkey : event.key = some "Escape")
    (hshort : isToggleShortcutPressed w.inputManager.shortcutKeys event = false) :
    (handleKeyDown page click now event w).trace
        = w.trace ++ [Effect.onCancel, Effect.hideAll, Effect.preventDefault,
            Effect.stopPropagation]
    ∧ activations (handleKeyDown page click now event w).trace = activations w.trace
    ∧ Idle (handleKeyDown page click now event w)
    ∧ (handleKeyDown page click now event w).inputManager.currentSequence = ""
    ∧ (handleKeyDown page click now event w).extension.currentInput = ""
    ∧ (handleKeyDown page click now event w).inputManager.keyPressed = [] := by
  obtain ⟨hvis, hlisten⟩ := hidle
  unfold handleKeyDown
  simp [hkey, hshort, hlisten, emit, clearOverlay, clearSequence, hideAll,
    setSequenceListening, activations, Idle, List.filterMap_append]

/-- Witness for C20: from the Idle state, Escape leaves the matcher Idle. -/
theorem idle_escape_witness :
    Idle (handleKeyDown emptyPage clickLands 0 (plainKey "Escape") idleState) :=
  (idle_escape emptyPage clickLands 0 (plainKey "Escape") idleState ⟨rfl, rfl⟩ rfl
    (by decide)).2.2.1

/-! ## Toggle effects, failing scans, activation outcome, table shape -/

theorem toggleOverlay_sequence (page : Page) (w : World)
    (hpre : w.extension.preloadComplete = true) :
    (toggleOverlay page w).inputManager.currentSequence = ""
    ∧ (toggleOverlay page w).inputManager.keyPressed = [] := by
  unfold toggleOverlay
  cases hv : w.extension.isOverlayVisible
  · simp only [hv, hpre, Bool.false_eq_true, if_false, Bool.not_true, Bool.not_false,
      setSequenceListening, renderLabels, emit, scanCurrentViewport]
    cases page.clickable <;> simp [setElements, hpre]
  · simp [hv, hpre, hideAll, setSequenceListening, clearSequence, emit]

/-- C21: on an initialised coordinator, an accepted shortcut toggle (a shortcut
detection that passes the debounce test) flips the matcher: from Idle it becomes Armed,
from Armed it becomes Idle, and in either direction `currentSequence` is the empty string
and `keyPressed` is empty afterwards; the same holds for `toggleOverlay` called
directly. -/
theorem toggle_resets_sequence (page : Page) (click : ClickOutcome) (now : Int)
    (event : KeyEvent) (key : String) (w : World)
    (hpre : w.extension.preloadComplete = true)
    (hkey : event.key = some key) (hne : key ≠ "")
    (hshort : isToggleShortcutPressed w.inputManager.shortcutKeys event = true)
    (hpass : now - w.inputManager.lastToggleTime > toggleDebounceMs) :
    (Idle w → Armed (handleKeyDown page click now event w))
    ∧ (Armed w → Idle (handleKeyDown page click now event w))
    ∧ (handleKeyDown page click now event w).extension.isOverlayVisible
        = !w.extension.isOverlayVisible
    ∧ (handleKeyDown page click now event w).inputManager.sequenceListeningActive
        = !w.extension.isOverlayVisible
    ∧ (handleKeyDown page click now event w).inputManager.currentSequence = ""
    ∧ (handleKeyDown page click now event w).inputManager.keyPressed = []
    ∧ (toggleOverlay page w).extension.isOverlayVisible = !w.extension.isOverlayVisible
    ∧ (toggleOverlay page w).inputManager.sequenceListeningActive
        = !w.extension.isOverlayVisible
    ∧ (toggleOverlay page w).inputManager.currentSequence = ""
    ∧ (toggleOverlay page w).inputManager.keyPressed = [] := by
  have step := handleKeyDown_shortcut page click now event key w hkey hne hshort
  rw [if_pos hpass] at step
  have f := toggleOverlay_facts page (emit Effect.onToggle
    { (emit Effect.stopPropagation (emit Effect.preventDefault w)) with
      inputManager := { w.inputManager with lastToggleTime := now } }) hpre
  have g := toggleOverlay_sequence page (emit Effect.onToggle
    { (emit Effect.stopPropagation (emit Effect.preventDefault w)) with
      inputManager := { w.inputManager with lastToggleTime := now } }) hpre
  rw [← step] at f g
  have hvis : (handleKeyDown page click now event w).extension.isOverlayVisible
      = !w.extension.isOverlayVisible := f.1
  have hlis : (handleKeyDown page click now event w).inputManager.sequenceListeningActive
      = !w.extension.isOverlayVisible := f.2.1
  have f0 := toggleOverlay_facts page w hpre
  have g0 := toggleOverlay_sequence page w hpre
  refine ⟨?_, ?_, hvis, hlis, g.1, g.2, f0.1, f0.2.1, g0.1, g0.2⟩
  · rintro ⟨h1, -⟩
    exact ⟨by rw [hvis, h1]; rfl, by rw [hlis, h1]; rfl⟩
  · rintro ⟨h1, -⟩
    exact ⟨by rw [hvis, h1]; rfl, by rw [hlis, h1]; rfl⟩

/-- Witness for C21: from the Idle state an accepted default-shortcut detection arms the
matcher with an empty sequence. -/
theorem toggle_resets_sequence_witness :
    Armed (handleKeyDown emptyPage clickLands 1000 controlAltEvent idleState) :=
  (toggle_resets_sequence emptyPage clickLands 1000 controlAltEvent "Alt" idleState rfl rfl
    (by decide) (by decide) (by decide)).1 ⟨rfl, rfl⟩

/-- C22: when a step of the `try` block of `scanCurrentViewport` (discovery, sorting,
deduplication or label allocation) throws, the method still returns, the list handed to
`ElementResolver.setElements` is empty and the following `resolveElements` returns the
empty list; when no step throws and the steps are those of the source, the result is that
of the `try` block. -/
theorem scan_failure_yields_empty {ε : Type} (discover : Except ε (List Candidate))
    (sort : List Candidate → Except ε (List Candidate))
    (deduplicate : List Candidate → Except ε (List Candidate))
    (allocate : List Candidate → Except ε (List LabeledTarget)) (w : World) :
    ((∃ e, discover = Except.error e)
      ∨ (∃ elements e, discover = Except.ok elements ∧ sort elements = Except.error e)
      ∨ (∃ elements sorted e, discover = Except.ok elements ∧ sort elements = Except.ok sorted
          ∧ deduplicate sorted = Except.error e)
      ∨ (∃ elements sorted deduped e, discover = Except.ok elements
          ∧ sort elements = Except.ok sorted ∧ deduplicate sorted = Except.ok deduped
          ∧ allocate deduped = Except.error e) →
      (scanCurrentViewportTry discover sort deduplicate allocate w).elementResolver.elements
          = []
      ∧ resolveElements
          (scanCurrentViewportTry discover sort deduplicate allocate w).elementResolver = [])
    ∧ (∀ (page : Page), page.clickable = none →
        (scanCurrentViewport page w).elementResolver.elements = []
        ∧ resolveElements (scanCurrentViewport page w).elementResolver = [])
    ∧ (∀ (page : Page) (elements : List Candidate), page.clickable = some elements →
        @scanCurrentViewportTry ε (Except.ok elements)
            (fun l => Except.ok (sortByPosition l))
            (fun l => Except.ok (deduplicateElements page.contains l))
            (fun l => Except.ok (allocateLabels page.innerWidth l)) w
          = scanCurrentViewport page w) := by
  refine ⟨?_, ?_, ?_⟩
  · intro h
    have hE : (scanCurrentViewportTry discover sort deduplicate allocate w).elementResolver.elements
        = [] := by
      unfold scanCurrentViewportTry
      rcases h with ⟨e, h1⟩ | ⟨els, e, h1, h2⟩ | ⟨els, s, e, h1, h2, h3⟩
        | ⟨els, s, d, e, h1, h2, h3, h4⟩
      · rw [h1]; rfl
      · rw [h1]
        show (match (sort els >>= deduplicate >>= allocate) with
          | Except.ok results => setElements results w
          | Except.error _ => setElements [] w).elementResolver.elements = []
        rw [h2]; rfl
      · rw [h1]
        show (match (sort els >>= deduplicate >>= allocate) with
          | Except.ok results => setElements results w
          | Except.error _ => setElements [] w).elementResolver.elements = []
        rw [h2]
        show (match (deduplicate s >>= allocate) with
          | Except.ok results => setElements results w
          | Except.error _ => setElements [] w).elementResolver.elements = []
        rw [h3]; rfl
      · rw [h1]
        show (match (sort els >>= deduplicate >>= allocate) with
          | Except.ok results => setElements results w
          | Except.error _ => setElements [] w).elementResolver.elements = []
        rw [h2]
        show (match (deduplicate s >>= allocate) with
          | Except.ok results => setElements results w
          | Except.error _ => setElements [] w).elementResolver.elements = []
        rw [h3]
        show (match (allocate d) with
          | Except.ok results => setElements results w
          | Except.error _ => setElements [] w).elementResolver.elements = []
        rw [h4]; rfl
    exact ⟨hE, by unfold resolveElements; rw [hE]; rfl⟩
  · intro page hp
    unfold scanCurrentViewport
    rw [hp]
    exact ⟨rfl, rfl⟩
  · intro page elements hp
    unfold scanCurrentViewport
    rw [hp]
    rfl

/-- Witness for C22: a discovery that throws leaves the resolver with no elements. -/
theorem scan_failure_yields_empty_witness :
    (scanCurrentViewportTry (Except.error "TypeError")
        (fun l => Except.ok (sortByPosition l))
        (fun l => Except.ok (deduplicateElements flatDom l))
        (fun l => Except.ok (allocateLabels 1000 l))
        (armedState [targetAt "AA" 10 10 1])).elementResolver.elements = [] :=
  ((scan_failure_yields_empty (Except.error "TypeError")
      (fun l => Except.ok (sortByPosition l))
      (fun l => Except.ok (deduplicateElements flatDom l))
      (fun l => Except.ok (allocateLabels 1000 l))
      (armedState [targetAt "AA" 10 10 1])).1 (Or.inl ⟨"TypeError", rfl⟩)).1

theorem handleKeySequence_exact_state (click : ClickOutcome) (sequence : String) (w : World)
    (t : LabeledTarget)
    (hvis : w.extension.isOverlayVisible = true) (hesc : sequence ≠ "ESCAPE")
    (hone : matchingElements w.extension.elements (JS.toUpperCase sequence) = [t])
    (hlabel : t.label = JS.toUpperCase sequence) :
    (handleKeySequence click sequence w).inputManager
        = { w.inputManager with
            sequenceListeningActive := false, currentSequence := "", keyPressed := [] }
    ∧ (handleKeySequence click sequence w).extension
        = { w.extension with isOverlayVisible := false, currentInput := "" }
    ∧ (handleKeySequence click sequence w).overlayRenderer = { labels := [], isVisible := false }
    ∧ (handleKeySequence click sequence w).elementResolver = w.elementResolver
    ∧ activations (handleKeySequence click sequence w).trace
        = activations w.trace ++ [(JS.round t.position.x, JS.round t.position.y)] := by
  rw [handleKeySequence_exact click sequence w t hvis hesc hone hlabel]
  cases hd : click.dispatched <;>
    simp [emit, clearOverlay, hideAll, setSequenceListening, activations,
      List.filterMap_append, clickAt, handleClick, hd, hvis]

/-- C23: on an exact match the state after `handleKeySequence` does not depend on what
`ClickSimulator.clickAt` returns: for any two outcomes of the click the input manager, the
coordinator, the overlay renderer and the resolver end in the same state and the same
activation is recorded (the whole state, trace included, is the same when the two outcomes
differ only in the returned boolean); the prefix is empty, the overlay is hidden and the
matcher is Idle. -/
theorem activation_result_irrelevant (click1 click2 : ClickOutcome) (sequence : String)
    (w : World) (t : LabeledTarget)
    (hvis : w.extension.isOverlayVisible = true) (hesc : sequence ≠ "ESCAPE")
    (hone : matchingElements w.extension.elements (JS.toUpperCase sequence) = [t])
    (hlabel : t.label = JS.toUpperCase sequence) :
    (handleKeySequence click1 sequence w).inputManager
        = (handleKeySequence click2 sequence w).inputManager
    ∧ (handleKeySequence click1 sequence w).extension
        = (handleKeySequence click2 sequence w).extension
    ∧ (handleKeySequence click1 sequence w).overlayRenderer
        = (handleKeySequence click2 sequence w).overlayRenderer
    ∧ (handleKeySequence click1 sequence w).elementResolver
        = (handleKeySequence click2 sequence w).elementResolver
    ∧ activations (handleKeySequence click1 sequence w).trace
        = activations (handleKeySequence click2 sequence w).trace
    ∧ (click1.dispatched = click2.dispatched →
        handleKeySequence click1 sequence w = handleKeySequence click2 sequence w)
    ∧ Idle (handleKeySequence click1 sequence w)
    ∧ (handleKeySequence click1 sequence w).inputManager.currentSequence = ""
    ∧ (handleKeySequence click1 sequence w).extension.currentInput = ""
    ∧ (handleKeySequence click1 sequence w).overlayRenderer.isVisible = false := by
  have s1 := handleKeySequence_exact_state click1 sequence w t hvis hesc hone hlabel
  have s2 := handleKeySequence_exact_state click2 sequence w t hvis hesc hone hlabel
  refine ⟨by rw [s1.1, s2.1], by rw [s1.2.1, s2.2.1], by rw [s1.2.2.1, s2.2.2.1],
    by rw [s1.2.2.2.1, s2.2.2.2.1], by rw [s1.2.2.2.2, s2.2.2.2.2], ?_, ?_, ?_, ?_, ?_⟩
  · intro hd
    rw [handleKeySequence_exact click1 sequence w t hvis hesc hone hlabel,
      handleKeySequence_exact click2 sequence w t hvis hesc hone hlabel]
    simp [clickAt, hd]
  · exact ⟨by rw [s1.2.1], by rw [s1.1]⟩
  · rw [s1.1]
  · rw [s1.2.1]
  · rw [s1.2.2.1]

/-- Witness for C23: with the target `AA` and prefix `A`, the sequence `AA` leaves the
same state for a click that reports success and one that reports failure. -/
theorem activation_result_irrelevant_witness :
    handleKeySequence ⟨true, true⟩ "AA" (armedState [targetAt "AA" 10 10 1])
      = handleKeySequence ⟨false, true⟩ "AA" (armedState [targetAt "AA" 10 10 1]) :=
  (activation_result_irrelevant ⟨true, true⟩ ⟨false, true⟩ "AA"
    (armedState [targetAt "AA" 10 10 1]) (targetAt "AA" 10 10 1) rfl (by decide) (by decide)
    (by decide)).2.2.2.2.2.1 rfl

/-- C26: every code of the near table `leftSequences` consists of exactly two upper-case
ASCII letters and starts with A, S, D or F; every code of the far table `rightSequences`
consists of exactly two upper-case ASCII letters and starts with J, K or L. -/
theorem code_table_shape :
    (∀ code ∈ leftSequences,
      code.data.length = 2 ∧ (∀ c ∈ code.data, c.isUpper = true)
      ∧ (code.data.head? = some 'A' ∨ code.data.head? = some 'S'
          ∨ code.data.head? = some 'D' ∨ code.data.head? = some 'F'))
    ∧ (∀ code ∈ rightSequences,
      code.data.length = 2 ∧ (∀ c ∈ code.data, c.isUpper = true)
      ∧ (code.data.head? = some 'J' ∨ code.data.head? = some 'K'
          ∨ code.data.head? = some 'L')) := by
  constructor <;> decide

/-- Witness for C26: the code `AA` of the near table has two upper-case letters. -/
theorem code_table_shape_witness :
    "AA".data.length = 2 ∧ (∀ c ∈ "AA".data, c.isUpper = true)
      ∧ ("AA".data.head? = some 'A' ∨ "AA".data.head? = some 'S'
          ∨ "AA".data.head? = some 'D' ∨ "AA".data.head? = some 'F') :=
  code_table_shape.1 "AA" (by decide)

theorem generateLabel_isSome_iff (table : List String) (i : Int) :
    (generateLabel table i).isSome = true ↔ 0 ≤ i ∧ i < (table.length : Int) := by
  unfold generateLabel
  by_cases h : 0 ≤ i ∧ i < (table.length : Int)
  · have hlt : i.toNat < table.length := by omega
    simp [h, List.getElem?_eq_getElem hlt]
  · simp [h]

/-- C28 (as the code has it): the literal `leftSequences` has 96 entries, 44 main and 52
fallback codes, not the 105 = 44 + 61 announced by the comments of `generateLeftLabel`;
`rightSequences` has 60 entries.  So `generateLeftLabel i` returns a code exactly for
`0 <= i < 96` and `null` for the indices 96 to 104, and `generateRightLabel i` returns a
code exactly for `0 <= i < 60`. -/
theorem code_table_sizes :
    leftSequences.length = 96
    ∧ (leftSequences.take 44).length = 44 ∧ (leftSequences.drop 44).length = 52
    ∧ rightSequences.length = 60
    ∧ (∀ i : Int, (generateLeftLabel i).isSome = true ↔ 0 ≤ i ∧ i < 96)
    ∧ (∀ i : Int, (generateRightLabel i).isSome = true ↔ 0 ≤ i ∧ i < 60)
    ∧ generateLeftLabel 96 = none ∧ generateLeftLabel 100 = none
    ∧ generateLeftLabel 104 = none
    ∧ generateLeftLabel 95 = some "FQ" := by
  refine ⟨by decide, by decide, by decide, by decide, ?_, ?_, by decide, by decide, by decide,
    by decide⟩
  · intro i
    exact generateLabel_isSome_iff leftSequences i
  · intro i
    exact generateLabel_isSome_iff rightSequences i

/-- Counterexample to C27 as stated: default-shortcut detections at 1000 ms, 1250 ms and
1400 ms from the Idle state.  The second is ignored by the debounce; the third occurs
150 ms after it, the immediately preceding detection, and still toggles the overlay,
because 400 ms have passed since the detection that toggled last. -/
theorem debounce_counterexample :
    (runDetections [1000] idleState).extension.isOverlayVisible = true
    ∧ toggleCount (runDetections [1000] idleState).trace = 1
    ∧ (runDetections [1000, 1250] idleState).extension.isOverlayVisible = true
    ∧ toggleCount (runDetections [1000, 1250] idleState).trace = 1
    ∧ (1400 : Int) - 1250 ≤ 300
    ∧ (runDetections [1000, 1250, 1400] idleState).extension.isOverlayVisible = false
    ∧ toggleCount (runDetections [1000, 1250, 1400] idleState).trace = 2 := by
  decide

/-- C27 (amended): a shortcut detection that occurs within 300 ms of the last detection
that toggled the overlay never toggles it: it only suppresses the event and leaves
`lastToggleTime` and the rest of the state as they are, also when it follows ignored
detections.  `lastToggleTime` is the time of the last accepted detection: an accepted
detection at `now` stores `now`, and `toggleOverlay` does not change it. -/
theorem debounce_from_last_toggle (page : Page) (click : ClickOutcome) (now : Int)
    (event : KeyEvent) (key : String) (w : World)
    (hkey : event.key = some key) (hne : key ≠ "")
    (hshort : isToggleShortcutPressed w.inputManager.shortcutKeys event = true) :
    (now - w.inputManager.lastToggleTime ≤ 300 →
      handleKeyDown page click now event w
          = emit Effect.stopPropagation (emit Effect.preventDefault w)
      ∧ toggleCount (handleKeyDown page click now event w).trace = toggleCount w.trace
      ∧ (handleKeyDown page click now event w).extension.isOverlayVisible
          = w.extension.isOverlayVisible
      ∧ (handleKeyDown page click now event w).inputManager = w.inputManager)
    ∧ (now - w.inputManager.lastToggleTime > 300 →
      (handleKeyDown page click now event w).inputManager.lastToggleTime = now
      ∧ toggleCount (handleKeyDown page click now event w).trace = toggleCount w.trace + 1
      ∧ (handleKeyDown page click now event w).inputManager.shortcutKeys
          = w.inputManager.shortcutKeys) := by
  have step := handleKeyDown_shortcut page click now event key w hkey hne hshort
  constructor
  · intro h
    rw [if_neg (by unfold toggleDebounceMs; omega)] at step
    rw [step]
    exact ⟨rfl, by simp [emit, toggleCount, List.count_append], rfl, rfl⟩
  · intro h
    rw [if_pos (by unfold toggleDebounceMs; omega)] at step
    rw [step]
    unfold toggleOverlay
    cases hv : w.extension.isOverlayVisible
    · cases hp : w.extension.preloadComplete
      · simp [emit, hv, hp, toggleCount, List.count_append]
      · simp only [emit, hv, hp, Bool.false_eq_true, if_false, Bool.not_true,
          setSequenceListening, renderLabels, scanCurrentViewport, toggleCount]
        cases page.clickable <;> simp [setElements, List.count_append]
    · simp [emit, hv, hideAll, setSequenceListening, clearSequence, toggleCount,
        List.count_append]

/-- Witness for C27: after the accepted detection at 1000 ms the detection at 1250 ms
does not toggle. -/
theorem debounce_from_last_toggle_witness :
    toggleCount (handleKeyDown emptyPage clickLands 1250 controlAltEvent
        (runDetections [1000] idleState)).trace
      = toggleCount (runDetections [1000] idleState).trace :=
  ((debounce_from_last_toggle emptyPage clickLands 1250 controlAltEvent "Alt"
    (runDetections [1000] idleState) rfl (by decide) (by decide)).1 (by decide)).2.1

/-! ## Element discovery -/

theorem isElementClickable_ok_iff (element : Option DomElement) (v : JSValue)
    (h : isElementClickable element = Except.ok v) :
    v.truthy = false ↔ describedAsRejected element := by
  cases element with
  | none =>
    simp only [isElementClickable, Except.ok.injEq] at h
    subst h
    simp [describedAsRejected, JSValue.truthy]
  | some el =>
    unfold describedAsRejected
    simp only [isElementClickable] at h
    by_cases h1 : (el.disabled || el.hasAttribute "disabled" || el.hidden) = true
    · rw [if_pos h1] at h
      simp only [Except.ok.injEq] at h
      subst h
      simp only [Bool.or_eq_true] at h1
      simp only [JSValue.truthy, true_iff]
      left
      tauto
    · rw [if_neg h1] at h
      have h1' : ¬ (el.disabled = true ∨ el.hasAttribute "disabled" = true
          ∨ el.hidden = true) := by
        simp only [Bool.or_eq_true] at h1
        tauto
      by_cases h2 : (["button", "a", "input", "textarea", "select"].contains
          (JS.toLowerCase el.tagName)) = true
      · rw [if_pos h2] at h
        simp only [Except.ok.injEq] at h
        subst h
        have h2' : JS.toLowerCase el.tagName ∈ ["button", "a", "input", "textarea", "select"] :=
          (contains_eq_true_iff _ _).mp h2
        have hmedia : JS.toLowerCase el.tagName ∉ ["video", "audio", "img"] := by
          intro hm
          simp only [List.mem_cons, List.mem_singleton, List.not_mem_nil, or_false] at h2' hm
          rcases hm with hm | hm | hm <;> rw [hm] at h2' <;> revert h2' <;> decide
        simp only [JSValue.truthy, bne_eq_false_iff_eq]
        constructor
        · intro ht; right; left; exact ⟨h2', ht⟩
        · rintro (hd | ⟨-, ht⟩ | ⟨hm, -⟩)
          · exact absurd hd h1'
          · exact ht
          · exact absurd hm hmedia
      · rw [if_neg h2] at h
        have h2' : JS.toLowerCase el.tagName ∉ ["button", "a", "input", "textarea", "select"] :=
          fun hm => h2 ((contains_eq_true_iff _ _).mpr hm)
        by_cases h3 : (["video", "audio", "img"].contains (JS.toLowerCase el.tagName)) = true
        · rw [if_pos h3] at h
          simp only [Except.ok.injEq] at h
          subst h
          have h3' := (contains_eq_true_iff _ _).mp h3
          cases ho : el.hasAttribute "onclick" <;> cases ht : el.hasAttribute "tabindex" <;>
            simp [JSValue.truthy, h1', h2', h3', ho, ht]
        · rw [if_neg h3] at h
          have h3' : JS.toLowerCase el.tagName ∉ ["video", "audio", "img"] :=
            fun hm => h3 ((contains_eq_true_iff _ _).mpr hm)
          have hv : v = JSValue.boolean true := by
            split at h
            · exact (Except.ok.inj h).symm
            · split at h
              · exact absurd h (by simp)
              · split at h
                · exact (Except.ok.inj h).symm
                · split at h <;> exact (Except.ok.inj h).symm
          rw [hv]
          simp only [JSValue.truthy, Bool.true_eq_false, false_iff]
          rintro (hd | ⟨hm, -⟩ | ⟨hm, -⟩)
          · exact h1' hd
          · exact h2' hm
          · exact h3' hm

theorem isElementClickable_returns (el : DomElement)
    (h : el.className ≠ ClassName.animated) :
    ∃ v, isElementClickable (some el) = Except.ok v := by
  simp only [isElementClickable]
  split
  · exact ⟨_, rfl⟩
  · split
    · exact ⟨_, rfl⟩
    · split
      · exact ⟨_, rfl⟩
      · split
        · exact ⟨_, rfl⟩
        · split
          · rename_i hc; exact absurd hc h
          · split
            · exact ⟨_, rfl⟩
            · split <;> exact ⟨_, rfl⟩

/-- C24 (as the code has it): whenever `isElementClickable` returns, it returns a falsy
value exactly for the elements described as rejected (null, disabled or hidden, a standard
interactive tag of type `hidden`, a media element without `onclick`, `tabindex` and role),
and it returns for every element whose `className` is a string.  For an SVG element, whose
`className` is an `SVGAnimatedString`, that carries none of the attributes tested before
`className.includes(...)`, the call throws a `TypeError` instead of accepting the element:
`svgIcon` is not described as rejected, yet `isElementClickable` does not accept it and
`scanClickableElements` fails on a document that contains it. -/
theorem clickability_filter :
    (∀ (element : Option DomElement) (v : JSValue),
      isElementClickable element = Except.ok v →
      (v.truthy = false ↔ describedAsRejected element))
    ∧ (∀ el : DomElement, el.className ≠ ClassName.animated →
        ∃ v, isElementClickable (some el) = Except.ok v)
    ∧ ¬ describedAsRejected (some svgIcon)
    ∧ isElementClickable (some svgIcon) = Except.error includesTypeError
    ∧ scanClickableElements svgDocument = Except.error includesTypeError := by
  refine ⟨isElementClickable_ok_iff, isElementClickable_returns, ?_, rfl, rfl⟩
  unfold describedAsRejected
  decide

/-- Witness for C24: the enabled, visible submit button `belowFoldButton` is accepted and
is not described as rejected. -/
theorem clickability_filter_witness :
    (JSValue.boolean true).truthy = false ↔ describedAsRejected (some belowFoldButton) :=
  clickability_filter.1 (some belowFoldButton) (JSValue.boolean true) rfl

theorem scanElement_items (doc : Document) (state state' : ScanState) (el : DomElement)
    (h : scanElement doc state el = Except.ok state')
    (hP : ∀ c ∈ state.items, passedSizeChecks doc.innerWidth doc.innerHeight c) :
    ∀ c ∈ state'.items, passedSizeChecks doc.innerWidth doc.innerHeight c := by
  unfold scanElement at h
  have keep : ∀ {s : ScanState}, (Except.ok state : Except String ScanState) = Except.ok s →
      ∀ c ∈ s.items, passedSizeChecks doc.innerWidth doc.innerHeight c := by
    intro s hs
    rw [← Except.ok.inj hs]
    exact hP
  by_cases h0 : state.seenElements.contains el.handle = true
  · rw [if_pos h0] at h; exact keep h
  rw [if_neg h0] at h
  cases hc : isElementClickable (some el) with
  | error e => rw [hc] at h; exact absurd h (by simp)
  | ok v =>
    rw [hc] at h
    simp only [] at h
    by_cases h1 : (!v.truthy) = true
    · rw [if_pos h1] at h; exact keep h
    rw [if_neg h1] at h
    by_cases hsize : el.rect.width < 15 ∨ el.rect.height < 10
    · rw [if_pos hsize] at h; exact keep h
    rw [if_neg hsize] at h
    by_cases hneg : el.rect.top + el.rect.height < 0 ∨ el.rect.left + el.rect.width < 0
    · rw [if_pos hneg] at h; exact keep h
    rw [if_neg hneg] at h
    by_cases hout : el.rect.top > doc.innerHeight ∨ el.rect.left > doc.innerWidth
    · rw [if_pos hout] at h; exact keep h
    rw [if_neg hout] at h
    by_cases h5 : (el.style.visibility == "hidden" || el.style.display == "none") = true
    · rw [if_pos h5] at h; exact keep h
    rw [if_neg h5] at h
    by_cases h6 : (el.style.opacity == "0") = true
    · rw [if_pos h6] at h; exact keep h
    rw [if_neg h6] at h
    by_cases h7 : (el.style.pointerEvents == "none") = true
    · rw [if_pos h7] at h; exact keep h
    rw [if_neg h7] at h
    split at h
    · exact keep h
    · split at h
      · rw [← Except.ok.inj h]
        intro c hc
        rcases List.mem_append.mp hc with hc | hc
        · exact hP c hc
        · rw [List.mem_singleton.mp hc]
          simp only [not_or, not_lt] at hsize hneg hout
          exact ⟨hsize.1, hsize.2, hneg.1, hneg.2, hout.1, hout.2⟩
      · exact keep h

theorem foldlM_scan_items (doc : Document) (l : List DomElement) :
    ∀ (state state' : ScanState), l.foldlM (scanElement doc) state = Except.ok state' →
      (∀ c ∈ state.items, passedSizeChecks doc.innerWidth doc.innerHeight c) →
      ∀ c ∈ state'.items, passedSizeChecks doc.innerWidth doc.innerHeight c := by
  induction l with
  | nil =>
    intro state state' h hP
    simp only [List.foldlM_nil, pure, Except.pure, Except.ok.injEq] at h
    rw [← h]; exact hP
  | cons el t ih =>
    intro state state' h hP
    rw [List.foldlM_cons] at h
    cases hs : scanElement doc state el with
    | error e =>
      rw [hs] at h
      exact absurd h (by simp [bind, Except.bind])
    | ok mid =>
      rw [hs] at h
      exact ih mid state' h (scanElement_items doc state mid el hs hP)

theorem scanClickableElements_bounds (doc : Document) (items : List Candidate)
    (h : scanClickableElements doc = Except.ok items) :
    ∀ c ∈ items, passedSizeChecks doc.innerWidth doc.innerHeight c := by
  unfold scanClickableElements at h
  split at h
  · rename_i state hstate
    rw [← Except.ok.inj h]
    exact foldlM_scan_items doc _ _ state hstate (fun c hc => absurd hc (List.not_mem_nil c))
  · exact absurd h (by simp)

theorem scan_belowFoldDocument :
    scanClickableElements belowFoldDocument
      = Except.ok [{ x := 20, y := 800, width := 100, height := 40, element := 8 }] := by
  have hc : isElementClickable (some belowFoldButton) = Except.ok (JSValue.boolean true) := rfl
  have hstep : scanElement belowFoldDocument { seen := [], seenElements := [], items := [] }
      belowFoldButton
      = Except.ok
          { seen := [(JS.round 20, JS.round 800, JS.round 100, JS.round 40)],
            seenElements := [8],
            items := [{ x := 20, y := 800, width := 100, height := 40, element := 8 }] } := by
    unfold scanElement
    rw [hc]
    norm_num [belowFoldDocument, belowFoldButton, visibleStyle, JSValue.truthy]
    rw [if_neg (by decide), if_neg (by decide), if_neg (by decide)]
  unfold scanClickableElements allClickableElements pointerElements
  simp only [belowFoldDocument, List.filter_nil, List.append_nil, List.foldlM_cons,
    List.foldlM_nil]
  have hstep' := hstep
  simp only [belowFoldDocument] at hstep'
  rw [hstep']
  rfl

/-- Counterexample to C25 as stated: for a 1000 x 800 viewport the scan returns the
button whose top edge is at 800, the bottom edge of the viewport; no part of positive area
of its rectangle lies inside the viewport. -/
theorem scan_viewport_counterexample :
    belowFoldDocument.innerWidth = 1000 ∧ belowFoldDocument.innerHeight = 800
    ∧ scanClickableElements belowFoldDocument
        = Except.ok [{ x := 20, y := 800, width := 100, height := 40, element := 8 }]
    ∧ ¬ insideViewport 1000 800
        { x := 20, y := 800, width := 100, height := 40, element := 8 } := by
  refine ⟨rfl, rfl, scan_belowFoldDocument, ?_⟩
  unfold insideViewport
  norm_num

/-- C25 (amended): every candidate returned by `scanClickableElements` has width at
least 15 and height at least 10 and passes the viewport tests `top + height >= 0`,
`left + width >= 0`, `top <= vh`, `left <= vw`: its rectangle meets the closed viewport
rectangle `[0, vw] x [0, vh]`, possibly only along an edge.  It has a part of positive
area inside the viewport exactly when these four tests hold strictly. -/
theorem scan_viewport_bounds (doc : Document) (items : List Candidate)
    (h : scanClickableElements doc = Except.ok items) :
    (∀ c ∈ items, 15 ≤ c.width ∧ 10 ≤ c.height ∧ 0 ≤ c.y + c.height ∧ 0 ≤ c.x + c.width
        ∧ c.y ≤ doc.innerHeight ∧ c.x ≤ doc.innerWidth)
    ∧ (0 ≤ doc.innerWidth → 0 ≤ doc.innerHeight → ∀ c ∈ items,
        max 0 c.x ≤ min doc.innerWidth (c.x + c.width)
        ∧ max 0 c.y ≤ min doc.innerHeight (c.y + c.height))
    ∧ (0 < doc.innerWidth → 0 < doc.innerHeight → ∀ c ∈ items,
        (insideViewport doc.innerWidth doc.innerHeight c
          ↔ 0 < c.x + c.width ∧ c.x < doc.innerWidth ∧ 0 < c.y + c.height
            ∧ c.y < doc.innerHeight)) := by
  have hb := scanClickableElements_bounds doc items h
  refine ⟨hb, ?_, ?_⟩
  · intro hw hh c hc
    obtain ⟨h1, h2, h3, h4, h5, h6⟩ := hb c hc
    simp only [max_le_iff, le_min_iff]
    exact ⟨⟨⟨hw, h6⟩, h4, by linarith⟩, ⟨hh, h5⟩, h3, by linarith⟩
  · intro hw hh c hc
    obtain ⟨h1, h2, h3, h4, h5, h6⟩ := hb c hc
    unfold insideViewport
    simp only [max_lt_iff, lt_min_iff]
    constructor
    · rintro ⟨⟨⟨-, a2⟩, a3, -⟩, ⟨-, a6⟩, a7, -⟩
      exact ⟨a3, a2, a7, a6⟩
    · rintro ⟨a1, a2, a3, a4⟩
      exact ⟨⟨⟨hw, a2⟩, a1, by linarith⟩, ⟨hh, a4⟩, a3, by linarith⟩

/-- Witness for C25: the candidate returned for `belowFoldDocument` is 100 wide and 40
high and its top edge is not below the viewport height. -/
theorem scan_viewport_bounds_witness :
    (15 : ℚ) ≤ 100 ∧ (10 : ℚ) ≤ 40 ∧ (0 : ℚ) ≤ 800 + 40 ∧ (0 : ℚ) ≤ 20 + 100
      ∧ (800 : ℚ) ≤ belowFoldDocument.innerHeight ∧ (20 : ℚ) ≤ belowFoldDocument.innerWidth :=
  (scan_viewport_bounds belowFoldDocument
    [{ x := 20, y := 800, width := 100, height := 40, element := 8 }]
    scan_belowFoldDocument).1
    { x := 20, y := 800, width := 100, height := 40, element := 8 }
    (List.mem_singleton.mpr rfl)

/-! ## Invariants over sequences of operations -/

theorem invariant_of_idle (w w' : World) (h : MatcherInvariant w)
    (hels : w'.extension.elements = w.extension.elements)
    (hvis : w'.extension.isOverlayVisible = false)
    (hlis : w'.inputManager.sequenceListeningActive = false) : MatcherInvariant w' := by
  refine ⟨?_, ?_, ?_, ?_⟩
  · unfold Synchronised; rw [hvis, hlis]
  · rw [hels]; exact h.2.1
  · rw [hels]; exact h.2.2.1
  · intro hl; rw [hlis] at hl; exact absurd hl (by decide)

theorem invariant_of_same (w w' : World) (h : MatcherInvariant w)
    (hels : w'.extension.elements = w.extension.elements)
    (hvis : w'.extension.isOverlayVisible = w.extension.isOverlayVisible)
    (hlis : w'.inputManager.sequenceListeningActive = w.inputManager.sequenceListeningActive)
    (hseq : w'.inputManager.currentSequence = w.inputManager.currentSequence) :
    MatcherInvariant w' := by
  refine ⟨?_, ?_, ?_, ?_⟩
  · unfold Synchronised; rw [hvis, hlis]; exact h.1
  · rw [hels]; exact h.2.1
  · rw [hels]; exact h.2.2.1
  · rw [hlis, hseq]; exact h.2.2.2

theorem clearOverlay_fields (w : World) :
    (clearOverlay w).extension.elements = w.extension.elements
    ∧ (clearOverlay w).extension.isOverlayVisible = false
    ∧ (clearOverlay w).inputManager.sequenceListeningActive = false := by
  simp [clearOverlay, hideAll, setSequenceListening, emit]

theorem handleClick_fields (w : World) :
    (handleClick w).extension.elements = w.extension.elements
    ∧ (handleClick w).extension.isOverlayVisible = false
    ∧ ((handleClick w).inputManager.sequenceListeningActive = false
        ∨ (handleClick w) = w) := by
  unfold handleClick
  cases hv : w.extension.isOverlayVisible
  · simp [hv]
  · simp [hv, clearOverlay, hideAll, setSequenceListening, emit]

/-- `handleKeySequence` either leaves the state as it is, or clears the overlay, or only
filters the markers. -/
theorem handleKeySequence_frame (click : ClickOutcome) (sequence : String) (w : World) :
    (handleKeySequence click sequence w).extension.elements = w.extension.elements
    ∧ (((handleKeySequence click sequence w).extension.isOverlayVisible = false
        ∧ (handleKeySequence click sequence w).inputManager.sequenceListeningActive = false)
      ∨ ((handleKeySequence click sequence w).inputManager = w.inputManager
        ∧ (handleKeySequence click sequence w).extension.isOverlayVisible
            = w.extension.isOverlayVisible)) := by
  unfold handleKeySequence
  cases hv : w.extension.isOverlayVisible
  · simp [hv]
  · simp only [hv, Bool.not_true, Bool.false_eq_true, if_false]
    split
    · simp [clearOverlay, hideAll, setSequenceListening, emit]
    · split
      · cases hd : click.dispatched <;>
          simp [clearOverlay, hideAll, setSequenceListening, emit, clickAt, handleClick, hd, hv]
      · split
        · simp [clearOverlay, hideAll, setSequenceListening, emit]
        · simp [filterLabels, emit]

theorem handleKeySequence_invariant (click : ClickOutcome) (sequence : String) (w : World)
    (h : MatcherInvariant w) : MatcherInvariant (handleKeySequence click sequence w) := by
  obtain ⟨hels, hcase⟩ := handleKeySequence_frame click sequence w
  rcases hcase with ⟨hv, hl⟩ | ⟨him, hv⟩
  · exact invariant_of_idle w _ h hels hv hl
  · exact invariant_of_same w _ h hels hv (by rw [him]) (by rw [him])

theorem clearOverlay_invariant (w : World) (h : MatcherInvariant w) :
    MatcherInvariant (clearOverlay w) :=
  invariant_of_idle w _ h (clearOverlay_fields w).1 (clearOverlay_fields w).2.1
    (clearOverlay_fields w).2.2

theorem handleClick_invariant (w : World) (h : MatcherInvariant w) :
    MatcherInvariant (handleClick w) := by
  unfold handleClick
  split
  · exact clearOverlay_invariant w h
  · exact h

theorem handleScroll_invariant (w : World) (h : MatcherInvariant w) :
    MatcherInvariant (handleScroll w) := by
  unfold handleScroll
  split
  · exact clearOverlay_invariant w h
  · exact h

set_option maxRecDepth 100000 in
theorem table_codes_length :
    ∀ code ∈ leftSequences ++ rightSequences, code.data.length = 2 := by
  decide

theorem allocateLabels_label_length (innerWidth : ℚ) (l : List Candidate) :
    ∀ u ∈ allocateLabels innerWidth l, u.label.data.length = 2 := by
  intro u hu
  have hmem : u.label ∈ (allocateLabels innerWidth l).map (fun t => t.label) :=
    List.mem_map_of_mem _ hu
  rw [allocateLabels_eq, List.map_append, map_label_zipWith, map_label_zipWith] at hmem
  apply table_codes_length
  rcases List.mem_append.mp hmem with h | h
  · exact List.mem_append_left _ (List.mem_of_mem_take h)
  · exact List.mem_append_right _ (List.mem_of_mem_take h)

theorem resolved_scan_labels (page : Page) (w : World) :
    (∀ u ∈ resolveElements (scanCurrentViewport page w).elementResolver,
        u.label.data.length = 2)
    ∧ ((resolveElements (scanCurrentViewport page w).elementResolver).map
        (fun u => u.label)).Nodup := by
  unfold scanCurrentViewport resolveElements
  cases page.clickable with
  | none => simp [setElements]
  | some elements =>
    simp only [setElements]
    split
    · simp
    · exact ⟨allocateLabels_label_length _ _, allocateLabels_labels_nodup _ _⟩

theorem toggleOverlay_invariant (page : Page) (w : World) (h : MatcherInvariant w) :
    MatcherInvariant (toggleOverlay page w) := by
  unfold toggleOverlay
  cases hv : w.extension.isOverlayVisible
  · cases hp : w.extension.preloadComplete
    · simpa [hv, hp] using h
    · simp only [hv, hp, Bool.false_eq_true, if_false, Bool.not_true]
      have hr := resolved_scan_labels page w
      refine ⟨?_, ?_, ?_, ?_⟩
      · simp [Synchronised, setSequenceListening, renderLabels, emit]
      · simpa [setSequenceListening, renderLabels, emit] using hr.1
      · simpa [setSequenceListening, renderLabels, emit] using hr.2
      · intro _
        simp [setSequenceListening, renderLabels, emit]
  · simp only [hv, if_true]
    exact invariant_of_idle w _ h
      (by simp [hideAll, setSequenceListening, clearSequence, emit])
      (by simp [hideAll, setSequenceListening, clearSequence, emit])
      (by simp [hideAll, setSequenceListening, clearSequence, emit])

/-- Case analysis of `handleKeyDown`: a property kept by every step the handler is made of
is kept by the handler. -/
theorem handleKeyDown_preserves (P : World → Prop)
    (hemit : ∀ e w, P w → P (emit e w))
    (hstamp : ∀ (now : Int) w, P w →
      P { w with inputManager := { w.inputManager with lastToggleTime := now } })
    (htoggle : ∀ page w, P w → P (toggleOverlay page w))
    (hclear : ∀ w, P w → P (clearOverlay w))
    (hclearSeq : ∀ w, P w → P (clearSequence w))
    (hletter : ∀ click upperKey w, P w → w.inputManager.sequenceListeningActive = true →
      upperKey.data.length = 1 →
      P (handleKeySequence click (w.inputManager.currentSequence ++ upperKey)
          (acceptLetter upperKey w)))
    (page : Page) (click : ClickOutcome) (now : Int) (event : KeyEvent) (w : World)
    (h : P w) : P (handleKeyDown page click now event w) := by
  unfold handleKeyDown
  cases hk : event.key with
  | none => exact h
  | some key =>
    simp only
    by_cases h1 : key = ""
    · rw [if_pos h1]; exact h
    rw [if_neg h1]
    by_cases h2 : isToggleShortcutPressed w.inputManager.shortcutKeys event = true
    · rw [if_pos h2]
      split
      · exact htoggle _ _ (hemit _ _ (hstamp _ _ (hemit _ _ (hemit _ _ h))))
      · exact hemit _ _ (hemit _ _ h)
    rw [if_neg h2]
    by_cases h3 : w.inputManager.sequenceListeningActive = true
    · rw [if_pos h3]
      by_cases h4 : key = "Escape"
      · rw [if_pos h4]
        exact hemit _ _ (hemit _ _ (hclear _ (hemit _ _ (hclearSeq _ h))))
      rw [if_neg h4]
      by_cases h5 : isLetterKey key = true
      · rw [if_pos h5]
        apply hemit; apply hemit
        split
        · have hlen : (JS.toUpperCase key).data.length = 1 := by
            rw [length_toUpperCase]; exact length_of_isLetterKey key h5
          exact hletter click (JS.toUpperCase key) w h h3 hlen
        · exact h
      rw [if_neg h5]
      split
      · exact hemit _ _ (hemit _ _ h)
      · exact h
    · rw [if_neg h3]
      split
      · exact hemit _ _ (hemit _ _ (hclear _ (hemit _ _ (hclearSeq _ h))))
      · exact h

theorem clearOverlay_synchronised (w : World) : Synchronised (clearOverlay w) := by
  unfold Synchronised
  rw [(clearOverlay_fields w).2.1, (clearOverlay_fields w).2.2]

theorem toggleOverlay_synchronised (page : Page) (w : World) (h : Synchronised w) :
    Synchronised (toggleOverlay page w) := by
  unfold toggleOverlay
  cases hv : w.extension.isOverlayVisible
  · cases hp : w.extension.preloadComplete
    · simpa [hv, hp] using h
    · simp [hv, hp, Synchronised, setSequenceListening, renderLabels, emit]
  · simp [hv, Synchronised, hideAll, setSequenceListening, clearSequence, emit]

theorem handleKeySequence_synchronised (click : ClickOutcome) (sequence : String) (w : World)
    (h : Synchronised w) : Synchronised (handleKeySequence click sequence w) := by
  obtain ⟨-, hcase⟩ := handleKeySequence_frame click sequence w
  unfold Synchronised at *
  rcases hcase with ⟨hv, hl⟩ | ⟨him, hv⟩
  · rw [hv, hl]
  · rw [hv, him]; exact h

theorem handleKeyDown_synchronised (page : Page) (click : ClickOutcome) (now : Int)
    (event : KeyEvent) (w : World) (h : Synchronised w) :
    Synchronised (handleKeyDown page click now event w) := by
  refine handleKeyDown_preserves Synchronised ?_ ?_ ?_ ?_ ?_ ?_ page click now event w h
  · intro e w h; exact h
  · intro now w h; exact h
  · exact toggleOverlay_synchronised
  · intro w _; exact clearOverlay_synchronised w
  · intro w h; exact h
  · intro click upperKey w h _ _
    exact handleKeySequence_synchronised click _ _ h

theorem handleKeyUp_fields (event : KeyEvent) (w : World) :
    (handleKeyUp event w).extension = w.extension
    ∧ (handleKeyUp event w).inputManager.sequenceListeningActive
        = w.inputManager.sequenceListeningActive
    ∧ (handleKeyUp event w).inputManager.currentSequence = w.inputManager.currentSequence := by
  unfold handleKeyUp
  cases event.key with
  | none => exact ⟨rfl, rfl, rfl⟩
  | some key =>
    simp only
    split
    · exact ⟨rfl, rfl, rfl⟩
    · split
      · exact ⟨rfl, rfl, rfl⟩
      · exact ⟨rfl, rfl, rfl⟩

theorem applyOperation_synchronised (op : Operation) (w : World) (h : Synchronised w) :
    Synchronised (applyOperation op w) := by
  cases op with
  | toggleOverlay page => exact toggleOverlay_synchronised page w h
  | clearOverlay => exact clearOverlay_synchronised w
  | handleKeySequence click sequence => exact handleKeySequence_synchronised click sequence w h
  | handleScroll =>
    show Synchronised (handleScroll w)
    unfold handleScroll
    split
    · exact clearOverlay_synchronised w
    · exact h
  | handleClick =>
    show Synchronised (handleClick w)
    unfold handleClick
    split
    · exact clearOverlay_synchronised w
    · exact h
  | keyDown page click now event => exact handleKeyDown_synchronised page click now event w h
  | keyUp event =>
    show Synchronised (handleKeyUp event w)
    unfold Synchronised at *
    obtain ⟨he, hl, -⟩ := handleKeyUp_fields event w
    rw [he, hl]; exact h

theorem runOperations_synchronised (ops : List Operation) (w : World) (h : Synchronised w) :
    Synchronised (runOperations ops w) := by
  induction ops generalizing w with
  | nil => exact h
  | cons op rest ih => exact ih _ (applyOperation_synchronised op w h)

/-- C30: starting from a state with the overlay hidden and no letters captured (the
initial state of the content script), after every sequence of completed operations
(the coordinator methods `toggleOverlay`, `clearOverlay`, `handleKeySequence`,
`handleScroll`, `handleClick` and the key handlers `handleKeyDown`, `handleKeyUp`, with
arbitrary arguments) the flag `isOverlayVisible` equals
`InputManager.sequenceListeningActive`, so the matcher is Armed or Idle. -/
theorem visible_iff_listening (ops : List Operation) (w0 : World) (hinit : Idle w0) :
    (runOperations ops w0).extension.isOverlayVisible
      = (runOperations ops w0).inputManager.sequenceListeningActive
    ∧ (Armed (runOperations ops w0) ∨ Idle (runOperations ops w0)) := by
  have h : Synchronised (runOperations ops w0) :=
    runOperations_synchronised ops w0 (by unfold Synchronised; rw [hinit.1, hinit.2])
  refine ⟨h, ?_⟩
  unfold Synchronised at h
  unfold Armed Idle
  cases hv : (runOperations ops w0).extension.isOverlayVisible
  · right; exact ⟨rfl, by rw [← h, hv]⟩
  · left; exact ⟨rfl, by rw [← h, hv]⟩

/-- Witness for C30: from the idle state, after the default shortcut, the letter A, a
scroll, a direct `handleKeySequence` call and a click, the two flags agree. -/
theorem visible_iff_listening_witness :
    Idle idleState
    ∧ (runOperations
        [Operation.keyDown emptyPage clickLands 1000 controlAltEvent,
         Operation.keyDown emptyPage clickLands 1001 (plainKey "a"),
         Operation.keyUp (plainKey "a"), Operation.handleScroll,
         Operation.handleKeySequence clickLands "A", Operation.handleClick,
         Operation.toggleOverlay emptyPage, Operation.clearOverlay]
        idleState).extension.isOverlayVisible
      = (runOperations
        [Operation.keyDown emptyPage clickLands 1000 controlAltEvent,
         Operation.keyDown emptyPage clickLands 1001 (plainKey "a"),
         Operation.keyUp (plainKey "a"), Operation.handleScroll,
         Operation.handleKeySequence clickLands "A", Operation.handleClick,
         Operation.toggleOverlay emptyPage, Operation.clearOverlay]
        idleState).inputManager.sequenceListeningActive :=
  ⟨⟨rfl, rfl⟩, (visible_iff_listening _ idleState ⟨rfl, rfl⟩).1⟩

theorem startsWith_self (s : String) : JS.startsWith s s = true := by
  unfold JS.startsWith
  have := isPrefixOf_append_self s.data []
  simp

theorem emit_invariant (e : Effect) (w : World) (h : MatcherInvariant w) :
    MatcherInvariant (emit e w) :=
  invariant_of_same w _ h rfl rfl rfl rfl

/-- One accepted letter: the invariant is kept; with an empty prefix no activation is
dispatched, with a non-empty prefix the matcher ends Idle. -/
theorem acceptLetter_step (click : ClickOutcome) (upperKey : String) (w : World)
    (h : MatcherInvariant w) (hlisten : w.inputManager.sequenceListeningActive = true)
    (hlen : upperKey.data.length = 1) :
    MatcherInvariant
      (handleKeySequence click (w.inputManager.currentSequence ++ upperKey)
        (acceptLetter upperKey w))
    ∧ (w.inputManager.currentSequence = "" →
        activations (handleKeySequence click (w.inputManager.currentSequence ++ upperKey)
          (acceptLetter upperKey w)).trace = activations w.trace)
    ∧ (w.inputManager.currentSequence ≠ "" →
        Idle (handleKeySequence click (w.inputManager.currentSequence ++ upperKey)
          (acceptLetter upperKey w))
        ∧ ((∃ t ∈ w.extension.elements,
              t.label = JS.toUpperCase (w.inputManager.currentSequence ++ upperKey)
              ∧ activations (handleKeySequence click
                  (w.inputManager.currentSequence ++ upperKey) (acceptLetter upperKey w)).trace
                = activations w.trace ++ [(JS.round t.position.x, JS.round t.position.y)])
          ∨ ((∀ t ∈ w.extension.elements,
                t.label ≠ JS.toUpperCase (w.inputManager.currentSequence ++ upperKey))
              ∧ activations (handleKeySequence click
                  (w.inputManager.currentSequence ++ upperKey) (acceptLetter upperKey w)).trace
                = activations w.trace))) := by
  obtain ⟨hsync, hlab, hnd, hseq⟩ := h
  have hvis : (acceptLetter upperKey w).extension.isOverlayVisible = true := by
    show w.extension.isOverlayVisible = true
    rw [hsync]; exact hlisten
  have hels : (acceptLetter upperKey w).extension.elements = w.extension.elements := rfl
  have hbound := hseq hlisten
  have hinput : (JS.toUpperCase (w.inputManager.currentSequence ++ upperKey)).data.length
      = w.inputManager.currentSequence.data.length + 1 := by
    rw [length_toUpperCase, String.data_append, List.length_append, hlen]
  have hesc : w.inputManager.currentSequence ++ upperKey ≠ "ESCAPE" := by
    apply ne_of_data_length_ne
    rw [String.data_append, List.length_append, hlen]
    have : "ESCAPE".data.length = 6 := by decide
    omega
  -- the state after clearing is Idle and keeps the invariant
  have hidle : ∀ w', w'.extension.elements = w.extension.elements → Idle w' →
      MatcherInvariant w' := fun w' he hi =>
    invariant_of_idle w w' ⟨hsync, hlab, hnd, hseq⟩ he hi.1 hi.2
  by_cases hnone : matchingElements (acceptLetter upperKey w).extension.elements
      (JS.toUpperCase (w.inputManager.currentSequence ++ upperKey)) = []
  · -- no label continues the prefix: the overlay is cleared
    have hcases := handleKeySequence_none click _ _ hvis hnone
    have hfacts : Idle (handleKeySequence click (w.inputManager.currentSequence ++ upperKey)
          (acceptLetter upperKey w))
        ∧ activations (handleKeySequence click (w.inputManager.currentSequence ++ upperKey)
          (acceptLetter upperKey w)).trace = activations w.trace := by
      rcases hcases with hc | hc <;> rw [hc] <;>
        exact ⟨⟨(clearOverlay_fields _).2.1, (clearOverlay_fields _).2.2⟩, by
          simp [clearOverlay, hideAll, setSequenceListening, emit, acceptLetter, activations,
            List.filterMap_append]⟩
    have hno : ∀ t ∈ w.extension.elements,
        t.label ≠ JS.toUpperCase (w.inputManager.currentSequence ++ upperKey) := by
      intro t ht heq
      have hmem : t ∈ matchingElements (acceptLetter upperKey w).extension.elements
          (JS.toUpperCase (w.inputManager.currentSequence ++ upperKey)) := by
        rw [hels]
        exact List.mem_filter.mpr ⟨ht, by rw [← heq]; exact startsWith_self _⟩
      rw [hnone] at hmem
      exact absurd hmem (List.not_mem_nil _)
    refine ⟨hidle _ ?_ hfacts.1, fun _ => hfacts.2,
      fun _ => ⟨hfacts.1, Or.inr ⟨hno, hfacts.2⟩⟩⟩
    rw [(handleKeySequence_frame click _ _).1, hels]
  · obtain ⟨t, ht⟩ := List.exists_mem_of_ne_nil _ hnone
    have htmem : t ∈ w.extension.elements := by
      rw [← hels]; exact (List.mem_filter.mp ht).1
    have htpre : JS.startsWith t.label
        (JS.toUpperCase (w.inputManager.currentSequence ++ upperKey)) = true :=
      (List.mem_filter.mp ht).2
    by_cases hempty : w.inputManager.currentSequence.data.length = 0
    · -- first letter: the candidates are narrowed, nothing is activated
      have hnot : ¬ ((matchingElements (acceptLetter upperKey w).extension.elements
            (JS.toUpperCase (w.inputManager.currentSequence ++ upperKey))).length = 1
          ∧ (matchingElements (acceptLetter upperKey w).extension.elements
            (JS.toUpperCase (w.inputManager.currentSequence ++ upperKey))).head?.map
              (fun m => m.label)
            = some (JS.toUpperCase (w.inputManager.currentSequence ++ upperKey))) := by
        rintro ⟨-, hhead⟩
        cases hm : matchingElements (acceptLetter upperKey w).extension.elements
            (JS.toUpperCase (w.inputManager.currentSequence ++ upperKey)) with
        | nil => exact hnone hm
        | cons u rest =>
          rw [hm] at hhead
          simp only [List.head?_cons, Option.map_some', Option.some.injEq] at hhead
          have hu : u ∈ w.extension.elements := by
            rw [← hels]
            have hin : u ∈ matchingElements (acceptLetter upperKey w).extension.elements
                (JS.toUpperCase (w.inputManager.currentSequence ++ upperKey)) := by
              rw [hm]; exact List.mem_cons_self _ _
            exact (List.mem_filter.mp hin).1
          have h2 := hlab u hu
          rw [hhead, hinput, hempty] at h2
          omega
      rw [handleKeySequence_narrow click _ _ hvis hesc hnone hnot]
      refine ⟨⟨?_, hlab, hnd, ?_⟩, ?_, ?_⟩
      · show w.extension.isOverlayVisible = w.inputManager.sequenceListeningActive
        exact hsync
      · intro _
        show (w.inputManager.currentSequence ++ upperKey).data.length ≤ 1
        rw [String.data_append, List.length_append, hlen, hempty]
      · intro _
        simp [filterLabels, emit, acceptLetter, activations, List.filterMap_append]
      · intro hne
        exfalso; apply hne
        exact String.ext (List.length_eq_zero.mp hempty)
    · -- second letter: the only candidate is the exact match, which is activated
      have hdata : (JS.toUpperCase (w.inputManager.currentSequence ++ upperKey)).data
          = t.label.data := by
        apply isPrefixOf_eq_of_length _ _ htpre
        rw [hinput, hlab t htmem]; omega
      have hlabel : t.label = JS.toUpperCase (w.inputManager.currentSequence ++ upperKey) :=
        (String.ext hdata).symm
      have hone : matchingElements (acceptLetter upperKey w).extension.elements
          (JS.toUpperCase (w.inputManager.currentSequence ++ upperKey)) = [t] := by
        rw [← hlabel, hels]
        exact matchingElements_unique _ t hlab hnd htmem
      have hi : Idle (handleKeySequence click (w.inputManager.currentSequence ++ upperKey)
          (acceptLetter upperKey w)) := by
        rw [handleKeySequence_exact click _ _ t hvis hesc hone hlabel]
        exact ⟨(clearOverlay_fields _).2.1, (clearOverlay_fields _).2.2⟩
      have hact : activations (handleKeySequence click
            (w.inputManager.currentSequence ++ upperKey) (acceptLetter upperKey w)).trace
          = activations w.trace ++ [(JS.round t.position.x, JS.round t.position.y)] := by
        rw [handleKeySequence_exact click _ _ t hvis hesc hone hlabel]
        have hv : w.extension.isOverlayVisible = true := hvis
        cases hd : click.dispatched <;>
          simp [emit, clearOverlay, hideAll, setSequenceListening, acceptLetter, activations,
            List.filterMap_append, clickAt, handleClick, hd, hv]
      refine ⟨hidle _ ?_ hi, ?_, fun _ => ⟨hi, Or.inl ⟨t, htmem, hlabel, hact⟩⟩⟩
      · rw [(handleKeySequence_frame click _ _).1, hels]
      · intro he
        exfalso; apply hempty
        rw [he]; rfl

theorem handleKeyDown_invariant (page : Page) (click : ClickOutcome) (now : Int)
    (event : KeyEvent) (w : World) (h : MatcherInvariant w) :
    MatcherInvariant (handleKeyDown page click now event w) := by
  refine handleKeyDown_preserves MatcherInvariant emit_invariant ?_ toggleOverlay_invariant
    clearOverlay_invariant ?_ ?_ page click now event w h
  · intro now w h
    exact invariant_of_same w _ h rfl rfl rfl rfl
  · intro w h
    exact ⟨h.1, h.2.1, h.2.2.1, fun _ => Nat.zero_le 1⟩
  · intro click upperKey w h hlisten hlen
    exact (acceptLetter_step click upperKey w h hlisten hlen).1

theorem applyOperation_invariant (op : Operation) (w : World) (h : MatcherInvariant w) :
    MatcherInvariant (applyOperation op w) := by
  cases op with
  | toggleOverlay page => exact toggleOverlay_invariant page w h
  | clearOverlay => exact clearOverlay_invariant w h
  | handleKeySequence click sequence => exact handleKeySequence_invariant click sequence w h
  | handleScroll => exact handleScroll_invariant w h
  | handleClick => exact handleClick_invariant w h
  | keyDown page click now event => exact handleKeyDown_invariant page click now event w h
  | keyUp event =>
    obtain ⟨he, hl, hs⟩ := handleKeyUp_fields event w
    exact invariant_of_same w (handleKeyUp event w) h (by rw [he]) (by rw [he]) hl hs

theorem runOperations_invariant (ops : List Operation) (w : World) (h : MatcherInvariant w) :
    MatcherInvariant (runOperations ops w) := by
  induction ops generalizing w with
  | nil => exact h
  | cons op rest ih => exact ih _ (applyOperation_invariant op w h)

/-- C29: let the labels of the target set be pairwise distinct strings of exactly two
upper-case letters and let `w0` be Armed with an empty prefix.  In every state reached
from `w0` by a sequence of operations (key events in particular; a toggle re-scans the
page and allocates labels from the code tables), the prefix `currentSequence` held while
Armed has at most one character.  For a letter accepted in such an Armed state (a letter
key that is not the toggle shortcut and is not held): with an empty prefix no activation
is dispatched, and with a non-empty prefix the matcher ends Idle, either after the
activation of a target whose label is the typed code or, when no target has that label,
without any activation. -/
theorem prefix_at_most_one (w0 : World) (ops : List Operation)
    (harmed : Armed w0) (hempty : w0.inputManager.currentSequence = "")
    (hlabels : ∀ u ∈ w0.extension.elements,
      u.label.data.length = 2 ∧ ∀ c ∈ u.label.data, c.isUpper = true)
    (hdistinct : (w0.extension.elements.map (fun u => u.label)).Nodup) :
    (Armed (runOperations ops w0) →
      (runOperations ops w0).inputManager.currentSequence.data.length ≤ 1)
    ∧ ∀ (page : Page) (click : ClickOutcome) (now : Int) (event : KeyEvent) (key : String),
        event.key = some key → isLetterKey key = true →
        isToggleShortcutPressed (runOperations ops w0).inputManager.shortcutKeys event = false →
        JS.toUpperCase key ∉ (runOperations ops w0).inputManager.keyPressed →
        Armed (runOperations ops w0) →
        ((runOperations ops w0).inputManager.currentSequence = "" →
          activations (handleKeyDown page click now event (runOperations ops w0)).trace
            = activations (runOperations ops w0).trace)
        ∧ ((runOperations ops w0).inputManager.currentSequence ≠ "" →
          Idle (handleKeyDown page click now event (runOperations ops w0))
          ∧ ((∃ t ∈ (runOperations ops w0).extension.elements,
                t.label = JS.toUpperCase
                  ((runOperations ops w0).inputManager.currentSequence ++ JS.toUpperCase key)
                ∧ activations
                    (handleKeyDown page click now event (runOperations ops w0)).trace
                  = activations (runOperations ops w0).trace
                    ++ [(JS.round t.position.x, JS.round t.position.y)])
            ∨ ((∀ t ∈ (runOperations ops w0).extension.elements,
                  t.label ≠ JS.toUpperCase
                    ((runOperations ops w0).inputManager.currentSequence
                      ++ JS.toUpperCase key))
                ∧ activations
                    (handleKeyDown page click now event (runOperations ops w0)).trace
                  = activations (runOperations ops w0).trace))) := by
  have h0 : MatcherInvariant w0 :=
    ⟨by unfold Synchronised; rw [harmed.1, harmed.2], fun u hu => (hlabels u hu).1, hdistinct,
      fun _ => by rw [hempty]; exact Nat.zero_le 1⟩
  have hinv := runOperations_invariant ops w0 h0
  refine ⟨fun ha => hinv.2.2.2 ha.2, ?_⟩
  intro page click now event key hkey hletter hshort hnew ha
  have hlen : (JS.toUpperCase key).data.length = 1 := by
    rw [length_toUpperCase]; exact length_of_isLetterKey key hletter
  obtain ⟨-, hfirst, hsecond⟩ :=
    acceptLetter_step click (JS.toUpperCase key) (runOperations ops w0) hinv ha.2 hlen
  rw [handleKeyDown_letter page click now event key _ hkey hletter hshort ha.2 hnew]
  have htrace : ∀ w : World,
      activations (emit Effect.stopPropagation (emit Effect.preventDefault w)).trace
        = activations w.trace := by
    intro w
    simp [emit, activations, List.filterMap_append]
  rw [htrace]
  refine ⟨hfirst, fun hne => ?_⟩
  obtain ⟨hidle, hact⟩ := hsecond hne
  exact ⟨hidle, hact⟩

/-- Witness for C29: with the targets `AA` and `AB`, after the letter A has been pressed
and released the matcher is Armed with the prefix `A`, and the letter B then activates
`AB` and leaves the matcher Idle. -/
theorem prefix_at_most_one_witness :
    (pressRelease "a" (armedState
        [targetAt "AA" 10 10 1, targetAt "AB" 50 50 2])).inputManager.currentSequence.data.length
      ≤ 1
    ∧ Idle (handleKeyDown emptyPage clickLands 0 (plainKey "b")
        (pressRelease "a" (armedState [targetAt "AA" 10 10 1, targetAt "AB" 50 50 2]))) :=
  have h := prefix_at_most_one (armedState [targetAt "AA" 10 10 1, targetAt "AB" 50 50 2])
    [Operation.keyDown emptyPage clickLands 0 (plainKey "a"), Operation.keyUp (plainKey "a")]
    ⟨rfl, rfl⟩ rfl (by decide) (by decide)
  ⟨h.1 ⟨rfl, rfl⟩,
    ((h.2 emptyPage clickLands 0 (plainKey "b") "b" rfl (by decide) (by decide) (by decide)
      ⟨rfl, rfl⟩).2 (by decide)).1⟩

end ShortcutOverlay
